import Mathlib

/-!
# DEFEX rule lookup and rule loading

A shallow embedding of `security/samsung/defex_lsm/core/defex_rules_proc.c`.

* Pointers into `defex_packed_rules` are byte offsets (`GET_ITEM_PTR(offset)` is the array
  address plus `offset`), a nullable item pointer is an `Option Nat`.
* C strings are lists of bytes; the terminating NUL is implicit: reading at or past the end of
  the list yields `0`, and a `0` byte inside the list also terminates the string.
* The rule array is a list of bytes. The code does not check offsets against the array size;
  a read past the end of the list yields `0`.
* `int` values are `Int`; `unsigned long` seconds are `Nat` with explicit `% 2 ^ 64`.
* The headers `include/defex_rules.h` and `include/defex_internal.h` are not part of the
  sources at hand: everything they declare is a field of `Header`, and every theorem holds for
  all headers.
* Preprocessor switches are the fields of `Build`.
* Loops that the C code does not bound (`lookup_dir` over a sibling list, the read loop of
  `defex_check_integrity`, the `try_to_load` loop) take fuel and return `none` when it runs out.
* Calls into the rest of the kernel are recorded in `State.log`.
-/

namespace Defex

/-! ## What the missing headers declare, and the build switches -/

/-- Declarations taken from `include/defex_rules.h`, `include/defex_internal.h`,
`defex_packed_rules.inc` and the architecture: the placement of the fields of
`struct rule_item_struct` (byte position inside the item, and width in bytes of the integer
fields, stored little-endian), the `enum feature_types` constants that the code names,
`DEFEX_INTEGRITY_FAIL`, the array size of the `.inc` file and `PAGE_SIZE`. -/
structure Header where
  next_file_pos : Nat
  next_file_width : Nat
  next_level_pos : Nat
  next_level_width : Nat
  feature_type_pos : Nat
  feature_type_width : Nat
  size_pos : Nat
  size_width : Nat
  data_size_pos : Nat
  data_size_width : Nat
  integrity_pos : Nat
  name_pos : Nat
  sizeof_rule_item_struct : Nat
  feature_is_file : Int
  feature_for_recovery : Int
  feature_ped_exception : Int
  feature_safeplace_path : Int
  feature_immutable_path_open : Int
  feature_immutable_path_write : Int
  DEFEX_INTEGRITY_FAIL : Int
  inc_rules_array_size : Nat
  PAGE_SIZE : Nat

/-- Preprocessor switches of the translation unit. `lookup_enable` stands for
`DEFEX_SAFEPLACE_ENABLE || DEFEX_IMMUTABLE_ENABLE || DEFEX_PED_ENABLE`. The rule array and the
loaders exist only with `DEFEX_RAMDISK_ENABLE`, which the loader definitions below assume. -/
structure Build where
  kernel_only : Bool
  sign_enable : Bool
  integrity_enable : Bool
  lookup_enable : Bool

/-- The digest length `SHA256_DIGEST_SIZE` (line 57). -/
def SHA256_DIGEST_SIZE : Nat := 32

/-- The macro `DEFEX_RULES_ARRAY_SIZE` as redefined by lines 36-42: `256 * 1024` with
`DEFEX_KERNEL_ONLY`, else the size of the `.inc` file, raised to
`sizeof(struct rule_item_struct)` when below 8. It is `sizeof(defex_packed_rules)`. -/
def DEFEX_RULES_ARRAY_SIZE (B : Build) (H : Header) : Nat :=
  if B.kernel_only then 256 * 1024
  else if H.inc_rules_array_size < 8 then H.sizeof_rule_item_struct
  else H.inc_rules_array_size

/-! ## Bytes, strings and libc helpers -/

/-- The byte at index `i` of a buffer or string; `0` at and past the end. -/
def byte_at (s : List Nat) (i : Nat) : Nat := s.getD i 0 % 256

/-- A little-endian unsigned integer of `width` bytes at `pos`. -/
def read_le (mem : List Nat) (pos : Nat) : Nat → Nat
  | 0 => 0
  | width + 1 => byte_at mem pos + 256 * read_le mem (pos + 1) width

/-- The libc `strlen`: the number of bytes before the first NUL. -/
def strlen : List Nat → Nat
  | [] => 0
  | c :: s => if c % 256 = 0 then 0 else strlen s + 1

/-- The libc `strchr(s, c)` for a non-NUL `c`: the index of the first `c` before the
terminating NUL, `none` for a null result. -/
def strchr : List Nat → Nat → Option Nat
  | [], _ => none
  | x :: s, c =>
    if x % 256 = c then some 0
    else if x % 256 = 0 then none
    else (strchr s c).map (· + 1)

/-- The libc `memcmp(a, b, n)`: `0` when the first `n` bytes agree, else the difference of
the first pair of bytes that differ. -/
def memcmp (a b : List Nat) : Nat → Int
  | 0 => 0
  | n + 1 =>
    if byte_at a 0 = byte_at b 0 then memcmp a.tail b.tail n
    else (byte_at a 0 : Int) - (byte_at b 0 : Int)

/-- The libc `strncmp(a, b, n)`: like `memcmp`, but the comparison also stops after a NUL. -/
def strncmp (a b : List Nat) : Nat → Int
  | 0 => 0
  | n + 1 =>
    if byte_at a 0 = byte_at b 0 then
      if byte_at a 0 = 0 then 0 else strncmp a.tail b.tail n
    else (byte_at a 0 : Int) - (byte_at b 0 : Int)

/-- The libc `memcpy(dst, src, n)` on a destination array: the first `n` bytes come from
`src`; when `n` exceeds the array the result is longer than the array (the copy runs past
its end). -/
def memcpy (dst src : List Nat) (n : Nat) : List Nat :=
  (List.range n).map (fun i => src.getD i 0) ++ dst.drop n

/-- Conversion of an `int` to `size_t` (64 bit), as in the comparisons against `sizeof`. -/
def to_size_t (x : Int) : Nat := (x % 2 ^ 64).toNat

/-- Conversion of a 64-bit value to `int`. -/
def to_int (x : Int) : Int := (x + 2 ^ 31) % 2 ^ 32 - 2 ^ 31

/-- The bytes of an ASCII string literal. -/
def cstr (s : String) : List Nat := s.toList.map Char.toNat

/-! ## Fields of `struct rule_item_struct` -/

def next_file (H : Header) (mem : List Nat) (item : Nat) : Nat :=
  read_le mem (item + H.next_file_pos) H.next_file_width

def next_level (H : Header) (mem : List Nat) (item : Nat) : Nat :=
  read_le mem (item + H.next_level_pos) H.next_level_width

def feature_type (H : Header) (mem : List Nat) (item : Nat) : Int :=
  (read_le mem (item + H.feature_type_pos) H.feature_type_width : Nat)

def size (H : Header) (mem : List Nat) (item : Nat) : Nat :=
  read_le mem (item + H.size_pos) H.size_width

def data_size (H : Header) (mem : List Nat) (item : Nat) : Nat :=
  read_le mem (item + H.data_size_pos) H.data_size_width

/-- The address `item->integrity`, as the bytes from there on. -/
def integrity (H : Header) (mem : List Nat) (item : Nat) : List Nat :=
  mem.drop (item + H.integrity_pos)

/-- The address `item->name`, as the bytes from there on. -/
def name (H : Header) (mem : List Nat) (item : Nat) : List Nat :=
  mem.drop (item + H.name_pos)

/-! ## Program state and the surrounding kernel -/

/-- Calls that leave the translation unit or write the rule array. -/
inductive Event where
  | fopen (path : String)
  | fread (pos : Nat) (len : Nat)
  | memset_rules (len : Nat)
  | memcpy_rules (len : Nat)
  | check_integrity
  deriving DecidableEq

/-- The static variables of the file: `defex_packed_rules`, `is_recovery`, the statics of
`check_system_mount` and `load_rules_late`, and the record of calls made so far.
`load_lock` is true while another context holds the spinlock. -/
structure State where
  defex_packed_rules : List Nat
  is_recovery : Int
  mount_system_root : Int
  start_time : Nat
  last_time : Nat
  load_lock : Bool
  in_progress : Int
  log : List Event

/-- State at program start: zero-initialised statics, `mount_system_root = -1`. -/
def State.init (B : Build) (H : Header) : State :=
  { defex_packed_rules := List.replicate (DEFEX_RULES_ARRAY_SIZE B H) 0
    is_recovery := 0
    mount_system_root := -1
    start_time := 0
    last_time := 0
    load_lock := false
    in_progress := 0
    log := [] }

/-- A `struct file *` that is not null: whether it is an error pointer, and what
`local_fread(f, pos, buf, len)` returns and stores. -/
structure file where
  is_err : Bool
  local_fread : Nat → Nat → Int × List Nat

/-- Outcomes of the kernel services used by `defex_check_integrity` and
`check_system_mount`. -/
structure Kernel where
  alloc_shash_err : Bool
  shash_desc_null : Bool
  buff_null : Bool
  crypto_shash_init : Int
  crypto_shash_update : List Nat → List Nat → Int
  crypto_shash_final : List Nat → Int × List Nat
  sbin_recovery_opens : Bool
  system_bin_recovery_opens : Bool
  system_root_opens : Bool

/-- What one run of a loader meets: the two readings of `get_seconds()`, whether
`local_fopen(DEFEX_RULES_FILE)` succeeds, `i_size_read`, whether `vmalloc` succeeds, the
return value of `local_fread` with the buffer it filled, and the signature check
(`defex_rules_signature_check(data_buff, rules_size, &rules_size)` as result and stored size). -/
structure LoadEnv where
  cur_seconds : Nat
  start_seconds : Nat
  fopen_ok : Bool
  i_size : Int
  vmalloc_ok : Bool
  fread_ret : Int
  data_buff : List Nat
  defex_rules_signature_check : List Nat → Int → Int × Int

/-! ## Boot mode and readiness -/

/-- Lines 62-69: `bootmode=2` selects recovery mode. -/
def bootmode_setup (str : Option (List Nat)) (S : State) : Int × State :=
  match str with
  | none => (0, S)
  | some s => if byte_at s 0 = 50 then (0, { S with is_recovery := 1 }) else (0, S)

/-- Lines 72-77; `base` is the address of the array and never null. -/
def check_rules_ready (H : Header) (S : State) : Int :=
  if data_size H S.defex_packed_rules 0 = 0 then 0 else 1

/-- Lines 79-108: the first call probes the recovery binaries and `/system_root` and caches
the answer in `mount_system_root`. -/
def check_system_mount (X : Kernel) (S : State) : Bool × State :=
  if S.mount_system_root < 0 then
    let probes : List Event :=
      if X.sbin_recovery_opens then [Event.fopen "/sbin/recovery"]
      else [Event.fopen "/sbin/recovery", Event.fopen "/system/bin/recovery"]
    let is_recovery : Int :=
      if X.sbin_recovery_opens || X.system_bin_recovery_opens then 1 else S.is_recovery
    let mount_system_root : Int := if X.system_root_opens then 1 else 0
    (decide (mount_system_root > 0),
      { S with
        is_recovery := is_recovery
        mount_system_root := mount_system_root
        log := S.log ++ probes ++ [Event.fopen "/system_root"] })
  else (decide (S.mount_system_root > 0), S)

/-! ## Integrity check -/

/-- The read loop of lines 161-171. `file_size` is the read position, `fed` the bytes passed
to `crypto_shash_update` so far. The result is `false` for `goto hash_error`, `true` for the
`break`, with the bytes fed and the reads made, in order. -/
def hash_loop (X : Kernel) (H : Header) (f : file) :
    Nat → Nat → List Nat → Option (Bool × List Nat × List Event)
  | 0, _, _ => none
  | fuel + 1, file_size, fed =>
    let r := f.local_fread file_size H.PAGE_SIZE
    if r.1 < 0 then some (false, fed, [Event.fread file_size H.PAGE_SIZE])
    else if r.1 = 0 then some (true, fed, [Event.fread file_size H.PAGE_SIZE])
    else
      let chunk := r.2.take r.1.toNat
      if X.crypto_shash_update fed chunk < 0 then
        some (false, fed, [Event.fread file_size H.PAGE_SIZE])
      else
        (hash_loop X H f fuel (file_size + r.1.toNat) (fed ++ chunk)).map
          (fun q => (q.1, q.2.1, Event.fread file_size H.PAGE_SIZE :: q.2.2))

/-- Lines 111-196. `f` is not null here (the caller checks); `hash` is the address of the
saved digest. -/
def defex_check_integrity (X : Kernel) (H : Header) (fuel : Nat) (f : file) (hash : List Nat)
    (S : State) : Option (Int × State) :=
  let S0 : State := { S with log := S.log ++ [Event.check_integrity] }
  if memcmp (List.replicate SHA256_DIGEST_SIZE 0) hash SHA256_DIGEST_SIZE = 0 then some (0, S0)
  else if f.is_err then some (-1, S0)
  else if X.alloc_shash_err then some (-1, S0)
  else if X.shash_desc_null then some (-1, S0)
  else if X.buff_null then some (-1, S0)
  else if X.crypto_shash_init < 0 then some (-1, S0)
  else
    match hash_loop X H f fuel 0 [] with
    | none => none
    | some (false, _, reads) => some (-1, { S0 with log := S0.log ++ reads })
    | some (true, fed, reads) =>
      let r := X.crypto_shash_final fed
      if r.1 < 0 then some (-1, { S0 with log := S0.log ++ reads })
      else some (memcmp r.2 hash SHA256_DIGEST_SIZE, { S0 with log := S0.log ++ reads })

/-- Lines 198-203: `sizeof(integrity_default)` is 32, the 31 characters and the NUL. -/
def defex_integrity_default (file_path : List Nat) : Int :=
  strncmp (cstr "/system/bin/install-recovery.sh") file_path 32

/-! ## Loaders -/

/-- The name `DEFEX_RULES_FILE` (line 22). -/
def DEFEX_RULES_FILE : String := "/dpolicy"

/-- Lines 221-230: `spin_trylock`, the test of `in_progress`, `atomic_set(&in_progress, 1)`
and `spin_unlock`. The result is `none` when the call returns at line 222 (the lock is held by
another caller) or at line 226 (an attempt is in progress, the lock taken at line 221 is given
back); else it is the state at line 231, with the flag set and the lock released. -/
def late_enter (S : State) : Option State :=
  if S.load_lock then none
  else
    let S1 : State := { S with load_lock := true }
    if S1.in_progress ≠ 0 then none
    else some { S1 with in_progress := 1, load_lock := false }

/-- Lines 232-270, from the test of `start_time` to the label `do_exit`: the value of `res`
and the state on arrival at `do_exit`. -/
def late_attempt (B : Build) (H : Header) (e : LoadEnv) (S : State) : Int × State :=
  let cur_time := e.cur_seconds % 2 ^ 64
  let start_time := if S.start_time = 0 then e.start_seconds % 2 ^ 64 else S.start_time
  if cur_time = S.last_time then (0, { S with start_time := start_time })
  else if (cur_time + 2 ^ 64 - start_time) % 2 ^ 64 > 30 then
    (-1, { S with start_time := start_time })
  else
    let log1 := S.log ++ [Event.fopen DEFEX_RULES_FILE]
    if !e.fopen_ok then
      (0, { S with start_time := start_time, last_time := cur_time, log := log1 })
    else
      let data_size := to_int e.i_size
      if data_size ≤ 0 ∨ to_size_t data_size > DEFEX_RULES_ARRAY_SIZE B H <<< 1 then
        (0, { S with start_time := start_time, last_time := cur_time, log := log1 })
      else if !e.vmalloc_ok then
        (0, { S with start_time := start_time, last_time := cur_time, log := log1 })
      else
        let log2 := log1 ++ [Event.fread 0 data_size.toNat]
        let rules_size := e.fread_ret
        if rules_size ≤ 0 then
          (0, { S with start_time := start_time, last_time := cur_time, log := log2 })
        else
          let rules_size1 : Int :=
            if to_size_t rules_size > DEFEX_RULES_ARRAY_SIZE B H then
              (DEFEX_RULES_ARRAY_SIZE B H : Int)
            else rules_size
          ((if rules_size1 > 0 then 1 else 0),
            { S with
              defex_packed_rules := memcpy S.defex_packed_rules e.data_buff rules_size1.toNat
              start_time := start_time, last_time := cur_time
              log := log2 ++ [Event.memcpy_rules rules_size1.toNat] })

/-- Line 272, the label `do_exit`: `atomic_set(&in_progress, 0)`. -/
def late_exit (S : State) : State := { S with in_progress := 0 }

/-- Lines 210-274 (`DEFEX_KERNEL_ONLY`). The result is `res` and the state at return:
the entry of lines 221-230, then the attempt up to `do_exit`, then line 272. A call that
returns at line 222 or 226 leaves every static as it is. -/
def load_rules_late (B : Build) (H : Header) (e : LoadEnv) (S : State) : Int × State :=
  match late_enter S with
  | none => (0, S)
  | some S1 => ((late_attempt B H e S1).1, late_exit (late_attempt B H e S1).2)

/-- Lines 294-322 of `do_load_rules`, entered with the file open: the value of `res` at
`do_clean` and the state there. -/
def do_load_rules_read (B : Build) (H : Header) (e : LoadEnv) (S : State) : Int × State :=
  let data_size := to_int e.i_size
  if data_size ≤ 0 ∨ to_size_t data_size > DEFEX_RULES_ARRAY_SIZE B H <<< 1 then (-1, S)
  else if !e.vmalloc_ok then (-1, S)
  else
    let S1 : State := { S with log := S.log ++ [Event.fread 0 data_size.toNat] }
    let rules_size := e.fread_ret
    if rules_size ≤ 0 then (-1, S1)
    else
      let checked : Int × Int :=
        if B.sign_enable then
          let r := e.defex_rules_signature_check e.data_buff rules_size
          if r.1 = 0 ∧ to_size_t r.2 > DEFEX_RULES_ARRAY_SIZE B H then (-1, r.2) else r
        else (0, rules_size)
      if checked.1 = 0 then
        (checked.1,
          { S1 with
            defex_packed_rules := memcpy S1.defex_packed_rules e.data_buff checked.2.toNat
            log := S1.log ++ [Event.memcpy_rules checked.2.toNat] })
      else (checked.1, S1)

/-- Lines 277-335. The result is `res` and the state at return. -/
def do_load_rules (B : Build) (H : Header) (e : LoadEnv) (S : State) : Int × State :=
  let S1 : State :=
    { S with
      defex_packed_rules :=
        List.replicate (DEFEX_RULES_ARRAY_SIZE B H) 0
          ++ S.defex_packed_rules.drop (DEFEX_RULES_ARRAY_SIZE B H)
      log := S.log ++ [Event.memset_rules (DEFEX_RULES_ARRAY_SIZE B H),
        Event.fopen DEFEX_RULES_FILE] }
  if !e.fopen_ok then
    ((if B.kernel_only ∧ S1.is_recovery ≠ 0 then 0 else -1), S1)
  else
    let r := do_load_rules_read B H e S1
    if B.kernel_only ∧ r.2.is_recovery ≠ 0 ∧ r.1 ≠ 0 then (0, r.2) else r

/-! ## Lookup -/

/-- The test of lines 349-351 on one sibling. -/
def lookup_dir_match (H : Header) (mem : List Nat) (item : Nat) (nm : List Nat) (l : Nat)
    (for_recovery : Int) : Bool :=
  (decide (Int.land (feature_type H mem item) H.feature_is_file = 0)
    || decide ((if Int.land (feature_type H mem item) H.feature_for_recovery ≠ 0
        then (1 : Int) else 0) = for_recovery))
  && decide (size H mem item = l) && decide (memcmp nm (name H mem item) l = 0)

/-- The `do ... while (offset)` loop of lines 348-355, started at `item`. -/
def lookup_dir_loop (H : Header) (mem : List Nat) (nm : List Nat) (l : Nat)
    (for_recovery : Int) : Nat → Nat → Option (Option Nat)
  | 0, _ => none
  | fuel + 1, item =>
    if lookup_dir_match H mem item nm l for_recovery then some (some item)
    else
      let offset := next_file H mem item % 2 ^ 32
      if offset ≠ 0 then lookup_dir_loop H mem nm l for_recovery fuel offset else some none

/-- Lines 339-357; `base` points into the array and is never null. -/
def lookup_dir (H : Header) (mem : List Nat) (fuel : Nat) (base : Nat) (nm : List Nat)
    (l : Nat) (for_recovery : Int) : Option (Option Nat) :=
  if next_level H mem base = 0 then some none
  else lookup_dir_loop H mem nm l for_recovery fuel (next_level H mem base)

/-- Lines 394-396: the search with `is_recovery`, then with `!is_recovery`. -/
def lookup_both (H : Header) (mem : List Nat) (fuel : Nat) (base : Nat) (nm : List Nat)
    (l : Nat) (is_recovery : Int) : Option (Option Nat) :=
  match lookup_dir H mem fuel base nm l is_recovery with
  | none => none
  | some (some item) => some (some item)
  | some none => lookup_dir H mem fuel base nm l (if is_recovery = 0 then 1 else 0)

/-- Lines 408-414: the verdict once the integrity check is behind. `sep` tells whether
`next_separator` is not null, `after` is `*(ptr + l + 1)`. -/
def lookup_folder_rule (H : Header) (mem : List Nat) (attr : Int) (cur_item : Nat) (sep : Bool)
    (after : Nat) : Int :=
  if Int.land attr (Int.lor H.feature_immutable_path_open H.feature_immutable_path_write) ≠ 0
      ∧ Int.land (feature_type H mem cur_item) H.feature_is_file = 0 then
    if !sep || after == 0 then 0 else 1
  else 1

/-- Lines 400-414: the verdict at an item whose `feature_type & attribute` is not zero. -/
def lookup_grant (B : Build) (H : Header) (X : Kernel) (fuel : Nat) (file_path : List Nat)
    (attr : Int) (f : Option file) (cur_item : Nat) (sep : Bool) (after : Nat)
    (S : State) : Option (Int × State) :=
  if B.integrity_enable then
    match f with
    | none => some (lookup_folder_rule H S.defex_packed_rules attr cur_item sep after, S)
    | some fl =>
      if Int.land (feature_type H S.defex_packed_rules cur_item) H.feature_is_file ≠ 0 then
        if defex_integrity_default file_path ≠ 0 then
          match defex_check_integrity X H fuel fl (integrity H S.defex_packed_rules cur_item) S with
          | none => none
          | some (r, S1) =>
            if r ≠ 0 then some (H.DEFEX_INTEGRITY_FAIL, S1)
            else some (lookup_folder_rule H S.defex_packed_rules attr cur_item sep after, S1)
        else some (lookup_folder_rule H S.defex_packed_rules attr cur_item sep after, S)
      else some (lookup_folder_rule H S.defex_packed_rules attr cur_item sep after, S)
  else some (lookup_folder_rule H S.defex_packed_rules attr cur_item sep after, S)

/-- The `do ... while (*ptr)` loop of lines 386-421. `n` is the fuel handed to the inner
loops, the first numeric argument the fuel of this loop. -/
def lookup_walk (B : Build) (H : Header) (X : Kernel) (n : Nat) (file_path : List Nat)
    (attr : Int) (f : Option file) : Nat → Nat → List Nat → State → Option (Int × State)
  | 0, _, _, _ => none
  | fuel + 1, base, ptr, S =>
    let next_separator := strchr ptr 47
    let l := match next_separator with
      | none => strlen ptr
      | some i => i
    if l = 0 then some (0, S)
    else
      match lookup_both H S.defex_packed_rules n base ptr l S.is_recovery with
      | none => none
      | some none => some (0, S)
      | some (some cur_item) =>
        if Int.land (feature_type H S.defex_packed_rules cur_item) attr ≠ 0 then
          lookup_grant B H X n file_path attr f cur_item next_separator.isSome
            (byte_at ptr (l + 1)) S
        else
          let ptr1 := if next_separator.isSome then ptr.drop (l + 1) else ptr.drop l
          if byte_at ptr1 0 ≠ 0 then lookup_walk B H X n file_path attr f fuel cur_item ptr1 S
          else some (0, S)

/-- Lines 368-421, from the label `try_to_load` on. Each entry of `envs` is what one inline
call of `load_rules_late` meets. -/
def try_to_load (B : Build) (H : Header) (X : Kernel) (fuel : Nat) (file_path : List Nat)
    (attr : Int) (f : Option file) : List LoadEnv → State → Option (Int × State)
  | envs, S =>
    if data_size H S.defex_packed_rules 0 = 0 then
      if B.kernel_only then
        match envs with
        | [] => none
        | e :: rest =>
          let r := load_rules_late B H e S
          if r.1 > 0 then try_to_load B H X fuel file_path attr f rest r.2
          else if r.1 = 0 ∨ r.2.is_recovery ≠ 0 then
            some ((if attr = H.feature_ped_exception ∨ attr = H.feature_safeplace_path
              then 1 else 0), r.2)
          else some (0, r.2)
      else some (0, S)
    else lookup_walk B H X fuel file_path attr f fuel 0 (file_path.drop 1) S

/-- Lines 359-422. A null `file_path` is `none`. -/
def lookup_tree (B : Build) (H : Header) (X : Kernel) (fuel : Nat) (envs : List LoadEnv)
    (file_path : Option (List Nat)) (attr : Int) (f : Option file) (S : State) :
    Option (Int × State) :=
  match file_path with
  | none => some (0, S)
  | some p =>
    if byte_at p 0 ≠ 47 then some (0, S)
    else try_to_load B H X fuel p attr f envs S

/-- Lines 424-437. `target_file` is not null (the code hands it to `strncmp`). -/
def rules_lookup (B : Build) (H : Header) (X : Kernel) (fuel : Nat) (envs : List LoadEnv)
    (target_file : List Nat) (attr : Int) (f : Option file) (S : State) :
    Option (Int × State) :=
  if B.lookup_enable then
    let m := check_system_mount X S
    let target_file1 :=
      if m.1 && decide (strncmp target_file (cstr "/system_root") 12 = 0) then
        target_file.drop 12
      else target_file
    lookup_tree B H X fuel envs (some target_file1) attr f m.2
  else some (0, S)

/-! ## Notions used to state the properties -/

/-- The item at which the walk of `lookup_walk` stops with a grant: the first item on the
resolved chain whose `feature_type & attribute` is not zero, with the two facts about the rest
of the path that the verdict there depends on (`next_separator` not null, and the byte
`*(ptr + l + 1)`). `some none` when the walk returns `0` before any grant. -/
def lookup_reach (H : Header) (mem : List Nat) (is_recovery : Int) (n : Nat) (attr : Int) :
    Nat → Nat → List Nat → Option (Option (Nat × Bool × Nat))
  | 0, _, _ => none
  | fuel + 1, base, ptr =>
    let next_separator := strchr ptr 47
    let l := match next_separator with
      | none => strlen ptr
      | some i => i
    if l = 0 then some none
    else
      match lookup_both H mem n base ptr l is_recovery with
      | none => none
      | some none => some none
      | some (some cur_item) =>
        if Int.land (feature_type H mem cur_item) attr ≠ 0 then
          some (some (cur_item, next_separator.isSome, byte_at ptr (l + 1)))
        else
          let ptr1 := if next_separator.isSome then ptr.drop (l + 1) else ptr.drop l
          if byte_at ptr1 0 ≠ 0 then lookup_reach H mem is_recovery n attr fuel cur_item ptr1
          else some none

/-- The sibling list that starts at offset `first`: `items` are the offsets visited by the
loop of `lookup_dir`, each linked to the next by `next_file`, the last one with
`next_file == 0`. -/
def siblings (H : Header) (mem : List Nat) : Nat → List Nat → Prop
  | _, [] => False
  | first, [x] => x = first ∧ next_file H mem x % 2 ^ 32 = 0
  | first, x :: y :: rest =>
    x = first ∧ next_file H mem x % 2 ^ 32 = y ∧ y ≠ 0 ∧ siblings H mem y (y :: rest)

/-- The item is named by the first `l` bytes of `nm`. -/
def named (H : Header) (mem : List Nat) (item : Nat) (nm : List Nat) (l : Nat) : Prop :=
  size H mem item = l ∧ memcmp nm (name H mem item) l = 0

/-- The saved digest at `hash` is all-zero. -/
def zero_hash (hash : List Nat) : Prop :=
  memcmp (List.replicate SHA256_DIGEST_SIZE 0) hash SHA256_DIGEST_SIZE = 0

/-- What hashing the file gives, when the hash services are available: `none` when the read
loop does not end within the fuel, `some none` when a read or a hash step fails,
`some (some d)` for the digest `d` of the bytes read. -/
def file_digest (X : Kernel) (H : Header) (fuel : Nat) (f : file) :
    Option (Option (List Nat)) :=
  match hash_loop X H f fuel 0 [] with
  | none => none
  | some (false, _, _) => some none
  | some (true, fed, _) =>
    if (X.crypto_shash_final fed).1 < 0 then some none
    else some (some (X.crypto_shash_final fed).2)

/-- Successive calls of `load_rules_late`, one per entry of `envs`: the results in call
order and the final state. -/
def run_late (B : Build) (H : Header) : List LoadEnv → State → List Int × State
  | [], S => ([], S)
  | e :: rest, S =>
    let r := load_rules_late B H e S
    let q := run_late B H rest r.2
    (r.1 :: q.1, q.2)

/-- The clock of a run, after a last reading `t`: every call reads `get_seconds()` twice, the
readings never run backwards and are `unsigned long` values. -/
def clock_from : Nat → List LoadEnv → Prop
  | _, [] => True
  | t, e :: rest =>
    t ≤ e.cur_seconds ∧ e.cur_seconds ≤ e.start_seconds ∧ e.start_seconds < 2 ^ 64
      ∧ clock_from e.start_seconds rest

/-- A clock that never reads `0` and never runs backwards. -/
def clock_ok (envs : List LoadEnv) : Prop := clock_from 1 envs

/-- The value of `start_time` that a call uses for its budget test (lines 233-234). -/
def budget_start (e : LoadEnv) (S : State) : Nat :=
  if S.start_time = 0 then e.start_seconds % 2 ^ 64 else S.start_time

/-- The budget test of line 239, `(cur_time - start_time) > 30` in `unsigned long`. -/
def budget_exceeded (e : LoadEnv) (S : State) : Prop :=
  (e.cur_seconds % 2 ^ 64 + 2 ^ 64 - budget_start e S) % 2 ^ 64 > 30

/-- A call at second `t` at which the rules file cannot be opened. -/
def open_fails_at (t : Nat) : LoadEnv :=
  { cur_seconds := t, start_seconds := t, fopen_ok := false, i_size := 0, vmalloc_ok := true
    fread_ret := 0, data_buff := [], defex_rules_signature_check := fun _ n => (-1, n) }

/-- Calls at seconds `t0, t0 + 1, ..., t0 + k - 1`, every open failing. -/
def open_fails_from (t0 : Nat) : Nat → List LoadEnv
  | 0 => []
  | k + 1 => open_fails_at t0 :: open_fails_from (t0 + 1) k

/-- The number of opens of the rules file in a log. -/
def opens (log : List Event) : Nat :=
  log.count (Event.fopen DEFEX_RULES_FILE)

/-- A path segment: not empty, and without NUL and `/`. -/
def segment (s : List Nat) : Prop := s ≠ [] ∧ ∀ c ∈ s, c % 256 ≠ 0 ∧ c % 256 ≠ 47

/-- Whether a clock is in order can be computed. -/
instance clock_from_decidable : (t : Nat) → (envs : List LoadEnv) → Decidable (clock_from t envs)
  | _, [] => isTrue trivial
  | t, e :: rest =>
    have : Decidable (clock_from e.start_seconds rest) :=
      clock_from_decidable e.start_seconds rest
    (inferInstance : Decidable (t ≤ e.cur_seconds ∧ e.cur_seconds ≤ e.start_seconds
      ∧ e.start_seconds < 2 ^ 64 ∧ clock_from e.start_seconds rest))

/-- What holds between sequential calls of `load_rules_late`: the lock is free, no attempt
is in progress, and a recorded last attempt lies within 30 seconds of a recorded start. -/
def late_inv (S : State) : Prop :=
  S.load_lock = false ∧ S.in_progress = 0
    ∧ (S.last_time ≠ 0 →
      S.start_time ≠ 0 ∧ (S.last_time + 2 ^ 64 - S.start_time) % 2 ^ 64 ≤ 30)

/-! ## A sample header and sample rule arrays -/

/-- A header with 16-bit offsets and feature masks, a one-byte name length, `data_size`
sharing the first two bytes, the digest at byte 7 and the name at byte 39. -/
def sample_header : Header :=
  { next_file_pos := 0, next_file_width := 2
    next_level_pos := 2, next_level_width := 2
    feature_type_pos := 4, feature_type_width := 2
    size_pos := 6, size_width := 1
    data_size_pos := 0, data_size_width := 2
    integrity_pos := 7, name_pos := 39
    sizeof_rule_item_struct := 39
    feature_is_file := 1, feature_for_recovery := 2
    feature_ped_exception := 8, feature_safeplace_path := 32
    feature_immutable_path_open := 128, feature_immutable_path_write := 256
    DEFEX_INTEGRITY_FAIL := 2
    inc_rules_array_size := 160
    PAGE_SIZE := 4096 }

/-- The bytes of one item under `sample_header`. -/
def sample_item (next_file next_level feature_type : Nat) (digest : List Nat)
    (nm : List Nat) : List Nat :=
  [next_file % 256, next_file / 256, next_level % 256, next_level / 256,
    feature_type % 256, feature_type / 256, nm.length] ++ digest ++ nm

/-- A build with lookups and integrity checks, rules signed, not kernel-only. -/
def sample_build : Build :=
  { kernel_only := false, sign_enable := true, integrity_enable := true, lookup_enable := true }

/-- Kernel services that all succeed; the digest of a file is 32 copies of the byte sum of
its content; no recovery binary is found and `/system_root` can be opened. -/
def sample_kernel : Kernel :=
  { alloc_shash_err := false, shash_desc_null := false, buff_null := false
    crypto_shash_init := 0
    crypto_shash_update := fun _ _ => 0
    crypto_shash_final := fun d => (0, List.replicate 32 (d.sum % 256))
    sbin_recovery_opens := false, system_bin_recovery_opens := false
    system_root_opens := true }

/-- The all-zero digest. -/
def zero_digest : List Nat := List.replicate 32 0

/-- Rules `/a` (attribute 8) and `/a/b` (attribute 32): the root at 0, `a` at 39, `b` at
79. -/
def store_ab : List Nat :=
  sample_item 119 39 0 zero_digest [] ++ sample_item 0 79 8 zero_digest [97]
    ++ sample_item 0 0 32 zero_digest [98]

/-- The state with the given rule array and `is_recovery`, before any call. -/
def state_of (mem : List Nat) (rec : Int) : State :=
  { defex_packed_rules := mem, is_recovery := rec, mount_system_root := -1
    start_time := 0, last_time := 0, load_lock := false, in_progress := 0, log := [] }

/-- Five children of the root, in list order: files `x` (39, normal) and `x` (79, recovery),
folders `d` (119, normal, attribute 8) and `d` (159, recovery, attribute 32), and the single
recovery file `y` (199). -/
def store_siblings : List Nat :=
  sample_item 239 39 0 zero_digest [] ++ sample_item 79 0 1 zero_digest [120]
    ++ sample_item 119 0 3 zero_digest [120] ++ sample_item 159 0 8 zero_digest [100]
    ++ sample_item 199 0 34 zero_digest [100] ++ sample_item 0 0 3 zero_digest [121]

/-- The sample build with `DEFEX_KERNEL_ONLY`. -/
def sample_build_late : Build :=
  { kernel_only := true, sign_enable := false, integrity_enable := true, lookup_enable := true }

/-- The kernel-only state after one call of `load_rules_late` at second 1 that could not
open the rules file. -/
def state_after_first_try : State :=
  (load_rules_late sample_build_late sample_header (open_fails_at 1)
    (State.init sample_build_late sample_header)).2

/-- Three children of the root, each granting attribute 32: the file `f` (39) and the folder
`d` (79) with the saved digest `7, 7, ...`, and the file `z` (119) with an all-zero digest. -/
def store_integrity : List Nat :=
  sample_item 159 39 0 zero_digest [] ++ sample_item 79 0 33 (List.replicate 32 7) [102]
    ++ sample_item 119 0 32 (List.replicate 32 7) [100] ++ sample_item 0 0 33 zero_digest [122]

/-- An open file with the given content. -/
def sample_file (content : List Nat) : file :=
  { is_err := false
    local_fread := fun pos len => (((content.drop pos).take len).length,
      (content.drop pos).take len) }

/-- A loader run that opens and fully reads a rules file with the given bytes; the signature
check is the given function. -/
def sample_load (data : List Nat) (check : List Nat → Int → Int × Int) : LoadEnv :=
  { cur_seconds := 5, start_seconds := 5, fopen_ok := true, i_size := data.length
    vmalloc_ok := true, fread_ret := data.length, data_buff := data
    defex_rules_signature_check := check }

/-- A signature check that accepts, the signature being the last four bytes. -/
def accept_all_but_four (_ : List Nat) (n : Int) : Int × Int := (0, n - 4)

/-- A signature check that rejects. -/
def reject (_ : List Nat) (n : Int) : Int × Int := (-1, n)

/-- A loader run at second `t` that opens and fully reads a rules file with the given
bytes. -/
def sample_load_at (t : Nat) (data : List Nat) (check : List Nat → Int → Int × Int) :
    LoadEnv :=
  { sample_load data check with cur_seconds := t, start_seconds := t }

/-- The seconds (`cur_time`) of those calls of a run that open the rules file, in call
order. -/
def open_seconds (B : Build) (H : Header) : List LoadEnv → State → List Nat
  | [], _ => []
  | e :: rest, S =>
    if opens (load_rules_late B H e S).2.log = opens S.log + 1 then
      e.cur_seconds % 2 ^ 64 :: open_seconds B H rest (load_rules_late B H e S).2
    else open_seconds B H rest (load_rules_late B H e S).2

/-- The sample build without `DEFEX_SIGN_ENABLE`. -/
def sample_build_unsigned : Build :=
  { kernel_only := false, sign_enable := false, integrity_enable := true
    lookup_enable := true }

/-- The C string at the start of a byte list: the bytes before the first NUL. -/
def c_str (p : List Nat) : List Nat :=
  (p.takeWhile (fun c => c % 256 ≠ 0)).map (fun c => c % 256)

/-- The text `integrity_default` of `defex_integrity_default` (line 200). -/
def integrity_default : List Nat := cstr "/system/bin/install-recovery.sh"

/-- The number of calls of `defex_check_integrity` in a log. -/
def checks (log : List Event) : Nat := log.count Event.check_integrity


/-- Rules for `/system/bin/install-recovery.sh`: the root at 0, the folders `system` (39) and
`bin` (84), and the file `install-recovery.sh` (126) with attribute 32 and the saved digest
`7, 7, ...`. -/
def store_recovery_script : List Nat :=
  sample_item 184 39 0 zero_digest [] ++ sample_item 0 84 0 zero_digest (cstr "system")
    ++ sample_item 0 126 0 zero_digest (cstr "bin")
    ++ sample_item 0 0 33 (List.replicate 32 7) (cstr "install-recovery.sh")


/-- The length `l` of the segment at `ptr` (lines 387-391): up to the next `/`, or to the end
of the string when there is none. -/
def seg_len (ptr : List Nat) : Nat :=
  match strchr ptr 47 with
  | none => strlen ptr
  | some i => i

/-- Where `ptr` stands after the segment (lines 417-419): past the segment and past the `/`
that ends it, when there is one. -/
def next_seg (ptr : List Nat) : List Nat :=
  if (strchr ptr 47).isSome then ptr.drop (seg_len ptr + 1) else ptr.drop (seg_len ptr)

/-- Rules `/d` (a folder, attribute 128) and `/f` (a file, attribute 128, saved digest
`6, 6, ...`): the root at 0, `d` at 39, `f` at 79. -/
def store_immutable : List Nat :=
  sample_item 119 39 0 zero_digest [] ++ sample_item 79 0 128 zero_digest [100]
    ++ sample_item 0 0 129 (List.replicate 32 6) [102]


/-- The item is on the list that starts at `first` and is linked by `next_file`: the items
that the loop of `lookup_dir` can come to from `first`. -/
inductive in_list (H : Header) (mem : List Nat) : Nat → Nat → Prop where
  | head (first : Nat) : in_list H mem first first
  | tail (first item : Nat) : next_file H mem first % 2 ^ 32 ≠ 0 →
      in_list H mem (next_file H mem first % 2 ^ 32) item → in_list H mem first item

/-- The item is on the child list of `base`. -/
def child (H : Header) (mem : List Nat) (base item : Nat) : Prop :=
  next_level H mem base ≠ 0 ∧ in_list H mem (next_level H mem base) item

/-- The segments of the path at `ptr`, taken one per level from the child list of `base`
down, resolve to the chain `nodes`: each node is a child of the one before, its size and name
are the length and the bytes of its segment, the last node has a bit in common with `attr`
and no node before it has. -/
def exact_chain (H : Header) (mem : List Nat) (attr : Int) : Nat → List Nat → List Nat → Prop
  | _, _, [] => False
  | base, ptr, [n] =>
    child H mem base n ∧ named H mem n ptr (seg_len ptr) ∧ seg_len ptr ≠ 0
      ∧ Int.land (feature_type H mem n) attr ≠ 0
  | base, ptr, n :: m :: rest =>
    child H mem base n ∧ named H mem n ptr (seg_len ptr) ∧ seg_len ptr ≠ 0
      ∧ Int.land (feature_type H mem n) attr = 0
      ∧ exact_chain H mem attr n (next_seg ptr) (m :: rest)

/-- The walk of `lookup_tree` from `base` and `ptr` resolves segment after segment to the
items `nodes`, none of which has a bit in common with `attr`, and then stands at `b` with
the rest `q` of the path. -/
def walk_passes (H : Header) (mem : List Nat) (is_recovery : Int) (n : Nat) (attr : Int) :
    Nat → List Nat → List Nat → Nat → List Nat → Prop
  | base, ptr, [], b, q => b = base ∧ q = ptr
  | base, ptr, m :: rest, b, q =>
    lookup_both H mem n base ptr (seg_len ptr) is_recovery = some (some m)
      ∧ Int.land (feature_type H mem m) attr = 0
      ∧ walk_passes H mem is_recovery n attr m (next_seg ptr) rest b q


/-- The handle is open on a file whose bytes are `content`: a read at a position before the
end returns the bytes from there on, as many as asked for or as are left; a read at the end
returns `rc`, which is `0` for a file that ends there and a negative error code for a file
that cannot be read further. -/
def delivers (f : file) (content : List Nat) (rc : Int) : Prop :=
  f.is_err = false
    ∧ (∀ pos len, pos < content.length →
        f.local_fread pos len
          = ((((content.drop pos).take len).length : Int), (content.drop pos).take len))
    ∧ ∀ len, (f.local_fread content.length len).1 = rc

/-- Hashing `content` page by page, the update for the page number `i` (from `0`) fails. -/
def update_fails (X : Kernel) (page : Nat) (content : List Nat) (i : Nat) : Prop :=
  i * page < content.length
    ∧ X.crypto_shash_update (content.take (i * page)) ((content.drop (i * page)).take page) < 0

/-- The sample header with pages of two bytes. -/
def sample_header_small_pages : Header := { sample_header with PAGE_SIZE := 2 }


/-- An open file that gives the bytes `content` and then a read error (`-5`). -/
def sample_file_read_error (content : List Nat) : file :=
  { is_err := false
    local_fread := fun pos len =>
      if pos < content.length then
        (((content.drop pos).take len).length, (content.drop pos).take len)
      else (-5, []) }


/-- A loader run on a rules file of `2 ^ 32 + 123` bytes, of which `local_fread` is asked for
and gives the first 123: the rules `/a` and `/a/b` (119 bytes) and four more bytes. -/
def wrapped_size_load : LoadEnv :=
  { sample_load (store_ab ++ [1, 2, 3, 4]) accept_all_but_four with i_size := 2 ^ 32 + 123 }

/-! ## Lemmas on `load_rules_late` -/

/-- The three steps of `load_rules_late` as one expression: on every path past line 230 the
state at return has `in_progress = 0`, the lock being free as at entry. -/
theorem load_rules_late_eq (B : Build) (H : Header) (e : LoadEnv) (S : State) :
    load_rules_late B H e S =
      let cur_time := e.cur_seconds % 2 ^ 64
      if S.load_lock then (0, S)
      else if S.in_progress ≠ 0 then (0, S)
      else
        let start_time := if S.start_time = 0 then e.start_seconds % 2 ^ 64 else S.start_time
        if cur_time = S.last_time then (0, { S with start_time := start_time, in_progress := 0 })
        else if (cur_time + 2 ^ 64 - start_time) % 2 ^ 64 > 30 then
          (-1, { S with start_time := start_time, in_progress := 0 })
        else
          let log1 := S.log ++ [Event.fopen DEFEX_RULES_FILE]
          if !e.fopen_ok then
            (0, { S with start_time := start_time, last_time := cur_time, in_progress := 0,
                         log := log1 })
          else
            let data_size := to_int e.i_size
            if data_size ≤ 0 ∨ to_size_t data_size > DEFEX_RULES_ARRAY_SIZE B H <<< 1 then
              (0, { S with start_time := start_time, last_time := cur_time, in_progress := 0,
                           log := log1 })
            else if !e.vmalloc_ok then
              (0, { S with start_time := start_time, last_time := cur_time, in_progress := 0,
                           log := log1 })
            else
              let log2 := log1 ++ [Event.fread 0 data_size.toNat]
              let rules_size := e.fread_ret
              if rules_size ≤ 0 then
                (0, { S with start_time := start_time, last_time := cur_time, in_progress := 0,
                             log := log2 })
              else
                let rules_size1 : Int :=
                  if to_size_t rules_size > DEFEX_RULES_ARRAY_SIZE B H then
                    (DEFEX_RULES_ARRAY_SIZE B H : Int)
                  else rules_size
                ((if rules_size1 > 0 then 1 else 0),
                  { S with
                    defex_packed_rules := memcpy S.defex_packed_rules e.data_buff rules_size1.toNat
                    start_time := start_time, last_time := cur_time, in_progress := 0
                    log := log2 ++ [Event.memcpy_rules rules_size1.toNat] }) := by
  unfold load_rules_late late_enter
  by_cases hl : S.load_lock = true
  · simp only [hl, if_true]
  · have hl2 : S.load_lock = false := by simpa using hl
    by_cases hp : S.in_progress ≠ 0
    · simp only [hl2, Bool.false_eq_true, if_false, hp, ne_eq, not_false_eq_true, if_true]
    · have hp0 : S.in_progress = 0 := not_not.mp hp
      simp only [hl2, Bool.false_eq_true, if_false, hp0, ne_eq, not_true_eq_false]
      simp only [late_attempt, late_exit]
      generalize (if S.start_time = 0 then e.start_seconds % 2 ^ 64 else S.start_time) = st
      generalize (if to_size_t e.fread_ret > DEFEX_RULES_ARRAY_SIZE B H
        then (DEFEX_RULES_ARRAY_SIZE B H : Int) else e.fread_ret) = rs
      cases S
      simp only at hl2 hp0
      subst hl2 hp0
      split_ifs <;> rfl

/-! ## Lemmas on the walk -/

theorem lookup_walk_eq_reach (B : Build) (H : Header) (X : Kernel) (n : Nat)
    (file_path : List Nat) (attr : Int) (f : Option file) (S : State) :
    ∀ (fuel base : Nat) (ptr : List Nat),
      lookup_walk B H X n file_path attr f fuel base ptr S =
        match lookup_reach H S.defex_packed_rules S.is_recovery n attr fuel base ptr with
        | none => none
        | some none => some (0, S)
        | some (some r) => lookup_grant B H X n file_path attr f r.1 r.2.1 r.2.2 S := by
  intro fuel
  induction fuel with
  | zero => intro base ptr; simp [lookup_walk, lookup_reach]
  | succ k ih =>
    intro base ptr
    simp only [lookup_walk, lookup_reach]
    generalize (match strchr ptr 47 with
      | none => strlen ptr
      | some i => i) = l
    by_cases h1 : l = 0
    · simp [h1]
    · simp only [h1, if_false]
      cases hb : lookup_both H S.defex_packed_rules n base ptr l S.is_recovery with
      | none => simp
      | some r =>
        cases r with
        | none => simp
        | some item =>
          simp only []
          by_cases h2 : Int.land (feature_type H S.defex_packed_rules item) attr ≠ 0
          · rw [if_pos h2, if_pos h2]
          · rw [if_neg h2, if_neg h2]
            generalize (if (strchr ptr 47).isSome = true then List.drop (l + 1) ptr
              else List.drop l ptr) = ptr1
            by_cases h3 : byte_at ptr1 0 ≠ 0
            · rw [if_pos h3, if_pos h3]; exact ih _ _
            · rw [if_neg h3, if_neg h3]

theorem lookup_tree_loaded (B : Build) (H : Header) (X : Kernel) (fuel : Nat)
    (envs : List LoadEnv) (p : List Nat) (attr : Int) (f : Option file) (S : State)
    (hload : data_size H S.defex_packed_rules 0 ≠ 0) (hp : byte_at p 0 = 47) :
    lookup_tree B H X fuel envs (some p) attr f S =
      match lookup_reach H S.defex_packed_rules S.is_recovery fuel attr fuel 0 (p.drop 1) with
      | none => none
      | some none => some (0, S)
      | some (some r) => lookup_grant B H X fuel p attr f r.1 r.2.1 r.2.2 S := by
  unfold lookup_tree
  simp only [hp, ne_eq, not_true_eq_false, if_false]
  unfold try_to_load
  rw [if_neg hload]
  exact lookup_walk_eq_reach B H X fuel p attr f S fuel 0 (p.drop 1)

theorem folder_rule_cases (H : Header) (mem : List Nat) (attr : Int) (item : Nat) (sep : Bool)
    (after : Nat) :
    lookup_folder_rule H mem attr item sep after = 0
      ∨ lookup_folder_rule H mem attr item sep after = 1 := by
  unfold lookup_folder_rule
  split_ifs <;> simp

theorem folder_rule_inside (H : Header) (mem : List Nat) (attr : Int) (item : Nat)
    (after : Nat) (h : after ≠ 0) :
    lookup_folder_rule H mem attr item true after = 1 := by
  unfold lookup_folder_rule
  split_ifs with h1 h2
  · simp [h] at h2
  · rfl
  · rfl

theorem lookup_grant_cases (B : Build) (H : Header) (X : Kernel) (fuel : Nat)
    (file_path : List Nat) (attr : Int) (f : Option file) (item : Nat) (sep : Bool)
    (after : Nat) (S : State)
    (hend : ∀ fl, f = some fl → B.integrity_enable = true →
      Int.land (feature_type H S.defex_packed_rules item) H.feature_is_file ≠ 0 →
      (defex_check_integrity X H fuel fl (integrity H S.defex_packed_rules item) S).isSome) :
    ∃ v S1, lookup_grant B H X fuel file_path attr f item sep after S = some (v, S1)
      ∧ (v = lookup_folder_rule H S.defex_packed_rules attr item sep after
          ∨ v = H.DEFEX_INTEGRITY_FAIL) := by
  cases f with
  | none => unfold lookup_grant; split_ifs <;> exact ⟨_, _, rfl, Or.inl rfl⟩
  | some fl =>
    by_cases hi : B.integrity_enable = true
    · by_cases hfile : Int.land (feature_type H S.defex_packed_rules item) H.feature_is_file ≠ 0
      · have h := hend fl rfl hi hfile
        cases hc : defex_check_integrity X H fuel fl
            (integrity H S.defex_packed_rules item) S with
        | none => rw [hc] at h; cases h
        | some r =>
          obtain ⟨r, S1⟩ := r
          simp only [lookup_grant, hc]
          split_ifs
          · exact ⟨_, _, rfl, Or.inr rfl⟩
          · exact ⟨_, _, rfl, Or.inl rfl⟩
          · exact ⟨_, _, rfl, Or.inl rfl⟩
      · simp only [lookup_grant, hi, if_true]
        rw [if_neg hfile]
        exact ⟨_, _, rfl, Or.inl rfl⟩
    · simp only [lookup_grant]
      rw [if_neg hi]
      exact ⟨_, _, rfl, Or.inl rfl⟩

/-! ## Lemmas on path strings -/

theorem strchr_segment_sep :
    ∀ (s rest : List Nat), (∀ c ∈ s, c % 256 ≠ 0 ∧ c % 256 ≠ 47) →
      strchr (s ++ 47 :: rest) 47 = some s.length := by
  intro s
  induction s with
  | nil => intro rest _; simp [strchr]
  | cons c s ih =>
    intro rest h
    have hc := h c (by simp)
    have hs := ih rest (fun d hd => h d (by simp [hd]))
    show strchr (c :: (s ++ 47 :: rest)) 47 = some (s.length + 1)
    rw [strchr, if_neg hc.2, if_neg hc.1, hs]
    rfl

theorem strchr_segment_end :
    ∀ (s : List Nat), (∀ c ∈ s, c % 256 ≠ 0 ∧ c % 256 ≠ 47) → strchr s 47 = none := by
  intro s
  induction s with
  | nil => intro _; rfl
  | cons c s ih =>
    intro h
    have hc := h c (by simp)
    have hs := ih (fun d hd => h d (by simp [hd]))
    rw [strchr, if_neg hc.2, if_neg hc.1, hs]
    rfl

theorem strlen_segment :
    ∀ (s : List Nat), (∀ c ∈ s, c % 256 ≠ 0 ∧ c % 256 ≠ 47) → strlen s = s.length := by
  intro s
  induction s with
  | nil => intro _; rfl
  | cons c s ih =>
    intro h
    have hc := h c (by simp)
    have hs := ih (fun d hd => h d (by simp [hd]))
    rw [strlen, if_neg hc.1, hs]
    rfl

theorem byte_at_segment_head (s : List Nat) (hne : s ≠ [])
    (h : ∀ c ∈ s, c % 256 ≠ 0 ∧ c % 256 ≠ 47) : byte_at s 0 ≠ 0 := by
  cases s with
  | nil => exact absurd rfl hne
  | cons c s => simpa [byte_at] using (h c (by simp)).1

theorem byte_at_after_sep (sa sb : List Nat) (i : Nat) :
    byte_at (sa ++ 47 :: sb) (sa.length + 1 + i) = byte_at sb i := by
  unfold byte_at
  have h : (sa ++ 47 :: sb).getD (sa.length + 1 + i) 0 = sb.getD i 0 := by
    simp only [List.getD_eq_getElem?_getD]
    rw [List.getElem?_append_right (by omega)]
    rw [show sa.length + 1 + i - sa.length = i + 1 by omega]
    simp
  rw [h]

theorem byte_at_past_end (s : List Nat) (i : Nat) (h : s.length ≤ i) : byte_at s i = 0 := by
  unfold byte_at
  rw [List.getD_eq_default _ _ h]

theorem drop_after_sep (sa sb : List Nat) : (sa ++ 47 :: sb).drop (sa.length + 1) = sb := by
  rw [show sa ++ 47 :: sb = (sa ++ [47]) ++ sb by simp]
  exact List.drop_left' (by simp)

/-! ## C1: a grant on an ancestor applies to the paths below it -/

/-- C1, as stated, fails: with rules `/a` (attribute 8) and `/a/b` (attribute 32),
`lookup_tree("/a/b", 8, NULL)` returns `1`, not `0`: the walk stops at `a`, whose mask meets
the attribute, before `b` is looked at. -/
theorem c1_ancestor_attribute_granted :
    (lookup_tree sample_build sample_header sample_kernel 4 [] (some (cstr "/a/b")) 8 none
      (state_of store_ab 0)).map (fun r => r.1) = some 1 := by
  decide

/-- C1, amended: for segments `a` and `b`, when the walk resolves `a` under the root to an
item `na` whose mask meets `x` but not `y`, and `b` under `na` to an item `nb` whose mask
meets `y`, then `lookup_tree("/a/b", x, f)` returns at `na` with `1` or
`DEFEX_INTEGRITY_FAIL` (the attribute of the ancestor applies to the path below it),
provided the integrity check of `f` at `na`, if one is run, comes to an end; and
`lookup_tree("/a/b", y, f)` returns `1` when the integrity check at `nb`, if one is run,
passes and the folder rule for immutable attributes does not apply to `nb`. -/
theorem c1_first_grant_on_path (B : Build) (H : Header) (X : Kernel) (fuel : Nat)
    (envs : List LoadEnv) (f : Option file) (S : State) (x y : Int) (a b : List Nat)
    (na nb : Nat) (hfuel : 2 ≤ fuel) (hsa : segment a) (hsb : segment b)
    (hload : data_size H S.defex_packed_rules 0 ≠ 0)
    (ha : lookup_both H S.defex_packed_rules fuel 0 (a ++ 47 :: b) a.length S.is_recovery
      = some (some na))
    (hb : lookup_both H S.defex_packed_rules fuel na b b.length S.is_recovery
      = some (some nb))
    (hax : Int.land (feature_type H S.defex_packed_rules na) x ≠ 0)
    (hay : Int.land (feature_type H S.defex_packed_rules na) y = 0)
    (hby : Int.land (feature_type H S.defex_packed_rules nb) y ≠ 0)
    (henda : ∀ fl, f = some fl → B.integrity_enable = true →
      Int.land (feature_type H S.defex_packed_rules na) H.feature_is_file ≠ 0 →
      (defex_check_integrity X H fuel fl (integrity H S.defex_packed_rules na) S).isSome)
    (hpassb : ∀ fl, f = some fl → B.integrity_enable = true →
      Int.land (feature_type H S.defex_packed_rules nb) H.feature_is_file ≠ 0 →
      defex_integrity_default (47 :: (a ++ 47 :: b)) ≠ 0 →
      ∃ S1, defex_check_integrity X H fuel fl (integrity H S.defex_packed_rules nb) S
        = some (0, S1))
    (hfolder : ¬ (Int.land y
        (Int.lor H.feature_immutable_path_open H.feature_immutable_path_write) ≠ 0
      ∧ Int.land (feature_type H S.defex_packed_rules nb) H.feature_is_file = 0)) :
    (∃ v S1, lookup_tree B H X fuel envs (some (47 :: (a ++ 47 :: b))) x f S = some (v, S1)
        ∧ (v = 1 ∨ v = H.DEFEX_INTEGRITY_FAIL))
      ∧ ∃ S1, lookup_tree B H X fuel envs (some (47 :: (a ++ 47 :: b))) y f S
        = some (1, S1) := by
  obtain ⟨k, rfl⟩ : ∃ k, fuel = k + 2 := ⟨fuel - 2, by omega⟩
  obtain ⟨hane, hac⟩ := hsa
  obtain ⟨hbne, hbc⟩ := hsb
  have hp : byte_at (47 :: (a ++ 47 :: b)) 0 = 47 := rfl
  have hla : a.length ≠ 0 := fun h => hane (List.length_eq_zero.mp h)
  have hlb : b.length ≠ 0 := fun h => hbne (List.length_eq_zero.mp h)
  have hb0 : byte_at b 0 ≠ 0 := byte_at_segment_head b hbne hbc
  have hafter : byte_at (a ++ 47 :: b) (a.length + 1) = byte_at b 0 :=
    byte_at_after_sep a b 0
  have hrx : lookup_reach H S.defex_packed_rules S.is_recovery (k + 2) x (k + 2) 0
      ((47 :: (a ++ 47 :: b)).drop 1) = some (some (na, true, byte_at b 0)) := by
    simp only [lookup_reach, List.drop_succ_cons, List.drop_zero, strchr_segment_sep a b hac,
      ha, hafter]
    rw [if_neg hla, if_pos hax]
    rfl
  have hry : lookup_reach H S.defex_packed_rules S.is_recovery (k + 2) y (k + 2) 0
      ((47 :: (a ++ 47 :: b)).drop 1) = some (some (nb, false, 0)) := by
    simp only [lookup_reach, List.drop_succ_cons, List.drop_zero, strchr_segment_sep a b hac,
      ha]
    rw [if_neg hla, if_neg (by simpa using hay)]
    simp only [Option.isSome_some, if_true, drop_after_sep]
    rw [if_pos hb0]
    simp only [strchr_segment_end b hbc, strlen_segment b hbc, hb]
    rw [if_neg hlb, if_pos hby, byte_at_past_end b _ (by omega)]
    rfl
  constructor
  · rw [lookup_tree_loaded B H X (k + 2) envs _ x f S hload hp, hrx]
    obtain ⟨v, S1, hv, hc⟩ :=
      lookup_grant_cases B H X (k + 2) (47 :: (a ++ 47 :: b)) x f na true (byte_at b 0) S henda
    refine ⟨v, S1, hv, ?_⟩
    rcases hc with hc | hc
    · left; rw [hc]; exact folder_rule_inside H _ x na _ hb0
    · right; exact hc
  · rw [lookup_tree_loaded B H X (k + 2) envs _ y f S hload hp, hry]
    have hfr : lookup_folder_rule H S.defex_packed_rules y nb false 0 = 1 := by
      unfold lookup_folder_rule
      rw [if_neg hfolder]
    cases f with
    | none =>
      refine ⟨S, ?_⟩
      simp only [lookup_grant, hfr]
      split_ifs <;> rfl
    | some fl =>
      by_cases hi : B.integrity_enable = true
      · by_cases hfile : Int.land (feature_type H S.defex_packed_rules nb) H.feature_is_file ≠ 0
        · by_cases hdef : defex_integrity_default (47 :: (a ++ 47 :: b)) ≠ 0
          · obtain ⟨S1, hS1⟩ := hpassb fl rfl hi hfile hdef
            refine ⟨S1, ?_⟩
            simp only [lookup_grant, hi, if_true, hS1, hfr]
            rw [if_pos hfile, if_pos hdef]
            simp
          · refine ⟨S, ?_⟩
            simp only [lookup_grant, hi, if_true, hfr]
            rw [if_pos hfile, if_neg hdef]
        · refine ⟨S, ?_⟩
          simp only [lookup_grant, hi, if_true, hfr]
          rw [if_neg hfile]
      · refine ⟨S, ?_⟩
        simp only [lookup_grant, hi, hfr]
        rfl

/-- C1, amended, at the sample rules `/a` and `/a/b`, with a file handle. -/
theorem c1_first_grant_on_path_witness :
    (∃ v S1, lookup_tree sample_build sample_header sample_kernel 4 [] (some (cstr "/a/b")) 8
        (some (sample_file [1, 2, 3])) (state_of store_ab 0) = some (v, S1)
        ∧ (v = 1 ∨ v = sample_header.DEFEX_INTEGRITY_FAIL))
      ∧ ∃ S1, lookup_tree sample_build sample_header sample_kernel 4 [] (some (cstr "/a/b")) 32
        (some (sample_file [1, 2, 3])) (state_of store_ab 0) = some (1, S1) :=
  c1_first_grant_on_path sample_build sample_header sample_kernel 4 []
    (some (sample_file [1, 2, 3])) (state_of store_ab 0) 8 32 (cstr "a") (cstr "b") 39 79
    (by decide) (by unfold segment; decide) (by unfold segment; decide) (by decide)
    (by decide) (by decide) (by decide) (by decide) (by decide)
    (fun _ _ _ hfile => absurd hfile (by decide))
    (fun _ _ _ hfile => absurd hfile (by decide))
    (by decide)

/-! ## C2: which of two siblings of the same name is taken -/

theorem lookup_dir_loop_siblings (H : Header) (mem : List Nat) (nm : List Nat) (l : Nat)
    (r : Int) :
    ∀ (items : List Nat) (first fuel : Nat), siblings H mem first items → items.length ≤ fuel →
      lookup_dir_loop H mem nm l r fuel first
        = some (items.find? (fun i => lookup_dir_match H mem i nm l r)) := by
  intro items
  induction items with
  | nil => intro first fuel h; exact absurd h (by simp [siblings])
  | cons x rest ih =>
    intro first fuel hs hlen
    cases fuel with
    | zero => simp at hlen
    | succ k =>
      cases rest with
      | nil =>
        obtain ⟨hx, hn⟩ := hs
        subst hx
        simp only [lookup_dir_loop, List.find?]
        cases hm : lookup_dir_match H mem x nm l r with
        | true => simp
        | false =>
          have hn2 : next_file H mem x % 4294967296 = 0 := by simpa using hn
          simp [hn2]
      | cons y rest2 =>
        obtain ⟨hx, hn, hy, hrest⟩ := hs
        subst hx
        simp only [lookup_dir_loop]
        rw [List.find?_cons]
        cases hm : lookup_dir_match H mem x nm l r with
        | true => simp
        | false =>
          have hlen2 : (y :: rest2).length ≤ k := by simpa using hlen
          have := ih y k hrest hlen2
          simp only [hn, hy, ne_eq, not_false_eq_true, if_true, this]
          simp

theorem find_unique {p : Nat → Bool} :
    ∀ (items : List Nat) (x : Nat), x ∈ items → p x = true →
      (∀ y ∈ items, p y = true → y = x) → items.find? p = some x := by
  intro items
  induction items with
  | nil => intro x hx; simp at hx
  | cons a rest ih =>
    intro x hx hp huniq
    rw [List.find?_cons]
    cases ha : p a with
    | true =>
      have := huniq a (by simp) ha
      simp [this]
    | false =>
      simp only []
      have hx2 : x ∈ rest := by
        rcases List.mem_cons.mp hx with h | h
        · subst h; rw [hp] at ha; cases ha
        · exact h
      exact ih x hx2 hp (fun y hy hpy => huniq y (List.mem_cons_of_mem _ hy) hpy)

theorem find_none {p : Nat → Bool} (items : List Nat) (h : ∀ y ∈ items, p y = false) :
    items.find? p = none := by
  rw [List.find?_eq_none]
  intro y hy
  simp [h y hy]

theorem lookup_dir_match_named (H : Header) (mem : List Nat) (item : Nat) (nm : List Nat)
    (l : Nat) (r : Int) (h : lookup_dir_match H mem item nm l r = true) :
    named H mem item nm l := by
  unfold lookup_dir_match at h
  simp only [Bool.and_eq_true, decide_eq_true_eq] at h
  exact ⟨h.1.2, h.2⟩

theorem lookup_dir_match_iff (H : Header) (mem : List Nat) (item : Nat) (nm : List Nat)
    (l : Nat) (r : Int) :
    lookup_dir_match H mem item nm l r = true ↔
      (Int.land (feature_type H mem item) H.feature_is_file = 0
        ∨ (if Int.land (feature_type H mem item) H.feature_for_recovery ≠ 0 then (1 : Int)
            else 0) = r) ∧ named H mem item nm l := by
  unfold lookup_dir_match named
  simp only [Bool.and_eq_true, Bool.or_eq_true, decide_eq_true_eq]
  tauto

theorem lookup_dir_siblings (H : Header) (mem : List Nat) (fuel base : Nat) (nm : List Nat)
    (l : Nat) (r : Int) (items : List Nat) (hlevel : next_level H mem base ≠ 0)
    (hsib : siblings H mem (next_level H mem base) items) (hfuel : items.length ≤ fuel) :
    lookup_dir H mem fuel base nm l r
      = some (items.find? (fun i => lookup_dir_match H mem i nm l r)) := by
  unfold lookup_dir
  rw [if_neg hlevel]
  exact lookup_dir_loop_siblings H mem nm l r items _ fuel hsib hfuel

/-- C2, as stated, fails for children that are not marked `feature_is_file`: of the two
folders named `d` (119 without, 159 with `feature_for_recovery`), the walk with
`is_recovery = 1` takes the first in list order, the one without the recovery bit, and
`lookup_tree("/d", 32, NULL)` therefore returns `0` although the recovery-flagged `d`
grants attribute 32. -/
theorem c2_folder_ignores_recovery_bit :
    named sample_header store_siblings 119 (cstr "d") 1
      ∧ named sample_header store_siblings 159 (cstr "d") 1
      ∧ Int.land (feature_type sample_header store_siblings 119)
          sample_header.feature_for_recovery = 0
      ∧ Int.land (feature_type sample_header store_siblings 159)
          sample_header.feature_for_recovery ≠ 0
      ∧ siblings sample_header store_siblings (next_level sample_header store_siblings 0)
          [39, 79, 119, 159, 199]
      ∧ lookup_both sample_header store_siblings 5 0 (cstr "d") 1 1 = some (some 119)
      ∧ (lookup_tree sample_build sample_header sample_kernel 5 [] (some (cstr "/d")) 32 none
          (state_of store_siblings 1)).map (fun r => r.1) = some 0 := by
  refine ⟨?_, ?_, ?_, ?_, ?_, ?_, ?_⟩
  · unfold named; decide
  · unfold named; decide
  · decide
  · decide
  · simp only [siblings]; decide
  · decide
  · decide

/-- C2, amended: let `items` be the children of `base` in list order. If two of them, both
marked `feature_is_file`, are named by the segment, one with and one without
`feature_for_recovery`, and no other child has that name, the search of lines 394-396 takes
the recovery-flagged one with `is_recovery = 1` and the other one with `is_recovery = 0`,
in any sibling order. If exactly one child has that name, the search takes it, whatever its
bits, in both modes. -/
theorem c2_recovery_bias_files (H : Header) (mem : List Nat) (fuel base : Nat)
    (nm : List Nat) (l : Nat) (items : List Nat)
    (hlevel : next_level H mem base ≠ 0)
    (hsib : siblings H mem (next_level H mem base) items)
    (hfuel : items.length ≤ fuel) :
    (∀ c1 c2, c1 ∈ items → c2 ∈ items → named H mem c1 nm l → named H mem c2 nm l →
        Int.land (feature_type H mem c1) H.feature_is_file ≠ 0 →
        Int.land (feature_type H mem c2) H.feature_is_file ≠ 0 →
        Int.land (feature_type H mem c1) H.feature_for_recovery ≠ 0 →
        Int.land (feature_type H mem c2) H.feature_for_recovery = 0 →
        (∀ i ∈ items, named H mem i nm l → i = c1 ∨ i = c2) →
        lookup_both H mem fuel base nm l 1 = some (some c1)
          ∧ lookup_both H mem fuel base nm l 0 = some (some c2))
      ∧ (∀ c, c ∈ items → named H mem c nm l → (∀ i ∈ items, named H mem i nm l → i = c) →
        ∀ rec : Int, rec = 0 ∨ rec = 1 → lookup_both H mem fuel base nm l rec = some (some c)) := by
  have hdir := fun r => lookup_dir_siblings H mem fuel base nm l r items hlevel hsib hfuel
  constructor
  · intro c1 c2 hc1 hc2 hn1 hn2 hf1 hf2 hr1 hr2 honly
    have hm1 : lookup_dir_match H mem c1 nm l 1 = true := by
      rw [lookup_dir_match_iff]; exact ⟨Or.inr (by rw [if_pos hr1]), hn1⟩
    have hm2 : lookup_dir_match H mem c2 nm l 0 = true := by
      rw [lookup_dir_match_iff]; exact ⟨Or.inr (by simp [hr2]), hn2⟩
    have hx1 : ¬ lookup_dir_match H mem c1 nm l 0 = true := by
      rw [lookup_dir_match_iff]; rintro ⟨h | h, -⟩
      · exact hf1 h
      · rw [if_pos hr1] at h; exact absurd h (by decide)
    have hx2 : ¬ lookup_dir_match H mem c2 nm l 1 = true := by
      rw [lookup_dir_match_iff]; rintro ⟨h | h, -⟩
      · exact hf2 h
      · simp [hr2] at h
    constructor
    · have : items.find? (fun i => lookup_dir_match H mem i nm l 1) = some c1 := by
        apply find_unique items c1 hc1 hm1
        intro y hy hpy
        rcases honly y hy (lookup_dir_match_named H mem y nm l 1 hpy) with h | h
        · exact h
        · subst h; exact absurd hpy hx2
      simp only [lookup_both, hdir, this]
    · have : items.find? (fun i => lookup_dir_match H mem i nm l 0) = some c2 := by
        apply find_unique items c2 hc2 hm2
        intro y hy hpy
        rcases honly y hy (lookup_dir_match_named H mem y nm l 0 hpy) with h | h
        · subst h; exact absurd hpy hx1
        · exact h
      simp only [lookup_both, hdir, this]
  · intro c hc hn honly rec hrec
    have huniq : ∀ r, ∀ y ∈ items, lookup_dir_match H mem y nm l r = true → y = c :=
      fun r y hy hpy => honly y hy (lookup_dir_match_named H mem y nm l r hpy)
    by_cases hm : lookup_dir_match H mem c nm l rec = true
    · have := find_unique items c hc hm (huniq rec)
      simp only [lookup_both, hdir, this]
    · have hnone : items.find? (fun i => lookup_dir_match H mem i nm l rec) = none := by
        apply find_none
        intro y hy
        cases hy2 : lookup_dir_match H mem y nm l rec with
        | false => rfl
        | true => have := huniq rec y hy hy2; subst this; exact absurd hy2 hm
      have hm2 : lookup_dir_match H mem c nm l (if rec = 0 then 1 else 0) = true := by
        rw [lookup_dir_match_iff] at hm ⊢
        refine ⟨?_, hn⟩
        by_cases hfile : Int.land (feature_type H mem c) H.feature_is_file = 0
        · exact Or.inl hfile
        · right
          have hne : ¬ (if Int.land (feature_type H mem c) H.feature_for_recovery ≠ 0
              then (1 : Int) else 0) = rec := fun h => hm ⟨Or.inr h, hn⟩
          rcases hrec with h | h <;> subst h <;> split_ifs at hne ⊢ <;> simp_all
      have := find_unique items c hc hm2 (huniq _)
      simp only [lookup_both, hdir, hnone, this]

/-- C2, amended, at the sample children: files `x` at 39 (normal) and 79 (recovery), and the
single file `y` at 199. -/
theorem c2_recovery_bias_files_witness :
    (lookup_both sample_header store_siblings 5 0 (cstr "x") 1 1 = some (some 79)
        ∧ lookup_both sample_header store_siblings 5 0 (cstr "x") 1 0 = some (some 39))
      ∧ lookup_both sample_header store_siblings 5 0 (cstr "y") 1 0 = some (some 199) := by
  have hsib : siblings sample_header store_siblings (next_level sample_header store_siblings 0)
      [39, 79, 119, 159, 199] := by simp only [siblings]; decide
  have hx := c2_recovery_bias_files sample_header store_siblings 5 0 (cstr "x") 1
    [39, 79, 119, 159, 199] (by decide) hsib (by decide)
  have hy := c2_recovery_bias_files sample_header store_siblings 5 0 (cstr "y") 1
    [39, 79, 119, 159, 199] (by decide) hsib (by decide)
  refine ⟨hx.1 79 39 (by decide) (by decide) (by unfold named; decide) (by unfold named; decide)
    (by decide) (by decide) (by decide) (by decide) ?_, hy.2 199 (by decide)
    (by unfold named; decide) ?_ 0 (Or.inl rfl)⟩
  · intro i hi hnamed
    simp only [List.mem_cons, List.mem_singleton, List.not_mem_nil, or_false] at hi
    rcases hi with h | h | h | h | h <;> subst h
    · right; rfl
    · left; rfl
    · exact absurd hnamed (by unfold named; decide)
    · exact absurd hnamed (by unfold named; decide)
    · exact absurd hnamed (by unfold named; decide)
  · intro i hi hnamed
    simp only [List.mem_cons, List.mem_singleton, List.not_mem_nil, or_false] at hi
    rcases hi with h | h | h | h | h <;> subst h
    · exact absurd hnamed (by unfold named; decide)
    · exact absurd hnamed (by unfold named; decide)
    · exact absurd hnamed (by unfold named; decide)
    · exact absurd hnamed (by unfold named; decide)
    · rfl

/-! ## C3: lookups in the kernel-only build while no rules are loaded -/

theorem load_rules_late_is_recovery (B : Build) (H : Header) (e : LoadEnv) (S : State) :
    (load_rules_late B H e S).2.is_recovery = S.is_recovery := by
  simp only [load_rules_late_eq]
  generalize (if S.start_time = 0 then e.start_seconds % 2 ^ 64 else S.start_time) = st
  generalize (if to_size_t e.fread_ret > DEFEX_RULES_ARRAY_SIZE B H
    then (DEFEX_RULES_ARRAY_SIZE B H : Int) else e.fread_ret) = rs
  split_ifs <;> rfl

/-- C3, as stated, fails once the retry budget is used up in normal mode: after a first
attempt at second 1, the inline `load_rules_late` at second 40 returns `-1`, the rules are
still not loaded, `is_recovery` is `0`, and `lookup_tree` returns `0` for
`feature_ped_exception` and for `feature_safeplace_path`. -/
theorem c3_budget_exhausted_denies_exempted :
    data_size sample_header state_after_first_try.defex_packed_rules 0 = 0
      ∧ state_after_first_try.is_recovery = 0
      ∧ (load_rules_late sample_build_late sample_header (open_fails_at 40)
          state_after_first_try).1 = -1
      ∧ (lookup_tree sample_build_late sample_header sample_kernel 4 [open_fails_at 40]
          (some (cstr "/x")) sample_header.feature_ped_exception none
          state_after_first_try).map (fun r => r.1) = some 0
      ∧ (lookup_tree sample_build_late sample_header sample_kernel 4 [open_fails_at 40]
          (some (cstr "/x")) sample_header.feature_safeplace_path none
          state_after_first_try).map (fun r => r.1) = some 0 := by
  refine ⟨?_, ?_, ?_, ?_, ?_⟩ <;> decide

/-- C3, amended: in the kernel-only build, for a path starting with `/`, when the root has
`data_size == 0` and the inline `load_rules_late` returns `l <= 0`: if `l == 0` (the attempt
was skipped or failed) or `is_recovery` is set, `lookup_tree` returns `1` for
`feature_ped_exception` and `feature_safeplace_path` and `0` for every other attribute;
if `l == -1` (budget used up) in normal mode it returns `0` for every attribute. -/
theorem c3_unloaded_late_verdict (B : Build) (H : Header) (X : Kernel) (fuel : Nat)
    (e : LoadEnv) (rest : List LoadEnv) (p : List Nat) (attr : Int) (f : Option file)
    (S : State) (hk : B.kernel_only = true) (hp : byte_at p 0 = 47)
    (hempty : data_size H S.defex_packed_rules 0 = 0)
    (hl : (load_rules_late B H e S).1 ≤ 0) :
    lookup_tree B H X fuel (e :: rest) (some p) attr f S =
      some ((if (load_rules_late B H e S).1 = 0 ∨ S.is_recovery ≠ 0 then
          (if attr = H.feature_ped_exception ∨ attr = H.feature_safeplace_path then 1 else 0)
        else 0), (load_rules_late B H e S).2) := by
  unfold lookup_tree
  simp only [hp, ne_eq, not_true_eq_false, if_false]
  unfold try_to_load
  rw [if_pos hempty]
  simp only [hk, if_true]
  rw [if_neg (not_lt.mpr hl), load_rules_late_is_recovery]
  split_ifs <;> rfl

/-- C3, amended, at the sample state: budget used up, normal mode, verdict `0`. -/
theorem c3_unloaded_late_verdict_witness :
    lookup_tree sample_build_late sample_header sample_kernel 4 [open_fails_at 40]
        (some (cstr "/x")) 8 none state_after_first_try =
      some ((if (load_rules_late sample_build_late sample_header (open_fails_at 40)
            state_after_first_try).1 = 0 ∨ state_after_first_try.is_recovery ≠ 0 then
          (if (8 : Int) = sample_header.feature_ped_exception
            ∨ (8 : Int) = sample_header.feature_safeplace_path then 1 else 0)
        else 0),
        (load_rules_late sample_build_late sample_header (open_fails_at 40)
          state_after_first_try).2) :=
  c3_unloaded_late_verdict sample_build_late sample_header sample_kernel 4 (open_fails_at 40)
    [] (cstr "/x") 8 none state_after_first_try (by decide) (by decide) (by decide) (by decide)

/-! ## C4: lookups without `DEFEX_KERNEL_ONLY` while no rules are loaded -/

theorem check_system_mount_rules (X : Kernel) (S : State) :
    (check_system_mount X S).2.defex_packed_rules = S.defex_packed_rules := by
  unfold check_system_mount
  split_ifs <;> rfl

/-- C4: `check_rules_ready()` is `1` exactly when the root has a nonzero `data_size`, and `0`
otherwise; without `DEFEX_KERNEL_ONLY`, when it is `0`, `lookup_tree` returns `0` for every
path (null included), attribute and file handle, leaving the state as it was, and
`rules_lookup` returns `0` as well, the rule array unchanged. -/
theorem c4_fail_closed_when_unloaded (B : Build) (H : Header) (X : Kernel) (fuel : Nat)
    (envs : List LoadEnv) (file_path : Option (List Nat)) (target_file : List Nat) (attr : Int)
    (f : Option file) (S : State) (hk : B.kernel_only = false) :
    (check_rules_ready H S = 1 ↔ data_size H S.defex_packed_rules 0 ≠ 0)
      ∧ (check_rules_ready H S = 0 ↔ data_size H S.defex_packed_rules 0 = 0)
      ∧ (check_rules_ready H S = 0 →
        lookup_tree B H X fuel envs file_path attr f S = some (0, S)
          ∧ ∃ S1, rules_lookup B H X fuel envs target_file attr f S = some (0, S1)
            ∧ S1.defex_packed_rules = S.defex_packed_rules) := by
  have hready0 : check_rules_ready H S = 0 ↔ data_size H S.defex_packed_rules 0 = 0 := by
    unfold check_rules_ready
    split_ifs with h <;> simp [h]
  have hready1 : check_rules_ready H S = 1 ↔ data_size H S.defex_packed_rules 0 ≠ 0 := by
    unfold check_rules_ready
    split_ifs with h <;> simp [h]
  have htree : ∀ (p : Option (List Nat)) (T : State),
      data_size H T.defex_packed_rules 0 = 0 →
      lookup_tree B H X fuel envs p attr f T = some (0, T) := by
    intro p T hT
    unfold lookup_tree
    cases p with
    | none => rfl
    | some q =>
      simp only []
      split_ifs
      · rfl
      · unfold try_to_load
        rw [if_pos hT]
        simp [hk]
  refine ⟨hready1, hready0, fun hready => ?_⟩
  have hzero := hready0.mp hready
  refine ⟨htree file_path S hzero, ?_⟩
  unfold rules_lookup
  split_ifs
  · exact ⟨_, htree _ _ (by rw [check_system_mount_rules]; exact hzero),
      check_system_mount_rules X S⟩
  · exact ⟨S, rfl, rfl⟩

/-- C4 at the sample build, with an all-zero rule array and the path `/a`. -/
theorem c4_fail_closed_when_unloaded_witness :
    check_rules_ready sample_header (State.init sample_build sample_header) = 0
      ∧ lookup_tree sample_build sample_header sample_kernel 3 [] (some (cstr "/a")) 8 none
        (State.init sample_build sample_header)
        = some (0, State.init sample_build sample_header)
      ∧ ∃ S1, rules_lookup sample_build sample_header sample_kernel 3 [] (cstr "/a") 8 none
          (State.init sample_build sample_header) = some (0, S1)
        ∧ S1.defex_packed_rules = (State.init sample_build sample_header).defex_packed_rules :=
  ⟨by decide,
    (c4_fail_closed_when_unloaded sample_build sample_header sample_kernel 3 []
      (some (cstr "/a")) (cstr "/a") 8 none (State.init sample_build sample_header)
      (by decide)).2.2 (by decide)⟩

/-! ## C5 and C6: the integrity check at a granting item -/

theorem check_integrity_zero (X : Kernel) (H : Header) (fuel : Nat) (fl : file)
    (hash : List Nat) (S : State) (hz : zero_hash hash) :
    defex_check_integrity X H fuel fl hash S
      = some (0, { S with log := S.log ++ [Event.check_integrity] }) := by
  unfold defex_check_integrity
  unfold zero_hash at hz
  simp only [hz, if_true]

theorem check_integrity_fails (X : Kernel) (H : Header) (fuel : Nat) (fl : file)
    (hash : List Nat) (S : State) (hz : ¬ zero_hash hash)
    (hbad : fl.is_err = true ∨ X.alloc_shash_err = true ∨ X.shash_desc_null = true
      ∨ X.buff_null = true ∨ X.crypto_shash_init < 0
      ∨ file_digest X H fuel fl = some none
      ∨ ∃ d, file_digest X H fuel fl = some (some d)
          ∧ memcmp d hash SHA256_DIGEST_SIZE ≠ 0) :
    ∃ r S1, defex_check_integrity X H fuel fl hash S = some (r, S1) ∧ r ≠ 0 := by
  unfold defex_check_integrity
  unfold zero_hash at hz
  simp only [hz, if_false]
  by_cases h1 : fl.is_err = true
  · rw [if_pos h1]; exact ⟨-1, _, rfl, by decide⟩
  rw [if_neg h1]
  by_cases h2 : X.alloc_shash_err = true
  · rw [if_pos h2]; exact ⟨-1, _, rfl, by decide⟩
  rw [if_neg h2]
  by_cases h3 : X.shash_desc_null = true
  · rw [if_pos h3]; exact ⟨-1, _, rfl, by decide⟩
  rw [if_neg h3]
  by_cases h4 : X.buff_null = true
  · rw [if_pos h4]; exact ⟨-1, _, rfl, by decide⟩
  rw [if_neg h4]
  by_cases h5 : X.crypto_shash_init < 0
  · rw [if_pos h5]; exact ⟨-1, _, rfl, by decide⟩
  rw [if_neg h5]
  have hd : file_digest X H fuel fl = some none
      ∨ ∃ d, file_digest X H fuel fl = some (some d)
          ∧ memcmp d hash SHA256_DIGEST_SIZE ≠ 0 := by
    rcases hbad with h | h | h | h | h | h | h
    · exact absurd h h1
    · exact absurd h h2
    · exact absurd h h3
    · exact absurd h h4
    · exact absurd h h5
    · exact Or.inl h
    · exact Or.inr h
  unfold file_digest at hd
  cases hl : hash_loop X H fl fuel 0 [] with
  | none => rw [hl] at hd; simp at hd
  | some r =>
    obtain ⟨ok, fed, log⟩ := r
    rw [hl] at hd
    cases ok with
    | false => exact ⟨-1, _, rfl, by decide⟩
    | true =>
      simp only [] at hd ⊢
      by_cases h6 : (X.crypto_shash_final fed).1 < 0
      · rw [if_pos h6]; exact ⟨-1, _, rfl, by decide⟩
      · rw [if_neg h6] at hd ⊢
        rcases hd with h | ⟨d, h, hne⟩
        · cases h
        · simp only [Option.some.injEq] at h
          subst h
          exact ⟨_, _, rfl, hne⟩

theorem hash_loop_at_end (X : Kernel) (H : Header) (f : file) (content : List Nat) (rc : Int)
    (hd : delivers f content rc) (hrc : rc ≤ 0) (fuel : Nat) (fed : List Nat) :
    hash_loop X H f (fuel + 1) content.length fed
      = some (decide (rc = 0), fed, [Event.fread content.length H.PAGE_SIZE]) := by
  have hr := hd.2.2 H.PAGE_SIZE
  rw [hash_loop]
  simp only [hr]
  by_cases h0 : rc = 0
  · subst h0
    simp
  · have hneg : rc < 0 := by omega
    rw [if_pos hneg]
    simp [h0]

theorem take_page_append (L : List Nat) (k : Nat) : L.take k ++ L.drop (L.take k).length = L := by
  rw [List.length_take]
  by_cases h : k ≤ L.length
  · rw [Nat.min_eq_left h, List.take_append_drop]
  · have h2 : L.length ≤ k := by omega
    rw [Nat.min_eq_right h2, List.take_of_length_le h2, List.drop_length, List.append_nil]

theorem hash_loop_step (X : Kernel) (H : Header) (f : file) (content : List Nat) (rc : Int)
    (hd : delivers f content rc) (hpage : 0 < H.PAGE_SIZE) (fuel pos : Nat) (fed : List Nat)
    (hpos : pos < content.length) :
    hash_loop X H f (fuel + 1) pos fed =
      if X.crypto_shash_update fed ((content.drop pos).take H.PAGE_SIZE) < 0 then
        some (false, fed, [Event.fread pos H.PAGE_SIZE])
      else
        (hash_loop X H f fuel (pos + ((content.drop pos).take H.PAGE_SIZE).length)
          (fed ++ (content.drop pos).take H.PAGE_SIZE)).map
          (fun q => (q.1, q.2.1, Event.fread pos H.PAGE_SIZE :: q.2.2)) := by
  have hr := hd.2.1 pos H.PAGE_SIZE hpos
  have hlen : 0 < ((content.drop pos).take H.PAGE_SIZE).length := by
    rw [List.length_take, List.length_drop]
    omega
  rw [hash_loop]
  simp only [hr]
  rw [if_neg (by omega), if_neg (by omega)]
  simp only [Int.toNat_ofNat, List.take_length]

theorem hash_loop_whole (X : Kernel) (H : Header) (f : file) (content : List Nat) (rc : Int)
    (hd : delivers f content rc) (hrc : rc ≤ 0) (hpage : 0 < H.PAGE_SIZE)
    (hupd : ∀ i, ¬ update_fails X H.PAGE_SIZE content i) :
    ∀ (fuel j : Nat), j * H.PAGE_SIZE < content.length →
      content.length - j * H.PAGE_SIZE < fuel →
      ∃ reads, hash_loop X H f fuel (j * H.PAGE_SIZE) (content.take (j * H.PAGE_SIZE))
        = some (decide (rc = 0), content, reads) := by
  intro fuel
  induction fuel with
  | zero => intro j _ h; omega
  | succ k ih =>
    intro j hj hfuel
    have hok : ¬ X.crypto_shash_update (content.take (j * H.PAGE_SIZE))
        ((content.drop (j * H.PAGE_SIZE)).take H.PAGE_SIZE) < 0 := fun h => hupd j ⟨hj, h⟩
    rw [hash_loop_step X H f content rc hd hpage k _ _ hj, if_neg hok]
    by_cases hnext : (j + 1) * H.PAGE_SIZE < content.length
    · have hsm : (j + 1) * H.PAGE_SIZE = j * H.PAGE_SIZE + H.PAGE_SIZE := Nat.succ_mul _ _
      have hlen : ((content.drop (j * H.PAGE_SIZE)).take H.PAGE_SIZE).length = H.PAGE_SIZE := by
        rw [List.length_take, List.length_drop]
        omega
      have hfed : content.take (j * H.PAGE_SIZE)
          ++ (content.drop (j * H.PAGE_SIZE)).take H.PAGE_SIZE
          = content.take ((j + 1) * H.PAGE_SIZE) := by
        rw [hsm, List.take_add]
      obtain ⟨reads, hr⟩ := ih (j + 1) hnext (by omega)
      rw [hlen, hfed, ← hsm, hr]
      exact ⟨_, rfl⟩
    · have hsm : (j + 1) * H.PAGE_SIZE = j * H.PAGE_SIZE + H.PAGE_SIZE := Nat.succ_mul _ _
      have hall : (content.drop (j * H.PAGE_SIZE)).take H.PAGE_SIZE
          = content.drop (j * H.PAGE_SIZE) := by
        apply List.take_of_length_le
        rw [List.length_drop]
        omega
      have hlen : j * H.PAGE_SIZE + (content.drop (j * H.PAGE_SIZE)).length
          = content.length := by
        rw [List.length_drop]
        omega
      obtain ⟨m, rfl⟩ : ∃ m, k = m + 1 := ⟨k - 1, by omega⟩
      rw [hall, hlen, List.take_append_drop, hash_loop_at_end X H f content rc hd hrc]
      exact ⟨_, rfl⟩

theorem hash_loop_update_fails (X : Kernel) (H : Header) (f : file) (content : List Nat)
    (rc : Int) (hd : delivers f content rc) (hpage : 0 < H.PAGE_SIZE) (i : Nat)
    (hfail : update_fails X H.PAGE_SIZE content i) :
    ∀ (fuel j : Nat), j ≤ i → content.length - j * H.PAGE_SIZE < fuel →
      ∃ fed reads, hash_loop X H f fuel (j * H.PAGE_SIZE) (content.take (j * H.PAGE_SIZE))
        = some (false, fed, reads) := by
  intro fuel
  induction fuel with
  | zero => intro j _ h; omega
  | succ k ih =>
    intro j hji hfuel
    have hmono : j * H.PAGE_SIZE ≤ i * H.PAGE_SIZE := Nat.mul_le_mul_right _ hji
    have hj : j * H.PAGE_SIZE < content.length := lt_of_le_of_lt hmono hfail.1
    rw [hash_loop_step X H f content rc hd hpage k _ _ hj]
    by_cases hu : X.crypto_shash_update (content.take (j * H.PAGE_SIZE))
        ((content.drop (j * H.PAGE_SIZE)).take H.PAGE_SIZE) < 0
    · rw [if_pos hu]
      exact ⟨_, _, rfl⟩
    · rw [if_neg hu]
      have hne : j ≠ i := fun h => hu (by rw [h]; exact hfail.2)
      have hji2 : j + 1 ≤ i := by omega
      have hsm : (j + 1) * H.PAGE_SIZE = j * H.PAGE_SIZE + H.PAGE_SIZE := Nat.succ_mul _ _
      have hmono2 : (j + 1) * H.PAGE_SIZE ≤ i * H.PAGE_SIZE := Nat.mul_le_mul_right _ hji2
      have hlen : ((content.drop (j * H.PAGE_SIZE)).take H.PAGE_SIZE).length = H.PAGE_SIZE := by
        rw [List.length_take, List.length_drop]
        have := hfail.1
        omega
      have hfed : content.take (j * H.PAGE_SIZE)
          ++ (content.drop (j * H.PAGE_SIZE)).take H.PAGE_SIZE
          = content.take ((j + 1) * H.PAGE_SIZE) := by
        rw [hsm, List.take_add]
      obtain ⟨fed, reads, hr⟩ := ih (j + 1) hji2 (by omega)
      rw [hlen, hfed, ← hsm, hr]
      exact ⟨_, _, rfl⟩

theorem file_digest_content (X : Kernel) (H : Header) (fuel : Nat) (f : file)
    (content : List Nat) (rc : Int) (hd : delivers f content rc) (hrc : rc ≤ 0)
    (hpage : 0 < H.PAGE_SIZE) (hfuel : content.length < fuel) :
    ((rc < 0 ∨ (∃ i, update_fails X H.PAGE_SIZE content i)
        ∨ (X.crypto_shash_final content).1 < 0) → file_digest X H fuel f = some none)
      ∧ (rc = 0 → (∀ i, ¬ update_fails X H.PAGE_SIZE content i) →
          ¬ (X.crypto_shash_final content).1 < 0 →
          file_digest X H fuel f = some (some (X.crypto_shash_final content).2)) := by
  have hz : (0 : Nat) * H.PAGE_SIZE = 0 := Nat.zero_mul _
  have hwhole : (∀ i, ¬ update_fails X H.PAGE_SIZE content i) →
      ∃ reads, hash_loop X H f fuel 0 [] = some (decide (rc = 0), content, reads) := by
    intro hall
    by_cases hlen : content.length = 0
    · obtain ⟨m, rfl⟩ : ∃ m, fuel = m + 1 := ⟨fuel - 1, by omega⟩
      have h := hash_loop_at_end X H f content rc hd hrc m []
      rw [hlen] at h
      rw [h, List.length_eq_zero.mp hlen]
      exact ⟨_, rfl⟩
    · have h := hash_loop_whole X H f content rc hd hrc hpage hall fuel 0 (by omega) (by omega)
      rw [hz, List.take_zero] at h
      exact h
  constructor
  · intro hcause
    unfold file_digest
    by_cases hu : ∃ i, update_fails X H.PAGE_SIZE content i
    · obtain ⟨i, hi⟩ := hu
      obtain ⟨fed, reads, hr⟩ := hash_loop_update_fails X H f content rc hd hpage i hi fuel 0
        (Nat.zero_le _) (by omega)
      rw [hz, List.take_zero] at hr
      rw [hr]
    · obtain ⟨reads, hr⟩ := hwhole (fun i h => hu ⟨i, h⟩)
      rw [hr]
      by_cases h0 : rc = 0
      · subst h0
        have hfin : (X.crypto_shash_final content).1 < 0 := by
          rcases hcause with h | h | h
          · exact absurd h (lt_irrefl _)
          · exact absurd h hu
          · exact h
        simp only [decide_True, hfin, if_true]
      · simp only [h0, decide_False]
  · intro h0 hall hfin
    unfold file_digest
    obtain ⟨reads, hr⟩ := hwhole hall
    rw [hr]
    subst h0
    simp only [decide_True, hfin, if_false]

/-- C5, as stated, fails at an item that is not marked `feature_is_file`: the folder `d`
grants attribute 32 and has a saved digest that is not zero, a file handle is supplied whose
digest differs from it (`defex_check_integrity` on that file and digest returns nonzero),
the path is not the exempt one, and still `lookup_tree("/d", 32, f)` returns `1`. -/
theorem c5_folder_skips_integrity_check :
    lookup_reach sample_header store_integrity 0 4 32 4 0 (cstr "d")
        = some (some (79, false, 0))
      ∧ ¬ zero_hash (integrity sample_header store_integrity 79)
      ∧ defex_integrity_default (cstr "/d") ≠ 0
      ∧ (defex_check_integrity sample_kernel sample_header 4 (sample_file [1, 2, 3])
          (integrity sample_header store_integrity 79) (state_of store_integrity 0)).map
            (fun r => decide (r.1 = 0)) = some false
      ∧ (lookup_tree sample_build sample_header sample_kernel 4 [] (some (cstr "/d")) 32
          (some (sample_file [1, 2, 3])) (state_of store_integrity 0)).map (fun r => r.1)
          = some 1 := by
  refine ⟨?_, ?_, ?_, ?_, ?_⟩
  · decide
  · unfold zero_hash; decide
  · decide
  · decide
  · decide

/-- C5, amended: in a build with `DEFEX_INTEGRITY_ENABLE`, for a loaded policy and a path
starting with `/`, if the walk stops at an item that grants the attribute and is marked
`feature_is_file`, its saved digest is not all-zero, the path is not the exempt one
(`defex_integrity_default` is not `0`), and a file handle is supplied that cannot be hashed
or whose content has a digest other than the saved one, then `lookup_tree` returns
`DEFEX_INTEGRITY_FAIL` (and so never `1`, the two being different), while the same lookup
without a file handle returns `1`. The handle cannot be hashed when it is an error pointer,
when the hash cannot be set up, when reading the file ends in an error, or when a hash
update or the final hash step fails; the digest is that of the whole `content` of the file,
which the handle gives page by page. -/
theorem c5_integrity_gate_for_files (B : Build) (H : Header) (X : Kernel) (fuel : Nat)
    (envs : List LoadEnv) (p : List Nat) (attr : Int) (fl : file) (S : State)
    (item : Nat) (sep : Bool) (after : Nat)
    (hi : B.integrity_enable = true)
    (hload : data_size H S.defex_packed_rules 0 ≠ 0) (hp : byte_at p 0 = 47)
    (hreach : lookup_reach H S.defex_packed_rules S.is_recovery fuel attr fuel 0 (p.drop 1)
      = some (some (item, sep, after)))
    (hfile : Int.land (feature_type H S.defex_packed_rules item) H.feature_is_file ≠ 0)
    (hhash : ¬ zero_hash (integrity H S.defex_packed_rules item))
    (hpath : defex_integrity_default p ≠ 0)
    (hbad : fl.is_err = true ∨ X.alloc_shash_err = true ∨ X.shash_desc_null = true
      ∨ X.buff_null = true ∨ X.crypto_shash_init < 0
      ∨ ∃ content rc, delivers fl content rc ∧ rc ≤ 0 ∧ 0 < H.PAGE_SIZE
          ∧ content.length < fuel
          ∧ (rc < 0 ∨ (∃ i, update_fails X H.PAGE_SIZE content i)
            ∨ (X.crypto_shash_final content).1 < 0
            ∨ memcmp (X.crypto_shash_final content).2
                (integrity H S.defex_packed_rules item) SHA256_DIGEST_SIZE ≠ 0)) :
    (∃ S1, lookup_tree B H X fuel envs (some p) attr (some fl) S
        = some (H.DEFEX_INTEGRITY_FAIL, S1))
      ∧ (H.DEFEX_INTEGRITY_FAIL ≠ 1 →
        ∀ S1, lookup_tree B H X fuel envs (some p) attr (some fl) S ≠ some (1, S1))
      ∧ lookup_tree B H X fuel envs (some p) attr none S = some (1, S) := by
  have hold : fl.is_err = true ∨ X.alloc_shash_err = true ∨ X.shash_desc_null = true
      ∨ X.buff_null = true ∨ X.crypto_shash_init < 0
      ∨ file_digest X H fuel fl = some none
      ∨ ∃ d, file_digest X H fuel fl = some (some d)
          ∧ memcmp d (integrity H S.defex_packed_rules item) SHA256_DIGEST_SIZE ≠ 0 := by
    rcases hbad with h | h | h | h | h | ⟨content, rc, hd, hrc, hpage, hfuel, hcause⟩
    pick_goal 6
    · obtain ⟨d1, d2⟩ := file_digest_content X H fuel fl content rc hd hrc hpage hfuel
      refine Or.inr (Or.inr (Or.inr (Or.inr (Or.inr ?_))))
      by_cases hc : rc < 0 ∨ (∃ i, update_fails X H.PAGE_SIZE content i)
          ∨ (X.crypto_shash_final content).1 < 0
      · exact Or.inl (d1 hc)
      · have h0 : rc = 0 := by
          have : ¬ rc < 0 := fun h => hc (Or.inl h)
          omega
        have hall : ∀ i, ¬ update_fails X H.PAGE_SIZE content i :=
          fun i h => hc (Or.inr (Or.inl ⟨i, h⟩))
        have hfin : ¬ (X.crypto_shash_final content).1 < 0 := fun h => hc (Or.inr (Or.inr h))
        have hne : memcmp (X.crypto_shash_final content).2
            (integrity H S.defex_packed_rules item) SHA256_DIGEST_SIZE ≠ 0 := by
          rcases hcause with h | h | h | h
          · exact absurd h (fun h => hc (Or.inl h))
          · exact absurd h (fun h => hc (Or.inr (Or.inl h)))
          · exact absurd h hfin
          · exact h
        exact Or.inr ⟨_, d2 h0 hall hfin, hne⟩
    all_goals simp [h]
  obtain ⟨r, S1, hc, hr⟩ := check_integrity_fails X H fuel fl _ S hhash hold
  have hfail : lookup_tree B H X fuel envs (some p) attr (some fl) S
      = some (H.DEFEX_INTEGRITY_FAIL, S1) := by
    rw [lookup_tree_loaded B H X fuel envs p attr _ S hload hp, hreach]
    simp only [lookup_grant, hi, if_true, hc]
    rw [if_pos hfile, if_pos hpath, if_pos hr]
  refine ⟨⟨S1, hfail⟩, ?_, ?_⟩
  · intro hne S2 h
    rw [hfail] at h
    simp only [Option.some.injEq, Prod.mk.injEq] at h
    exact hne h.1
  · rw [lookup_tree_loaded B H X fuel envs p attr _ S hload hp, hreach]
    simp only [lookup_grant, hi, if_true, lookup_folder_rule]
    rw [if_neg (fun h => hfile h.2)]

set_option maxRecDepth 100000 in
/-- C5, amended, at the sample file rule `/f` with pages of two bytes: for a file of three
bytes whose digest differs from the saved one, and for a file that gives three bytes and
then a read error. -/
theorem c5_integrity_gate_for_files_witness :
    ((∃ S1, lookup_tree sample_build sample_header_small_pages sample_kernel 4 []
          (some (cstr "/f")) 32 (some (sample_file [1, 2, 3])) (state_of store_integrity 0)
          = some (sample_header_small_pages.DEFEX_INTEGRITY_FAIL, S1))
        ∧ (sample_header_small_pages.DEFEX_INTEGRITY_FAIL ≠ 1 →
          ∀ S1, lookup_tree sample_build sample_header_small_pages sample_kernel 4 []
            (some (cstr "/f")) 32 (some (sample_file [1, 2, 3])) (state_of store_integrity 0)
            ≠ some (1, S1))
        ∧ lookup_tree sample_build sample_header_small_pages sample_kernel 4 []
            (some (cstr "/f")) 32 none (state_of store_integrity 0)
          = some (1, state_of store_integrity 0))
      ∧ ∃ S1, lookup_tree sample_build sample_header_small_pages sample_kernel 4 []
          (some (cstr "/f")) 32 (some (sample_file_read_error [6, 6, 6]))
          (state_of store_integrity 0)
          = some (sample_header_small_pages.DEFEX_INTEGRITY_FAIL, S1) :=
  ⟨c5_integrity_gate_for_files sample_build sample_header_small_pages sample_kernel 4 []
      (cstr "/f") 32 (sample_file [1, 2, 3]) (state_of store_integrity 0) 39 false 0
      (by decide) (by decide) (by decide) (by decide) (by decide)
      (by unfold zero_hash; decide) (by decide)
      (Or.inr (Or.inr (Or.inr (Or.inr (Or.inr
        ⟨[1, 2, 3], 0, ⟨rfl, fun _ _ _ => rfl, fun _ => by simp [sample_file]⟩, by decide,
          by decide, by decide,
          Or.inr (Or.inr (Or.inr (by decide)))⟩))))),
    (c5_integrity_gate_for_files sample_build sample_header_small_pages sample_kernel 4 []
      (cstr "/f") 32 (sample_file_read_error [6, 6, 6]) (state_of store_integrity 0) 39 false 0
      (by decide) (by decide) (by decide) (by decide) (by decide)
      (by unfold zero_hash; decide) (by decide)
      (Or.inr (Or.inr (Or.inr (Or.inr (Or.inr
        ⟨[6, 6, 6], -5, ⟨rfl, fun _ _ h => if_pos h, fun _ => rfl⟩, by decide, by decide,
          by decide,
          Or.inl (by decide)⟩)))))).1⟩

/-- C6: with an all-zero saved digest `defex_check_integrity` returns `0` for every file
handle (an error handle included) and with no fuel at all, recording no `local_fread`; and
when the walk of `lookup_tree` stops at a granting item whose saved digest is all-zero, the
verdict with a file handle is the verdict without one, it is `0` or `1` (never the
integrity-failure return), and the file is not read. -/
theorem c6_zero_hash_means_no_check (B : Build) (H : Header) (X : Kernel) (fuel : Nat)
    (envs : List LoadEnv) (p : List Nat) (attr : Int) (fl : file) (S : State)
    (item : Nat) (sep : Bool) (after : Nat)
    (hload : data_size H S.defex_packed_rules 0 ≠ 0) (hp : byte_at p 0 = 47)
    (hreach : lookup_reach H S.defex_packed_rules S.is_recovery fuel attr fuel 0 (p.drop 1)
      = some (some (item, sep, after)))
    (hhash : zero_hash (integrity H S.defex_packed_rules item)) :
    (∀ (k : Nat) (g : file) (hash : List Nat) (T : State), zero_hash hash →
        defex_check_integrity X H k g hash T
          = some (0, { T with log := T.log ++ [Event.check_integrity] }))
      ∧ ∃ v S1, lookup_tree B H X fuel envs (some p) attr (some fl) S = some (v, S1)
        ∧ lookup_tree B H X fuel envs (some p) attr none S = some (v, S)
        ∧ (v = 0 ∨ v = 1)
        ∧ (S1.log = S.log ∨ S1.log = S.log ++ [Event.check_integrity]) := by
  refine ⟨fun k g hash T hz => check_integrity_zero X H k g hash T hz, ?_⟩
  rw [lookup_tree_loaded B H X fuel envs p attr _ S hload hp,
    lookup_tree_loaded B H X fuel envs p attr _ S hload hp, hreach]
  have hc := check_integrity_zero X H fuel fl _ S hhash
  have hv := folder_rule_cases H S.defex_packed_rules attr item sep after
  simp only [lookup_grant, hc]
  split_ifs
  · exact absurd rfl ‹¬ (0 : Int) = 0›
  · exact ⟨_, _, rfl, rfl, hv, Or.inr rfl⟩
  · exact ⟨_, _, rfl, rfl, hv, Or.inl rfl⟩
  · exact ⟨_, _, rfl, rfl, hv, Or.inl rfl⟩
  · exact ⟨_, _, rfl, rfl, hv, Or.inl rfl⟩

/-- C6 at the sample file rule `/z`, whose saved digest is all-zero. -/
theorem c6_zero_hash_means_no_check_witness :
    ∃ v S1, lookup_tree sample_build sample_header sample_kernel 4 [] (some (cstr "/z")) 32
        (some (sample_file [1, 2, 3])) (state_of store_integrity 0) = some (v, S1)
      ∧ lookup_tree sample_build sample_header sample_kernel 4 [] (some (cstr "/z")) 32 none
        (state_of store_integrity 0) = some (v, state_of store_integrity 0)
      ∧ (v = 0 ∨ v = 1)
      ∧ (S1.log = (state_of store_integrity 0).log
        ∨ S1.log = (state_of store_integrity 0).log ++ [Event.check_integrity]) :=
  (c6_zero_hash_means_no_check sample_build sample_header sample_kernel 4 [] (cstr "/z") 32
    (sample_file [1, 2, 3]) (state_of store_integrity 0) 119 false 0 (by decide) (by decide)
    (by decide) (by unfold zero_hash; decide)).2

/-! ## C7: the `/system_root` overlay -/

theorem system_root_bytes :
    cstr "/system_root" = [47, 115, 121, 115, 116, 101, 109, 95, 114, 111, 111, 116] := by
  decide

theorem strncmp_system_root_append (p : List Nat) :
    strncmp (cstr "/system_root" ++ p) (cstr "/system_root") 12 = 0 := by
  rw [system_root_bytes]
  simp [strncmp, byte_at]

theorem drop_system_root_append (p : List Nat) : (cstr "/system_root" ++ p).drop 12 = p := by
  rw [system_root_bytes]
  rfl

/-- C7, as stated, fails for a path that itself starts with `/system_root`: the overlay is
detected, the rule `/a` grants attribute 8, `rules_lookup("/system_root/a")` strips the
text once and returns `1`, while `rules_lookup("/system_root" ++ "/system_root/a")` is left
with `/system_root/a` after the one stripping and returns `0`. -/
theorem c7_stripping_happens_once :
    (check_system_mount sample_kernel (state_of store_ab 0)).1 = true
      ∧ (rules_lookup sample_build sample_header sample_kernel 4 []
          (cstr "/system_root" ++ cstr "/system_root/a") 8 none (state_of store_ab 0)).map
            (fun r => r.1) = some 0
      ∧ (rules_lookup sample_build sample_header sample_kernel 4 []
          (cstr "/system_root/a") 8 none (state_of store_ab 0)).map (fun r => r.1)
          = some 1 := by
  refine ⟨?_, ?_, ?_⟩ <;> decide

/-- C7, amended: when `check_system_mount()` is true, `rules_lookup("/system_root" ++ p)`
is `lookup_tree(p)` for every path `p`, and it equals `rules_lookup(p)` for every path `p`
that does not itself start with `/system_root` (for every attribute and file handle, over
the same state). -/
theorem c7_system_root_stripped (B : Build) (H : Header) (X : Kernel) (fuel : Nat)
    (envs : List LoadEnv) (p : List Nat) (attr : Int) (f : Option file) (S : State)
    (hmount : (check_system_mount X S).1 = true) :
    (B.lookup_enable = true →
        rules_lookup B H X fuel envs (cstr "/system_root" ++ p) attr f S
          = lookup_tree B H X fuel envs (some p) attr f (check_system_mount X S).2)
      ∧ (strncmp p (cstr "/system_root") 12 ≠ 0 →
        rules_lookup B H X fuel envs (cstr "/system_root" ++ p) attr f S
          = rules_lookup B H X fuel envs p attr f S) := by
  have hstrip : B.lookup_enable = true →
      rules_lookup B H X fuel envs (cstr "/system_root" ++ p) attr f S
        = lookup_tree B H X fuel envs (some p) attr f (check_system_mount X S).2 := by
    intro he
    unfold rules_lookup
    rw [if_pos he]
    simp only [hmount, strncmp_system_root_append, decide_True, Bool.and_self, if_true,
      drop_system_root_append]
  refine ⟨hstrip, fun hp => ?_⟩
  by_cases he : B.lookup_enable = true
  · rw [hstrip he]
    unfold rules_lookup
    rw [if_pos he]
    simp only [hmount, hp, decide_False, Bool.and_false, Bool.false_eq_true, if_false]
  · unfold rules_lookup
    rw [if_neg he, if_neg he]

/-- C7, amended, at the sample rules: `/system_root/a/b` against `/a/b`. -/
theorem c7_system_root_stripped_witness :
    rules_lookup sample_build sample_header sample_kernel 4 []
        (cstr "/system_root" ++ cstr "/a/b") 8 none (state_of store_ab 0)
      = rules_lookup sample_build sample_header sample_kernel 4 [] (cstr "/a/b") 8 none
        (state_of store_ab 0) :=
  (c7_system_root_stripped sample_build sample_header sample_kernel 4 [] (cstr "/a/b") 8 none
    (state_of store_ab 0) (by decide)).2 (by decide)

/-! ## C8 and C9: `do_load_rules` -/

theorem byte_at_replicate_zero (n i : Nat) : byte_at (List.replicate n 0) i = 0 := by
  unfold byte_at
  by_cases h : i < n
  · rw [List.getD_eq_getElem _ _ (by simpa using h)]
    simp
  · rw [List.getD_eq_default _ _ (by simpa using h)]

theorem read_le_replicate_zero (n : Nat) :
    ∀ (width pos : Nat), read_le (List.replicate n 0) pos width = 0 := by
  intro width
  induction width with
  | zero => intro pos; rfl
  | succ w ih => intro pos; simp [read_le, byte_at_replicate_zero, ih]

theorem range_map_getD (data : List Nat) :
    ∀ m, m ≤ data.length → (List.range m).map (fun i => data.getD i 0) = data.take m := by
  intro m hm
  apply List.ext_getElem
  · simp [hm]
  · intro i h1 h2
    simp only [List.length_map, List.length_range] at h1
    have hi : i < data.length := lt_of_lt_of_le h1 hm
    simp [List.getElem?_eq_getElem hi]

theorem memset_rules_eq (store : List Nat) (cap : Nat) (h : store.length = cap) :
    List.replicate cap 0 ++ store.drop cap = List.replicate cap 0 := by
  rw [List.drop_of_length_le (le_of_eq h), List.append_nil]

theorem to_size_t_natCast_le (m : Nat) : to_size_t (m : Int) ≤ m := by
  unfold to_size_t
  have h : ((m : Int) % 2 ^ 64).toNat = m % 2 ^ 64 := by
    have : ((m : Int) % 2 ^ 64) = ((m % 2 ^ 64 : Nat) : Int) := by
      push_cast; rfl
    rw [this, Int.toNat_natCast]
  rw [h]
  exact Nat.mod_le _ _

theorem do_load_rules_read_ok (B : Build) (H : Header) (e : LoadEnv) (S : State) (m : Nat)
    (hsign : B.sign_enable = true)
    (hsize : 0 < to_int e.i_size)
    (hsize2 : to_size_t (to_int e.i_size) ≤ DEFEX_RULES_ARRAY_SIZE B H <<< 1)
    (halloc : e.vmalloc_ok = true) (hread : 0 < e.fread_ret)
    (hsig : e.defex_rules_signature_check e.data_buff e.fread_ret = (0, (m : Int)))
    (hm : m ≤ DEFEX_RULES_ARRAY_SIZE B H) :
    do_load_rules_read B H e S
      = (0, { S with
          defex_packed_rules := memcpy S.defex_packed_rules e.data_buff m
          log := S.log ++ [Event.fread 0 (to_int e.i_size).toNat] ++ [Event.memcpy_rules m] }) := by
  have h1 : ¬ (to_int e.i_size ≤ 0
      ∨ to_size_t (to_int e.i_size) > DEFEX_RULES_ARRAY_SIZE B H <<< 1) := by
    rintro (h | h)
    · exact absurd hsize (not_lt.mpr h)
    · exact absurd hsize2 (not_le.mpr h)
  have h2 : ¬ (to_size_t (m : Int) > DEFEX_RULES_ARRAY_SIZE B H) :=
    not_lt.mpr (le_trans (to_size_t_natCast_le m) hm)
  simp only [do_load_rules_read, hsign, halloc, hsig, if_true, Bool.not_true,
    Bool.false_eq_true, if_false]
  rw [if_neg h1, if_neg (not_le.mpr hread)]
  simp only [h2, and_false, if_false, if_true, Int.toNat_natCast, List.append_assoc]

/-- C8: in a build with `DEFEX_SIGN_ENABLE`, when `do_load_rules` opens the file, finds a
size (the `int data_size`) in `1 .. 2 * sizeof(defex_packed_rules)`, reads `n > 0` bytes
and the signature check returns `0` with a verified length `m` that fits the array and the
buffer, then it returns `0` and the rule array afterwards is the first `m` bytes of the
candidate followed by zeros up to its size, whatever it held before; so every byte below
`m` equals the byte of the candidate. -/
theorem c8_loader_round_trip (B : Build) (H : Header) (e : LoadEnv) (S : State) (m : Nat)
    (hsign : B.sign_enable = true)
    (harray : S.defex_packed_rules.length = DEFEX_RULES_ARRAY_SIZE B H)
    (hopen : e.fopen_ok = true)
    (hsize : 0 < to_int e.i_size)
    (hsize2 : to_size_t (to_int e.i_size) ≤ DEFEX_RULES_ARRAY_SIZE B H <<< 1)
    (halloc : e.vmalloc_ok = true) (hread : 0 < e.fread_ret)
    (hsig : e.defex_rules_signature_check e.data_buff e.fread_ret = (0, (m : Int)))
    (hm : m ≤ DEFEX_RULES_ARRAY_SIZE B H) (hbuf : m ≤ e.data_buff.length) :
    (do_load_rules B H e S).1 = 0
      ∧ (do_load_rules B H e S).2.defex_packed_rules
        = e.data_buff.take m ++ List.replicate (DEFEX_RULES_ARRAY_SIZE B H - m) 0
      ∧ ∀ i, i < m →
        (do_load_rules B H e S).2.defex_packed_rules.getD i 0 = e.data_buff.getD i 0 := by
  have hres : do_load_rules B H e S
      = (0, { S with
          defex_packed_rules :=
            e.data_buff.take m ++ List.replicate (DEFEX_RULES_ARRAY_SIZE B H - m) 0
          log := S.log ++ [Event.memset_rules (DEFEX_RULES_ARRAY_SIZE B H),
            Event.fopen DEFEX_RULES_FILE] ++ [Event.fread 0 (to_int e.i_size).toNat]
            ++ [Event.memcpy_rules m] }) := by
    simp only [do_load_rules, hopen, Bool.not_true, Bool.false_eq_true, if_false]
    rw [do_load_rules_read_ok B H e _ m hsign hsize hsize2 halloc hread hsig hm]
    simp only [ne_eq, not_true_eq_false, and_false, if_false]
    rw [memset_rules_eq _ _ harray]
    simp only [memcpy, range_map_getD e.data_buff m hbuf, List.drop_replicate]
  rw [hres]
  refine ⟨rfl, rfl, fun i hi => ?_⟩
  have hi2 : i < (e.data_buff.take m).length := by simp [hi, hbuf]
  simp only []
  rw [List.getD_append _ _ _ _ hi2, List.getD_eq_getElem _ _ hi2,
    List.getD_eq_getElem _ _ (lt_of_lt_of_le hi hbuf)]
  simp

set_option maxRecDepth 100000 in
/-- C8 at the sample rules followed by a four-byte signature, loaded into an array of 160
bytes that held other bytes before. -/
theorem c8_loader_round_trip_witness :
    (do_load_rules sample_build sample_header
        (sample_load (store_ab ++ [9, 9, 9, 9]) accept_all_but_four)
        (state_of (List.replicate 160 255) 0)).1 = 0
      ∧ (do_load_rules sample_build sample_header
          (sample_load (store_ab ++ [9, 9, 9, 9]) accept_all_but_four)
          (state_of (List.replicate 160 255) 0)).2.defex_packed_rules
        = (sample_load (store_ab ++ [9, 9, 9, 9]) accept_all_but_four).data_buff.take 119
          ++ List.replicate (DEFEX_RULES_ARRAY_SIZE sample_build sample_header - 119) 0
      ∧ ∀ i, i < 119 →
        (do_load_rules sample_build sample_header
          (sample_load (store_ab ++ [9, 9, 9, 9]) accept_all_but_four)
          (state_of (List.replicate 160 255) 0)).2.defex_packed_rules.getD i 0
        = (sample_load (store_ab ++ [9, 9, 9, 9]) accept_all_but_four).data_buff.getD i 0 :=
  c8_loader_round_trip sample_build sample_header
    (sample_load (store_ab ++ [9, 9, 9, 9]) accept_all_but_four)
    (state_of (List.replicate 160 255) 0) 119 (by decide) (by decide) (by decide) (by decide)
    (by decide) (by decide) (by decide) (by decide) (by decide) (by decide)

theorem do_load_rules_read_fail (B : Build) (H : Header) (e : LoadEnv) (S : State)
    (hfail : to_int e.i_size ≤ 0
      ∨ to_size_t (to_int e.i_size) > DEFEX_RULES_ARRAY_SIZE B H <<< 1
      ∨ e.vmalloc_ok = false ∨ e.fread_ret ≤ 0
      ∨ (B.sign_enable = true
        ∧ ((e.defex_rules_signature_check e.data_buff e.fread_ret).1 ≠ 0
          ∨ to_size_t (e.defex_rules_signature_check e.data_buff e.fread_ret).2
            > DEFEX_RULES_ARRAY_SIZE B H))) :
    (do_load_rules_read B H e S).1 ≠ 0
      ∧ (do_load_rules_read B H e S).2.defex_packed_rules = S.defex_packed_rules
      ∧ (do_load_rules_read B H e S).2.is_recovery = S.is_recovery
      ∧ ∀ k, Event.memcpy_rules k ∈ (do_load_rules_read B H e S).2.log →
        Event.memcpy_rules k ∈ S.log := by
  simp only [do_load_rules_read]
  by_cases h1 : to_int e.i_size ≤ 0
      ∨ to_size_t (to_int e.i_size) > DEFEX_RULES_ARRAY_SIZE B H <<< 1
  · rw [if_pos h1]
    exact ⟨Int.neg_ne_zero.mpr one_ne_zero, rfl, rfl, fun k h => h⟩
  rw [if_neg h1]
  by_cases h2 : e.vmalloc_ok = false
  · simp only [h2, Bool.not_false, if_true]
    exact ⟨Int.neg_ne_zero.mpr one_ne_zero, trivial, trivial, fun k h => h⟩
  have h2t : e.vmalloc_ok = true := by simpa using h2
  simp only [h2t, Bool.not_true, Bool.false_eq_true, if_false]
  by_cases h3 : e.fread_ret ≤ 0
  · rw [if_pos h3]
    exact ⟨Int.neg_ne_zero.mpr one_ne_zero, rfl, rfl, fun k h => by simpa using h⟩
  rw [if_neg h3]
  have hs : B.sign_enable = true
      ∧ ((e.defex_rules_signature_check e.data_buff e.fread_ret).1 ≠ 0
        ∨ to_size_t (e.defex_rules_signature_check e.data_buff e.fread_ret).2
          > DEFEX_RULES_ARRAY_SIZE B H) := by
    rcases hfail with h | h | h | h | h
    · exact absurd (Or.inl h) h1
    · exact absurd (Or.inr h) h1
    · exact absurd h h2
    · exact absurd h h3
    · exact h
  obtain ⟨hsign, hsig⟩ := hs
  simp only [hsign, if_true]
  generalize e.defex_rules_signature_check e.data_buff e.fread_ret = r at hsig ⊢
  by_cases h4 : r.1 = 0 ∧ to_size_t r.2 > DEFEX_RULES_ARRAY_SIZE B H
  · rw [if_pos h4]
    simp only []
    rw [if_neg (Int.neg_ne_zero.mpr one_ne_zero)]
    exact ⟨Int.neg_ne_zero.mpr one_ne_zero, rfl, rfl, fun k h => by simpa using h⟩
  · rw [if_neg h4]
    have h5 : r.1 ≠ 0 := by
      rcases hsig with h | h
      · exact h
      · exact fun h0 => h4 ⟨h0, h⟩
    rw [if_neg h5]
    exact ⟨h5, rfl, rfl, fun k h => by simpa using h⟩

/-- The failure paths of `do_load_rules` as the code tests them: when the file cannot be
opened, the `int data_size` is `<= 0` or above twice the array size, the buffer cannot be
allocated, the read fails, or - with `DEFEX_SIGN_ENABLE` - the signature check fails or the
verified length exceeds the array, then `do_load_rules` leaves the whole rule array zero,
whatever it held before, so that `check_rules_ready()` is `0`, it copies nothing into the
array, and outside kernel-only recovery mode its result is not `0`. -/
theorem load_failure_leaves_zero (B : Build) (H : Header) (e : LoadEnv) (S : State)
    (harray : S.defex_packed_rules.length = DEFEX_RULES_ARRAY_SIZE B H)
    (hfail : e.fopen_ok = false ∨ to_int e.i_size ≤ 0
      ∨ to_size_t (to_int e.i_size) > DEFEX_RULES_ARRAY_SIZE B H <<< 1
      ∨ e.vmalloc_ok = false ∨ e.fread_ret ≤ 0
      ∨ (B.sign_enable = true
        ∧ ((e.defex_rules_signature_check e.data_buff e.fread_ret).1 ≠ 0
          ∨ to_size_t (e.defex_rules_signature_check e.data_buff e.fread_ret).2
            > DEFEX_RULES_ARRAY_SIZE B H))) :
    (do_load_rules B H e S).2.defex_packed_rules
        = List.replicate (DEFEX_RULES_ARRAY_SIZE B H) 0
      ∧ check_rules_ready H (do_load_rules B H e S).2 = 0
      ∧ (∀ k, Event.memcpy_rules k ∈ (do_load_rules B H e S).2.log →
        Event.memcpy_rules k ∈ S.log)
      ∧ (¬ (B.kernel_only = true ∧ S.is_recovery ≠ 0) → (do_load_rules B H e S).1 ≠ 0) := by
  have hstore : (do_load_rules B H e S).2.defex_packed_rules
        = List.replicate (DEFEX_RULES_ARRAY_SIZE B H) 0
      ∧ (∀ k, Event.memcpy_rules k ∈ (do_load_rules B H e S).2.log →
        Event.memcpy_rules k ∈ S.log)
      ∧ (¬ (B.kernel_only = true ∧ S.is_recovery ≠ 0) → (do_load_rules B H e S).1 ≠ 0) := by
    simp only [do_load_rules]
    rw [memset_rules_eq _ _ harray]
    by_cases ho : e.fopen_ok = false
    · simp only [ho, Bool.not_false, if_true]
      refine ⟨trivial, fun k h => by simpa using h, fun hk => ?_⟩
      rw [if_neg hk]
      exact Int.neg_ne_zero.mpr one_ne_zero
    · have hot : e.fopen_ok = true := by simpa using ho
      simp only [hot, Bool.not_true, Bool.false_eq_true, if_false]
      have hf := do_load_rules_read_fail B H e
        { S with
          defex_packed_rules := List.replicate (DEFEX_RULES_ARRAY_SIZE B H) 0
          log := S.log ++ [Event.memset_rules (DEFEX_RULES_ARRAY_SIZE B H),
            Event.fopen DEFEX_RULES_FILE] }
        (by
          rcases hfail with h | h
          · exact absurd h ho
          · exact h)
      obtain ⟨hne, hst, hrec, hlog⟩ := hf
      simp only [] at hst hrec hlog
      rw [hrec]
      split_ifs with hk
      · exact ⟨hst, fun k h => by simpa using hlog k h, fun hn => absurd ⟨hk.1, hk.2.1⟩ hn⟩
      · exact ⟨hst, fun k h => by simpa using hlog k h, fun _ => hne⟩
  refine ⟨hstore.1, ?_, hstore.2.1, hstore.2.2⟩
  unfold check_rules_ready data_size
  rw [hstore.1, read_le_replicate_zero]
  rfl

set_option maxRecDepth 100000 in
/-- A candidate whose signature is rejected, loaded into an array of 160 bytes that held
other bytes before: the array is zero afterwards and the result is not `0`. -/
theorem load_failure_leaves_zero_sample :
    (do_load_rules sample_build sample_header (sample_load store_ab reject)
        (state_of (List.replicate 160 255) 0)).2.defex_packed_rules
        = List.replicate (DEFEX_RULES_ARRAY_SIZE sample_build sample_header) 0
      ∧ (do_load_rules sample_build sample_header (sample_load store_ab reject)
          (state_of (List.replicate 160 255) 0)).1 ≠ 0 :=
  have h := load_failure_leaves_zero sample_build sample_header
    (sample_load store_ab reject) (state_of (List.replicate 160 255) 0) (by decide)
    (Or.inr (Or.inr (Or.inr (Or.inr (Or.inr ⟨by decide, Or.inl (by decide)⟩)))))
  ⟨h.1, h.2.2.2 (by decide)⟩

set_option maxRecDepth 100000 in
/-- C9: the size of the file is cut to an `int` before it is tested (line 294). The array
has 160 bytes and the rules file has `2 ^ 32 + 123` bytes, more than twice the array; as an
`int` its size is 123, which passes the test of line 295. With a signature check that accepts
the 123 bytes read, `do_load_rules` returns `0`, copies 119 bytes into the array and
`check_rules_ready()` is `1`: the file is not rejected and the array is not zero. -/
theorem c9_oversized_file_is_loaded :
    DEFEX_RULES_ARRAY_SIZE sample_build sample_header = 160
      ∧ wrapped_size_load.i_size > 2 * 160
      ∧ to_int wrapped_size_load.i_size = 123
      ∧ (do_load_rules sample_build sample_header wrapped_size_load
          (state_of (List.replicate 160 0) 0)).1 = 0
      ∧ (do_load_rules sample_build sample_header wrapped_size_load
          (state_of (List.replicate 160 0) 0)).2.log
        = [Event.memset_rules 160, Event.fopen DEFEX_RULES_FILE, Event.fread 0 123,
          Event.memcpy_rules 119]
      ∧ (do_load_rules sample_build sample_header wrapped_size_load
          (state_of (List.replicate 160 0) 0)).2.defex_packed_rules
        ≠ List.replicate 160 0
      ∧ check_rules_ready sample_header (do_load_rules sample_build sample_header
          wrapped_size_load (state_of (List.replicate 160 0) 0)).2 = 1 := by
  refine ⟨?_, ?_, ?_, ?_, ?_, ?_, ?_⟩ <;> decide

/-! ## C10: the retry budget of `load_rules_late` -/

theorem late_state_fields (B : Build) (H : Header) (e : LoadEnv) (S : State)
    (hlock : S.load_lock = false) (hprog : S.in_progress = 0) :
    (load_rules_late B H e S).2.load_lock = false
      ∧ (load_rules_late B H e S).2.in_progress = 0
      ∧ (load_rules_late B H e S).2.start_time = budget_start e S
      ∧ ((load_rules_late B H e S).2.last_time = S.last_time
        ∨ ((load_rules_late B H e S).2.last_time = e.cur_seconds % 2 ^ 64
          ∧ ¬ budget_exceeded e S)) := by
  simp only [load_rules_late_eq, budget_exceeded, budget_start, hlock, hprog, Bool.false_eq_true,
    if_false, ne_eq, not_true_eq_false]
  generalize (if S.start_time = 0 then e.start_seconds % 2 ^ 64 else S.start_time) = st
  generalize (if to_size_t e.fread_ret > DEFEX_RULES_ARRAY_SIZE B H
    then (DEFEX_RULES_ARRAY_SIZE B H : Int) else e.fread_ret) = rs
  split_ifs with h1 h2 <;> simp_all

theorem late_gives_up (B : Build) (H : Header) (e : LoadEnv) (S : State)
    (hlock : S.load_lock = false) (hprog : S.in_progress = 0)
    (hcur : e.cur_seconds % 2 ^ 64 ≠ S.last_time) (hb : budget_exceeded e S) :
    load_rules_late B H e S
      = (-1, { S with start_time := budget_start e S, in_progress := 0 }) := by
  unfold budget_exceeded budget_start at hb
  simp only [load_rules_late_eq, budget_start, hlock, hprog, Bool.false_eq_true,
    if_false, ne_eq, not_true_eq_false]
  rw [if_neg hcur, if_pos hb]

theorem late_open_fails (B : Build) (H : Header) (e : LoadEnv) (S : State)
    (hlock : S.load_lock = false) (hprog : S.in_progress = 0)
    (hcur : e.cur_seconds % 2 ^ 64 ≠ S.last_time) (hb : ¬ budget_exceeded e S)
    (hopen : e.fopen_ok = false) :
    load_rules_late B H e S
      = (0, { S with
          start_time := budget_start e S, last_time := e.cur_seconds % 2 ^ 64
          in_progress := 0, log := S.log ++ [Event.fopen DEFEX_RULES_FILE] }) := by
  unfold budget_exceeded budget_start at hb
  simp only [load_rules_late_eq, budget_start, hlock, hprog, Bool.false_eq_true,
    if_false, ne_eq, not_true_eq_false, hopen, Bool.not_false, if_true]
  rw [if_neg hcur, if_neg hb]

theorem late_inv_step (B : Build) (H : Header) (e : LoadEnv) (S : State)
    (hinv : late_inv S) (h1 : 1 ≤ e.cur_seconds) (h2 : e.cur_seconds ≤ e.start_seconds)
    (h3 : e.start_seconds < 2 ^ 64) :
    late_inv (load_rules_late B H e S).2 := by
  obtain ⟨hlock, hprog, hlast⟩ := hinv
  obtain ⟨f1, f2, f3, f4⟩ := late_state_fields B H e S hlock hprog
  unfold late_inv
  rw [f1, f2, f3]
  have hbs : budget_start e S = if S.start_time = 0 then e.start_seconds else S.start_time := by
    unfold budget_start
    split_ifs
    · omega
    · rfl
  refine ⟨rfl, rfl, ?_⟩
  rcases f4 with h | ⟨h, hb⟩
  · rw [h, hbs]
    intro hne
    obtain ⟨a, b⟩ := hlast hne
    rw [if_neg a]
    exact ⟨a, b⟩
  · rw [h]
    unfold budget_exceeded at hb
    intro _
    refine ⟨?_, by omega⟩
    rw [hbs]
    split_ifs <;> omega

theorem late_gives_up_of_inv (B : Build) (H : Header) (e : LoadEnv) (S : State)
    (hinv : late_inv S) (h1 : 1 ≤ e.cur_seconds) (h3 : e.cur_seconds < 2 ^ 64)
    (hb : budget_exceeded e S) :
    load_rules_late B H e S
      = (-1, { S with start_time := budget_start e S, in_progress := 0 }) := by
  obtain ⟨hlock, hprog, hlast⟩ := hinv
  apply late_gives_up B H e S hlock hprog _ hb
  intro hcur
  unfold budget_exceeded budget_start at hb
  by_cases hz : S.last_time = 0
  · omega
  · obtain ⟨a, b⟩ := hlast hz
    rw [if_neg a, hcur] at hb
    omega

theorem run_late_append (B : Build) (H : Header) :
    ∀ (a b : List LoadEnv) (S : State),
      run_late B H (a ++ b) S
        = ((run_late B H a S).1 ++ (run_late B H b (run_late B H a S).2).1,
          (run_late B H b (run_late B H a S).2).2) := by
  intro a
  induction a with
  | nil => intro b S; rfl
  | cons e rest ih =>
    intro b S
    show run_late B H (e :: (rest ++ b)) S = _
    simp only [run_late, ih, List.cons_append]

theorem run_late_inv (B : Build) (H : Header) (rest : List LoadEnv) :
    ∀ (envs : List LoadEnv) (S : State) (t : Nat), late_inv S → 1 ≤ t →
      clock_from t (envs ++ rest) →
      ∃ t1, late_inv (run_late B H envs S).2 ∧ 1 ≤ t1 ∧ clock_from t1 rest := by
  intro envs
  induction envs with
  | nil => intro S t hinv ht hc; exact ⟨t, hinv, ht, hc⟩
  | cons e more ih =>
    intro S t hinv ht hc
    obtain ⟨h1, h2, h3, h4⟩ := hc
    exact ih _ _ (late_inv_step B H e S hinv (by omega) h2 h3) (by omega) h4

theorem open_fails_from_succ :
    ∀ (k t : Nat), open_fails_from t (k + 1) = open_fails_from t k ++ [open_fails_at (t + k)] := by
  intro k
  induction k with
  | zero => intro t; rfl
  | succ n ih =>
    intro t
    rw [open_fails_from, ih (t + 1)]
    simp only [open_fails_from, List.cons_append]
    rw [show t + 1 + n = t + (n + 1) by omega]

theorem run_open_fails (B : Build) (H : Header) :
    ∀ (k t : Nat) (S : State), S.load_lock = false → S.in_progress = 0 → S.start_time ≠ 0 →
      S.start_time ≤ t → S.last_time < t → t + k ≤ S.start_time + 31 → t + k < 2 ^ 64 →
      (run_late B H (open_fails_from t k) S).1 = List.replicate k 0
        ∧ (run_late B H (open_fails_from t k) S).2.load_lock = false
        ∧ (run_late B H (open_fails_from t k) S).2.in_progress = 0
        ∧ (run_late B H (open_fails_from t k) S).2.start_time = S.start_time
        ∧ (run_late B H (open_fails_from t k) S).2.last_time < t + k
        ∧ (run_late B H (open_fails_from t k) S).2.defex_packed_rules = S.defex_packed_rules
        ∧ (run_late B H (open_fails_from t k) S).2.log
          = S.log ++ List.replicate k (Event.fopen DEFEX_RULES_FILE) := by
  intro k
  induction k with
  | zero =>
    intro t S hlock hprog _ _ hlast _ _
    refine ⟨rfl, hlock, hprog, rfl, ?_, rfl, ?_⟩
    · show S.last_time < t + 0
      omega
    · show S.log = S.log ++ List.replicate 0 (Event.fopen DEFEX_RULES_FILE)
      simp
  | succ n ih =>
    intro t S hlock hprog hst hle hlast hk hbound
    have hcur : (open_fails_at t).cur_seconds % 2 ^ 64 ≠ S.last_time := by
      show t % 2 ^ 64 ≠ S.last_time
      omega
    have hb : ¬ budget_exceeded (open_fails_at t) S := by
      unfold budget_exceeded budget_start
      rw [if_neg hst]
      show ¬ (t % 2 ^ 64 + 2 ^ 64 - S.start_time) % 2 ^ 64 > 30
      omega
    have hstep := late_open_fails B H (open_fails_at t) S hlock hprog hcur hb rfl
    have hbs : budget_start (open_fails_at t) S = S.start_time := by
      unfold budget_start
      rw [if_neg hst]
    simp only [open_fails_from, run_late, hstep, hbs]
    have hmod : (open_fails_at t).cur_seconds % 2 ^ 64 = t := by
      show t % 2 ^ 64 = t
      omega
    rw [hmod]
    obtain ⟨r1, r2, r3, r4, r5, r6, r7⟩ := ih (t + 1)
      { S with
        start_time := S.start_time, last_time := t, in_progress := 0
        log := S.log ++ [Event.fopen DEFEX_RULES_FILE] }
      hlock rfl hst (by show S.start_time ≤ t + 1; omega) (by show t < t + 1; omega)
      (by show t + 1 + n ≤ S.start_time + 31; omega) (by omega)
    refine ⟨?_, r2, r3, r4, ?_, r6, ?_⟩
    · rw [r1]; rfl
    · rw [show t + (n + 1) = t + 1 + n by omega]; exact r5
    · rw [r7]
      simp [List.replicate_succ]

theorem run_gave_up (B : Build) (H : Header) :
    ∀ (later : List LoadEnv) (t : Nat) (S : State), S.load_lock = false →
      S.in_progress = 0 → S.start_time ≠ 0 → S.start_time + 30 < t → S.last_time < t →
      clock_from t later →
      run_late B H later S = (List.replicate later.length (-1), S) := by
  intro later
  induction later with
  | nil => intro t S _ _ _ _ _ _; rfl
  | cons e rest ih =>
    intro t S hlock hprog hst hover hlast hc
    obtain ⟨h1, h2, h3, h4⟩ := hc
    have hbs : budget_start e S = S.start_time := by
      unfold budget_start
      rw [if_neg hst]
    have hcur : e.cur_seconds % 2 ^ 64 ≠ S.last_time := by omega
    have hb : budget_exceeded e S := by
      unfold budget_exceeded
      rw [hbs]
      omega
    have hstep := late_gives_up B H e S hlock hprog hcur hb
    have hsame : ({ S with start_time := budget_start e S, in_progress := 0 } : State) = S := by
      rw [hbs]
      cases S
      simp only [State.mk.injEq, true_and, and_true] at hprog ⊢
      simp_all
    rw [hsame] at hstep
    simp only [run_late, hstep]
    rw [ih e.start_seconds S hlock hprog hst (by omega) (by omega) h4]
    simp [List.replicate_succ]

theorem run_gave_up_inv (B : Build) (H : Header) :
    ∀ (later : List LoadEnv) (t : Nat) (S : State), late_inv S → S.start_time ≠ 0 →
      S.start_time + 30 < t → clock_from t later →
      run_late B H later S = (List.replicate later.length (-1), S) := by
  intro later
  induction later with
  | nil => intro t S _ _ _ _; rfl
  | cons e rest ih =>
    intro t S hinv hst hover hc
    obtain ⟨h1, h2, h3, h4⟩ := hc
    have hbs : budget_start e S = S.start_time := by
      unfold budget_start
      rw [if_neg hst]
    have hb : budget_exceeded e S := by
      unfold budget_exceeded
      rw [hbs]
      omega
    have hstep := late_gives_up_of_inv B H e S hinv (by omega) (by omega) hb
    obtain ⟨hlock, hprog, hlast⟩ := hinv
    have hsame : ({ S with start_time := budget_start e S, in_progress := 0 } : State) = S := by
      rw [hbs]
      cases S
      simp only [State.mk.injEq, true_and, and_true] at hprog ⊢
      simp_all
    rw [hsame] at hstep
    simp only [run_late, hstep]
    rw [ih e.start_seconds S ⟨hlock, hprog, hlast⟩ hst (by omega) h4]
    simp [List.replicate_succ]

/-- C10, as stated, fails when the clock reads `0` at the first call, `0` being the value
by which the code recognises that `start_time` is not yet set: in a run of calls at seconds
`0, 1, ..., 31`, every open failing, all 32 calls return `0` - the call at second 31
included, which is the 31st to open the rules file (the first 31 calls opened it 30
times). -/
theorem c10_clock_zero_run :
    (run_late sample_build_late sample_header (open_fails_from 0 32)
        (State.init sample_build_late sample_header)).1 = List.replicate 32 0
      ∧ opens (run_late sample_build_late sample_header (open_fails_from 0 31)
          (State.init sample_build_late sample_header)).2.log = 30
      ∧ opens (run_late sample_build_late sample_header (open_fails_from 0 32)
          (State.init sample_build_late sample_header)).2.log = 31 := by
  refine ⟨?_, ?_, ?_⟩ <;> decide

/-- C10, amended: take sequential calls of `load_rules_late`, starting before any call was
made, under a clock that never runs backwards and never reads `0`.
Once a call is made more than 30 seconds after the start of the first attempt
(`start_time + 30 < cur_time`), that call and every later call returns `-1`, and the state is
left as it is: no open of the rules file is recorded and the rule array is not written. In
particular, in a run of calls at seconds `t0, ..., t0 + 31` with `t0 >= 1`, every open
failing, the calls up to `t0 + 30` return `0` and the call at `t0 + 31` and all later calls
return `-1`; the rules file is opened 31 times in all and the rule array is never written. -/
theorem c10_retry_budget (B : Build) (H : Header) (S0 : State)
    (h0 : S0.start_time = 0 ∧ S0.last_time = 0 ∧ S0.in_progress = 0 ∧ S0.load_lock = false) :
    (∀ (envs : List LoadEnv) (e : LoadEnv) (later : List LoadEnv),
        clock_ok (envs ++ e :: later) →
        budget_start e (run_late B H envs S0).2 + 30 < e.cur_seconds →
        run_late B H (e :: later) (run_late B H envs S0).2
          = (List.replicate (later.length + 1) (-1), (run_late B H envs S0).2))
      ∧ ∀ (t0 : Nat) (later : List LoadEnv), 1 ≤ t0 → t0 + 31 < 2 ^ 64 →
        clock_from (t0 + 31) later →
        (run_late B H (open_fails_from t0 32 ++ later) S0).1
            = List.replicate 31 0 ++ List.replicate (later.length + 1) (-1)
          ∧ opens (run_late B H (open_fails_from t0 32 ++ later) S0).2.log
            = opens S0.log + 31
          ∧ (run_late B H (open_fails_from t0 32 ++ later) S0).2.defex_packed_rules
            = S0.defex_packed_rules := by
  obtain ⟨hs0, hl0, hp0, hk0⟩ := h0
  have hinv0 : late_inv S0 := ⟨hk0, hp0, fun h => absurd hl0 h⟩
  constructor
  · intro envs e later hclock hover
    obtain ⟨t1, hinv, ht1, hc⟩ :=
      run_late_inv B H (e :: later) envs S0 1 hinv0 (le_refl 1) hclock
    obtain ⟨h1, h2, h3, h4⟩ := hc
    generalize (run_late B H envs S0).2 = S at hinv hover ⊢
    have hst : S.start_time ≠ 0 := by
      intro hz
      unfold budget_start at hover
      rw [if_pos hz] at hover
      omega
    have hbs : budget_start e S = S.start_time := by
      unfold budget_start
      rw [if_neg hst]
    rw [hbs] at hover
    exact run_gave_up_inv B H (e :: later) e.cur_seconds S hinv hst hover
      ⟨le_refl _, h2, h3, h4⟩
  · intro t0 later ht0 hbound hlater
    -- the first call records `start_time = t0`
    have hcur : (open_fails_at t0).cur_seconds % 2 ^ 64 ≠ S0.last_time := by
      show t0 % 2 ^ 64 ≠ S0.last_time
      omega
    have hbs : budget_start (open_fails_at t0) S0 = t0 := by
      unfold budget_start
      rw [if_pos hs0]
      show t0 % 2 ^ 64 = t0
      omega
    have hb : ¬ budget_exceeded (open_fails_at t0) S0 := by
      unfold budget_exceeded
      rw [hbs]
      show ¬ (t0 % 2 ^ 64 + 2 ^ 64 - t0) % 2 ^ 64 > 30
      omega
    have hfirst := late_open_fails B H (open_fails_at t0) S0 hk0 hp0 hcur hb rfl
    have hmod : (open_fails_at t0).cur_seconds % 2 ^ 64 = t0 := by
      show t0 % 2 ^ 64 = t0
      omega
    rw [hbs, hmod] at hfirst
    -- the next 30 calls fail to open, within the budget
    obtain ⟨r1, r2, r3, r4, r5, r6, r7⟩ := run_open_fails B H 30 (t0 + 1)
      { S0 with
        start_time := t0, last_time := t0, in_progress := 0
        log := S0.log ++ [Event.fopen DEFEX_RULES_FILE] }
      hk0 rfl (by show t0 ≠ 0; omega) (by show t0 ≤ t0 + 1; omega)
      (by show t0 < t0 + 1; omega) (by show t0 + 1 + 30 ≤ t0 + 31; omega) (by omega)
    -- the call at `t0 + 31` and the later ones give up
    have hgave := run_gave_up B H (open_fails_at (t0 + 31) :: later) (t0 + 31)
      (run_late B H (open_fails_from (t0 + 1) 30)
        { S0 with
          start_time := t0, last_time := t0, in_progress := 0
          log := S0.log ++ [Event.fopen DEFEX_RULES_FILE] }).2
      r2 r3 (by rw [r4]; show t0 ≠ 0; omega) (by rw [r4]; show t0 + 30 < t0 + 31; omega)
      (by omega)
      ⟨le_refl _, le_refl _, hbound, hlater⟩
    have hsplit : open_fails_from t0 32 ++ later
        = open_fails_at t0 :: (open_fails_from (t0 + 1) 30
          ++ open_fails_at (t0 + 31) :: later) := by
      rw [open_fails_from_succ 31 t0]
      show (open_fails_at t0 :: open_fails_from (t0 + 1) 30 ++ [open_fails_at (t0 + 31)])
        ++ later = _
      simp
    rw [hsplit]
    generalize open_fails_from (t0 + 1) 30 = mid at r1 r2 r3 r4 r5 r6 r7 hgave
    have hcons : ∀ (e : LoadEnv) (l : List LoadEnv) (S : State),
        run_late B H (e :: l) S
          = ((load_rules_late B H e S).1 :: (run_late B H l (load_rules_late B H e S).2).1,
            (run_late B H l (load_rules_late B H e S).2).2) := fun _ _ _ => rfl
    rw [hcons, hfirst, run_late_append, hgave]
    simp only [r1, r6, r7]
    refine ⟨?_, ?_, trivial⟩
    · simp [List.replicate_succ]
    · simp only [opens, List.count_append, List.count_replicate_self, List.count_singleton_self]

set_option maxRecDepth 100000 in
/-- C10, amended, at calls at seconds `1, ..., 32` that cannot open the file, followed by
calls at seconds 40 and 41 at which the file is there: the call at second 32 and the two
calls after it return `-1` and the file is not opened again. -/
theorem c10_retry_budget_witness :
    run_late sample_build_late sample_header
        [sample_load_at 40 store_ab reject, sample_load_at 41 store_ab reject]
        (run_late sample_build_late sample_header (open_fails_from 1 32)
          (State.init sample_build_late sample_header)).2
        = (List.replicate 2 (-1),
          (run_late sample_build_late sample_header (open_fails_from 1 32)
            (State.init sample_build_late sample_header)).2)
      ∧ (run_late sample_build_late sample_header
          (open_fails_from 1 32 ++ [sample_load_at 40 store_ab reject])
          (State.init sample_build_late sample_header)).1
          = List.replicate 31 0 ++ List.replicate 2 (-1)
      ∧ opens (run_late sample_build_late sample_header
          (open_fails_from 1 32 ++ [sample_load_at 40 store_ab reject])
          (State.init sample_build_late sample_header)).2.log = 31 :=
  have h := c10_retry_budget sample_build_late sample_header
    (State.init sample_build_late sample_header) ⟨rfl, rfl, rfl, rfl⟩
  have h2 := h.2 1 [sample_load_at 40 store_ab reject] (by decide) (by decide)
    (by decide)
  ⟨h.1 (open_fails_from 1 32) (sample_load_at 40 store_ab reject)
      [sample_load_at 41 store_ab reject]
      (by unfold clock_ok; decide)
      (by unfold budget_start; decide),
    h2.1, h2.2.1⟩


/-! ## C11: entering `load_rules_late` while an attempt is running -/

/-- C11: when `load_rules_late` is entered while the lock is held or the `in_progress` flag
is set, it returns `0` and the whole state is as before: the rule array, `start_time`,
`last_time`, the flag, and the record of calls (no open, no read). -/
theorem c11_reentry_is_noop (B : Build) (H : Header) (e : LoadEnv) (S : State)
    (hbusy : S.load_lock = true ∨ S.in_progress ≠ 0) :
    load_rules_late B H e S = (0, S) := by
  rw [load_rules_late_eq]
  by_cases hl : S.load_lock = true
  · simp only [hl, if_true]
  · rcases hbusy with h | h
    · exact absurd h hl
    · simp only [hl, Bool.false_eq_true, if_false, h, ne_eq, not_false_eq_true, if_true]

/-- C11 at a state whose flag is set, for a call at which the rules file could be read. -/
theorem c11_reentry_is_noop_witness :
    load_rules_late sample_build_late sample_header (sample_load_at 7 store_ab reject)
        { State.init sample_build_late sample_header with in_progress := 1 }
      = (0, { State.init sample_build_late sample_header with in_progress := 1 }) :=
  c11_reentry_is_noop sample_build_late sample_header (sample_load_at 7 store_ab reject)
    { State.init sample_build_late sample_header with in_progress := 1 }
    (Or.inr (by decide))

/-! ## C12: paths that do not start with `/` -/

/-- C12: for a null path, an empty path and a path whose first byte is not `/`,
`lookup_tree` returns `0` and the state is as before, in every build, for every rule array
(loaded or not), attribute and file handle, with no fuel and no loader run at hand: the
store is not consulted, no late load is started and no integrity check is run. -/
theorem c12_leading_slash_required (B : Build) (H : Header) (X : Kernel) (fuel : Nat)
    (envs : List LoadEnv) (attr : Int) (f : Option file) (S : State) :
    lookup_tree B H X fuel envs none attr f S = some (0, S)
      ∧ lookup_tree B H X fuel envs (some []) attr f S = some (0, S)
      ∧ ∀ (c : Nat) (rest : List Nat), c % 256 ≠ 47 →
        lookup_tree B H X fuel envs (some (c :: rest)) attr f S = some (0, S) := by
  refine ⟨rfl, rfl, fun c rest hc => ?_⟩
  unfold lookup_tree
  have h : byte_at (c :: rest) 0 ≠ 47 := hc
  simp only [h, ne_eq, not_false_eq_true, if_true]

/-- C12 at the path `a/b` in the kernel-only build with no rules loaded and a loader run at
hand: the verdict is `0` and nothing is opened. -/
theorem c12_leading_slash_required_witness :
    lookup_tree sample_build_late sample_header sample_kernel 4
        [sample_load_at 7 store_ab reject] (some (cstr "a/b")) 8 (some (sample_file [1, 2, 3]))
        (State.init sample_build_late sample_header)
      = some (0, State.init sample_build_late sample_header) :=
  (c12_leading_slash_required sample_build_late sample_header sample_kernel 4
    [sample_load_at 7 store_ab reject] 8 (some (sample_file [1, 2, 3]))
    (State.init sample_build_late sample_header)).2.2 97 (cstr "/b") (by decide)


/-! ## C17 and C18: cooldown and release of the progress flag -/

theorem opens_append_fopen (l more : List Event)
    (hm : ∀ x ∈ more, x ≠ Event.fopen DEFEX_RULES_FILE) :
    opens (l ++ [Event.fopen DEFEX_RULES_FILE] ++ more) = opens l + 1 := by
  simp only [opens, List.count_append, List.count_singleton_self]
  rw [List.count_eq_zero_of_not_mem (fun h => hm _ h rfl)]

theorem late_open_or_not (B : Build) (H : Header) (e : LoadEnv) (S : State) :
    (opens (load_rules_late B H e S).2.log = opens S.log
        ∧ (load_rules_late B H e S).2.last_time = S.last_time)
      ∨ (opens (load_rules_late B H e S).2.log = opens S.log + 1
        ∧ (load_rules_late B H e S).2.last_time = e.cur_seconds % 2 ^ 64
        ∧ e.cur_seconds % 2 ^ 64 ≠ S.last_time
        ∧ S.load_lock = false ∧ S.in_progress = 0 ∧ ¬ budget_exceeded e S) := by
  simp only [load_rules_late_eq, budget_exceeded, budget_start]
  generalize (if S.start_time = 0 then e.start_seconds % 2 ^ 64 else S.start_time) = st
  generalize (if to_size_t e.fread_ret > DEFEX_RULES_ARRAY_SIZE B H
    then (DEFEX_RULES_ARRAY_SIZE B H : Int) else e.fread_ret) = rs
  have h0 := opens_append_fopen S.log [] (by simp)
  have h1 := opens_append_fopen S.log [Event.fread 0 (to_int e.i_size).toNat] (by simp)
  have h2 := opens_append_fopen S.log
    ([Event.fread 0 (to_int e.i_size).toNat] ++ [Event.memcpy_rules rs.toNat]) (by simp)
  simp only [List.append_nil, ← List.append_assoc] at h0 h1 h2
  by_cases hl : S.load_lock = true
  · rw [if_pos hl]; exact Or.inl ⟨rfl, rfl⟩
  rw [if_neg hl]
  by_cases hp : S.in_progress ≠ 0
  · rw [if_pos hp]; exact Or.inl ⟨rfl, rfl⟩
  rw [if_neg hp]
  by_cases hc : e.cur_seconds % 2 ^ 64 = S.last_time
  · rw [if_pos hc]; exact Or.inl ⟨rfl, rfl⟩
  rw [if_neg hc]
  by_cases hb : (e.cur_seconds % 2 ^ 64 + 2 ^ 64 - st) % 2 ^ 64 > 30
  · rw [if_pos hb]; exact Or.inl ⟨rfl, rfl⟩
  rw [if_neg hb]
  have hl2 : S.load_lock = false := by simpa using hl
  have hp2 : S.in_progress = 0 := by simpa using hp
  right
  split_ifs
  all_goals first
    | exact ⟨h0, rfl, hc, hl2, hp2, hb⟩
    | exact ⟨h1, rfl, hc, hl2, hp2, hb⟩
    | exact ⟨h2, rfl, hc, hl2, hp2, hb⟩

theorem late_skips_same_second (B : Build) (H : Header) (e : LoadEnv) (S : State)
    (hsame : e.cur_seconds % 2 ^ 64 = S.last_time) :
    (load_rules_late B H e S).1 = 0
      ∧ (load_rules_late B H e S).2.log = S.log
      ∧ (load_rules_late B H e S).2.defex_packed_rules = S.defex_packed_rules
      ∧ (load_rules_late B H e S).2.last_time = S.last_time := by
  simp only [load_rules_late_eq]
  by_cases hl : S.load_lock = true
  · rw [if_pos hl]; exact ⟨rfl, rfl, rfl, rfl⟩
  rw [if_neg hl]
  by_cases hp : S.in_progress ≠ 0
  · rw [if_pos hp]; exact ⟨rfl, rfl, rfl, rfl⟩
  rw [if_neg hp, if_pos hsame]
  exact ⟨rfl, rfl, rfl, rfl⟩

theorem open_seconds_increase (B : Build) (H : Header) :
    ∀ (envs : List LoadEnv) (S : State) (t : Nat), S.last_time ≤ t → clock_from t envs →
      (open_seconds B H envs S).Pairwise (fun x y => x + 1 ≤ y)
        ∧ ∀ x ∈ open_seconds B H envs S, S.last_time < x := by
  intro envs
  induction envs with
  | nil => intro S t _ _; simp [open_seconds]
  | cons e rest ih =>
    intro S t hlast hclock
    obtain ⟨h1, h2, h3, h4⟩ := hclock
    have hmod : e.cur_seconds % 2 ^ 64 = e.cur_seconds := by omega
    rcases late_open_or_not B H e S with ⟨ho, hl⟩ | ⟨ho, hl, hne, -⟩
    · have hih := ih (load_rules_late B H e S).2 e.start_seconds (by rw [hl]; omega) h4
      rw [hl] at hih
      simp only [open_seconds, ho]
      rw [if_neg (by omega)]
      exact hih
    · have hih := ih (load_rules_late B H e S).2 e.start_seconds (by rw [hl]; omega) h4
      rw [hl] at hih
      simp only [open_seconds, ho, if_true]
      refine ⟨List.pairwise_cons.mpr ⟨fun x hx => hih.2 x hx, hih.1⟩, ?_⟩
      intro x hx
      rcases List.mem_cons.mp hx with h | h
      · omega
      · have := hih.2 x h
        omega

/-- C17: a call of `load_rules_late` with `cur_time == last_time` returns `0`, records no
open (nor any other call) and leaves the rule array and `last_time` as they are; and in a
run of sequential calls under a clock that never runs backwards, started when `last_time`
is not ahead of the clock, the seconds at which the rules file is opened are strictly
increasing, so any two opens are at least one second apart. -/
theorem c17_cooldown (B : Build) (H : Header) :
    (∀ (e : LoadEnv) (S : State), e.cur_seconds % 2 ^ 64 = S.last_time →
        (load_rules_late B H e S).1 = 0
          ∧ (load_rules_late B H e S).2.log = S.log
          ∧ (load_rules_late B H e S).2.defex_packed_rules = S.defex_packed_rules
          ∧ (load_rules_late B H e S).2.last_time = S.last_time)
      ∧ ∀ (envs : List LoadEnv) (S : State) (t : Nat), S.last_time ≤ t → clock_from t envs →
        (open_seconds B H envs S).Pairwise (fun x y => x + 1 ≤ y) := by
  refine ⟨fun e S h => late_skips_same_second B H e S h, fun envs S t hl hc => ?_⟩
  exact (open_seconds_increase B H envs S t hl hc).1

set_option maxRecDepth 100000 in
/-- C17 at four calls at seconds 3, 3, 4, 4, every open failing: the second call is skipped,
and the file is opened at seconds 3 and 4 only. -/
theorem c17_cooldown_witness :
    ((load_rules_late sample_build_late sample_header (open_fails_at 3)
          (load_rules_late sample_build_late sample_header (open_fails_at 3)
            (State.init sample_build_late sample_header)).2).1 = 0
        ∧ (load_rules_late sample_build_late sample_header (open_fails_at 3)
          (load_rules_late sample_build_late sample_header (open_fails_at 3)
            (State.init sample_build_late sample_header)).2).2.log
          = (load_rules_late sample_build_late sample_header (open_fails_at 3)
            (State.init sample_build_late sample_header)).2.log)
      ∧ open_seconds sample_build_late sample_header
          [open_fails_at 3, open_fails_at 3, open_fails_at 4, open_fails_at 4]
          (State.init sample_build_late sample_header) = [3, 4]
      ∧ (open_seconds sample_build_late sample_header
          [open_fails_at 3, open_fails_at 3, open_fails_at 4, open_fails_at 4]
          (State.init sample_build_late sample_header)).Pairwise (fun x y => x + 1 ≤ y) :=
  have h := c17_cooldown sample_build_late sample_header
  have h1 := h.1 (open_fails_at 3)
    (load_rules_late sample_build_late sample_header (open_fails_at 3)
      (State.init sample_build_late sample_header)).2 (by decide)
  ⟨⟨h1.1, h1.2.1⟩, by decide,
    h.2 [open_fails_at 3, open_fails_at 3, open_fails_at 4, open_fails_at 4]
      (State.init sample_build_late sample_header) 1 (by decide) (by decide)⟩

theorem late_attempt_opens (B : Build) (H : Header) (e : LoadEnv) (S : State)
    (hlock : S.load_lock = false) (hprog : S.in_progress = 0)
    (hcur : e.cur_seconds % 2 ^ 64 ≠ S.last_time) (hb : ¬ budget_exceeded e S) :
    opens (load_rules_late B H e S).2.log = opens S.log + 1 := by
  rcases late_open_or_not B H e S with ⟨-, hl⟩ | ⟨ho, -⟩
  · exfalso
    obtain ⟨-, -, -, f4⟩ := late_state_fields B H e S hlock hprog
    have hskip : (load_rules_late B H e S).2.last_time = e.cur_seconds % 2 ^ 64 := by
      unfold budget_exceeded budget_start at hb
      simp only [load_rules_late_eq, hlock, hprog, Bool.false_eq_true, if_false, ne_eq,
        not_true_eq_false]
      rw [if_neg hcur, if_neg hb]
      generalize (if to_size_t e.fread_ret > DEFEX_RULES_ARRAY_SIZE B H
        then (DEFEX_RULES_ARRAY_SIZE B H : Int) else e.fread_ret) = rs
      split_ifs <;> rfl
    rw [hskip] at hl
    exact hcur hl
  · exact ho

theorem late_attempt_flag (B : Build) (H : Header) (e : LoadEnv) (S : State) :
    (late_attempt B H e S).2.in_progress = S.in_progress
      ∧ (late_attempt B H e S).2.load_lock = S.load_lock := by
  simp only [late_attempt]
  generalize (if S.start_time = 0 then e.start_seconds % 2 ^ 64 else S.start_time) = st
  generalize (if to_size_t e.fread_ret > DEFEX_RULES_ARRAY_SIZE B H
    then (DEFEX_RULES_ARRAY_SIZE B H : Int) else e.fread_ret) = rs
  split_ifs <;> exact ⟨rfl, rfl⟩

theorem late_enter_free (S : State) (hlock : S.load_lock = false) (hprog : S.in_progress = 0) :
    late_enter S = some { S with in_progress := 1, load_lock := false } := by
  unfold late_enter
  simp only [hlock, Bool.false_eq_true, if_false, hprog, ne_eq, not_true_eq_false]

/-- C18: an execution of `load_rules_late` that is entered with the lock free and the flag
clear passes line 229, where it sets the flag to `1` and gives the lock back; the flag is
still `1` when the execution arrives at `do_exit`, whatever the clock, the file and the
allocation do - on every exit path; and the call returns with the flag `0` (line 272) and the
lock free. A later call at another second within the budget is therefore not a no-op: it
opens the rules file. -/
theorem c18_progress_flag_released (B : Build) (H : Header) (e : LoadEnv) (S : State)
    (hlock : S.load_lock = false) (hprog : S.in_progress = 0) :
    (∃ S1, late_enter S = some S1 ∧ S1.in_progress = 1 ∧ S1.load_lock = false
        ∧ (late_attempt B H e S1).2.in_progress = 1
        ∧ load_rules_late B H e S
          = ((late_attempt B H e S1).1, late_exit (late_attempt B H e S1).2))
      ∧ (load_rules_late B H e S).2.in_progress = 0
      ∧ (load_rules_late B H e S).2.load_lock = false
      ∧ ∀ e2 : LoadEnv, e2.cur_seconds % 2 ^ 64 ≠ (load_rules_late B H e S).2.last_time →
        ¬ budget_exceeded e2 (load_rules_late B H e S).2 →
        opens (load_rules_late B H e2 (load_rules_late B H e S).2).2.log
          = opens (load_rules_late B H e S).2.log + 1 := by
  have henter := late_enter_free S hlock hprog
  have hrun : load_rules_late B H e S
      = ((late_attempt B H e { S with in_progress := 1, load_lock := false }).1,
        late_exit (late_attempt B H e { S with in_progress := 1, load_lock := false }).2) := by
    unfold load_rules_late
    rw [henter]
  obtain ⟨a1, a2⟩ := late_attempt_flag B H e { S with in_progress := 1, load_lock := false }
  have f1 : (load_rules_late B H e S).2.in_progress = 0 := by
    rw [hrun]
    rfl
  have f2 : (load_rules_late B H e S).2.load_lock = false := by
    rw [hrun]
    exact a2
  exact ⟨⟨_, henter, rfl, rfl, a1, hrun⟩, f1, f2,
    fun e2 hc hb => late_attempt_opens B H e2 _ f2 f1 hc hb⟩

set_option maxRecDepth 100000 in
/-- C18 at a successful load at second 7, followed by a call at second 8, and at a call that
the cooldown skips: in both the flag is `1` at `do_exit` and `0` at return. -/
theorem c18_progress_flag_released_witness :
    (load_rules_late sample_build_late sample_header (sample_load_at 7 store_ab reject)
        (State.init sample_build_late sample_header)).1 = 1
      ∧ (∃ S1, late_enter (State.init sample_build_late sample_header) = some S1
          ∧ S1.in_progress = 1 ∧ S1.load_lock = false
          ∧ (late_attempt sample_build_late sample_header (sample_load_at 7 store_ab reject)
              S1).2.in_progress = 1
          ∧ load_rules_late sample_build_late sample_header (sample_load_at 7 store_ab reject)
              (State.init sample_build_late sample_header)
            = ((late_attempt sample_build_late sample_header
                (sample_load_at 7 store_ab reject) S1).1,
              late_exit (late_attempt sample_build_late sample_header
                (sample_load_at 7 store_ab reject) S1).2))
      ∧ (load_rules_late sample_build_late sample_header (sample_load_at 7 store_ab reject)
        (State.init sample_build_late sample_header)).2.in_progress = 0
      ∧ (load_rules_late sample_build_late sample_header (sample_load_at 7 store_ab reject)
        (State.init sample_build_late sample_header)).2.load_lock = false
      ∧ opens (load_rules_late sample_build_late sample_header (open_fails_at 8)
          (load_rules_late sample_build_late sample_header (sample_load_at 7 store_ab reject)
            (State.init sample_build_late sample_header)).2).2.log
        = opens (load_rules_late sample_build_late sample_header
            (sample_load_at 7 store_ab reject)
            (State.init sample_build_late sample_header)).2.log + 1
      ∧ (load_rules_late sample_build_late sample_header (open_fails_at 0)
        (State.init sample_build_late sample_header)).2.in_progress = 0 :=
  have h := c18_progress_flag_released sample_build_late sample_header
    (sample_load_at 7 store_ab reject) (State.init sample_build_late sample_header) rfl rfl
  ⟨by decide, h.1, h.2.1, h.2.2.1,
    h.2.2.2 (open_fails_at 8) (by decide) (by unfold budget_exceeded budget_start; decide),
    (c18_progress_flag_released sample_build_late sample_header (open_fails_at 0)
      (State.init sample_build_late sample_header) rfl rfl).2.1⟩

/-! ## C20: the number of bytes copied into the rule array -/

theorem clamp_bounded (cap : Nat) (r : Int) (hpos : ¬ r ≤ 0) (hint : r < 2 ^ 31) :
    (if to_size_t r > cap then (cap : Int) else r).toNat ≤ cap := by
  have hts : to_size_t r = r.toNat := by
    unfold to_size_t
    rw [Int.emod_eq_of_lt (by omega) (by omega)]
  split_ifs with h
  · simp
  · rw [hts] at h
    omega

theorem late_log_cases (B : Build) (H : Header) (e : LoadEnv) (S : State) :
    (load_rules_late B H e S).2.log = S.log
      ∨ (load_rules_late B H e S).2.log = S.log ++ [Event.fopen DEFEX_RULES_FILE]
      ∨ (load_rules_late B H e S).2.log
        = S.log ++ [Event.fopen DEFEX_RULES_FILE, Event.fread 0 (to_int e.i_size).toNat]
      ∨ ∃ k, (e.fread_ret < 2 ^ 31 → k ≤ DEFEX_RULES_ARRAY_SIZE B H)
        ∧ (load_rules_late B H e S).2.log
          = S.log ++ [Event.fopen DEFEX_RULES_FILE, Event.fread 0 (to_int e.i_size).toNat,
            Event.memcpy_rules k] := by
  simp only [load_rules_late_eq]
  generalize (if S.start_time = 0 then e.start_seconds % 2 ^ 64 else S.start_time) = st
  by_cases hl : S.load_lock = true
  · rw [if_pos hl]; exact Or.inl rfl
  rw [if_neg hl]
  by_cases hp : S.in_progress ≠ 0
  · rw [if_pos hp]; exact Or.inl rfl
  rw [if_neg hp]
  by_cases hc : e.cur_seconds % 2 ^ 64 = S.last_time
  · rw [if_pos hc]; exact Or.inl rfl
  rw [if_neg hc]
  by_cases hb : (e.cur_seconds % 2 ^ 64 + 2 ^ 64 - st) % 2 ^ 64 > 30
  · rw [if_pos hb]; exact Or.inl rfl
  rw [if_neg hb]
  by_cases ho : (!e.fopen_ok) = true
  · rw [if_pos ho]; exact Or.inr (Or.inl rfl)
  rw [if_neg ho]
  by_cases hs : to_int e.i_size ≤ 0
      ∨ to_size_t (to_int e.i_size) > DEFEX_RULES_ARRAY_SIZE B H <<< 1
  · rw [if_pos hs]; exact Or.inr (Or.inl rfl)
  rw [if_neg hs]
  by_cases hv : (!e.vmalloc_ok) = true
  · rw [if_pos hv]; exact Or.inr (Or.inl rfl)
  rw [if_neg hv]
  by_cases hr : e.fread_ret ≤ 0
  · rw [if_pos hr]; exact Or.inr (Or.inr (Or.inl (by simp)))
  rw [if_neg hr]
  exact Or.inr (Or.inr (Or.inr ⟨_, fun hint => clamp_bounded _ _ hr hint, by simp⟩))

theorem signed_copy_bounded (B : Build) (H : Header) (e : LoadEnv) (S : State) (k : Nat)
    (hsign : B.sign_enable = true)
    (hint : (e.defex_rules_signature_check e.data_buff e.fread_ret).2 < 2 ^ 31)
    (hk : Event.memcpy_rules k ∈ (do_load_rules B H e S).2.log) :
    Event.memcpy_rules k ∈ S.log ∨ k ≤ DEFEX_RULES_ARRAY_SIZE B H := by
  by_cases hfail : e.fopen_ok = false ∨ to_int e.i_size ≤ 0
      ∨ to_size_t (to_int e.i_size) > DEFEX_RULES_ARRAY_SIZE B H <<< 1
      ∨ e.vmalloc_ok = false ∨ e.fread_ret ≤ 0
      ∨ (B.sign_enable = true
        ∧ ((e.defex_rules_signature_check e.data_buff e.fread_ret).1 ≠ 0
          ∨ to_size_t (e.defex_rules_signature_check e.data_buff e.fread_ret).2
            > DEFEX_RULES_ARRAY_SIZE B H))
  · -- no copy at all on the failure paths
    have hmem : ∀ j, Event.memcpy_rules j ∈ (do_load_rules B H e S).2.log →
        Event.memcpy_rules j ∈ S.log := by
      simp only [do_load_rules]
      by_cases ho : e.fopen_ok = false
      · simp only [ho, Bool.not_false, if_true]
        intro j h
        simpa using h
      · have hot : e.fopen_ok = true := by simpa using ho
        simp only [hot, Bool.not_true, Bool.false_eq_true, if_false]
        obtain ⟨-, -, -, hlog⟩ := do_load_rules_read_fail B H e
          { S with
            defex_packed_rules := List.replicate (DEFEX_RULES_ARRAY_SIZE B H) 0
              ++ S.defex_packed_rules.drop (DEFEX_RULES_ARRAY_SIZE B H)
            log := S.log ++ [Event.memset_rules (DEFEX_RULES_ARRAY_SIZE B H),
              Event.fopen DEFEX_RULES_FILE] }
          (by
            rcases hfail with h | h
            · exact absurd h ho
            · exact h)
        intro j h
        have h2 : Event.memcpy_rules j ∈ S.log ++ [Event.memset_rules
            (DEFEX_RULES_ARRAY_SIZE B H), Event.fopen DEFEX_RULES_FILE] := by
          split_ifs at h
          · exact hlog j h
          · exact hlog j h
        simpa using h2
    exact Or.inl (hmem k hk)
  · -- the copy of the verified length
    simp only [not_or, not_and, Bool.not_eq_false, not_le, not_lt, ne_eq, not_not] at hfail
    obtain ⟨hopen, hsz, hsz2, halloc, hread, hsig⟩ := hfail
    obtain ⟨hres, hsize⟩ := hsig hsign
    generalize hr : e.defex_rules_signature_check e.data_buff e.fread_ret = r at hint hres hsize
    obtain ⟨r1, r2⟩ := r
    simp only [] at hint hres hsize
    subst hres
    have hbound : r2.toNat ≤ DEFEX_RULES_ARRAY_SIZE B H := by
      by_cases hneg : r2 ≤ 0
      · rw [Int.toNat_of_nonpos hneg]; exact Nat.zero_le _
      · have hts : to_size_t r2 = r2.toNat := by
          unfold to_size_t
          rw [Int.emod_eq_of_lt (by omega) (by omega)]
        rw [hts] at hsize
        exact hsize
    have h1 : ¬ (to_int e.i_size ≤ 0
        ∨ to_size_t (to_int e.i_size) > DEFEX_RULES_ARRAY_SIZE B H <<< 1) := by
      rintro (h | h) <;> omega
    have h2 : ¬ (to_size_t r2 > DEFEX_RULES_ARRAY_SIZE B H) := not_lt.mpr hsize
    simp only [do_load_rules, do_load_rules_read, hopen, halloc, hsign, hr, Bool.not_true,
      Bool.false_eq_true, if_false, if_true] at hk
    rw [if_neg h1, if_neg (not_le.mpr hread)] at hk
    simp only [h2, and_false, if_false, if_true, ne_eq, not_true_eq_false] at hk
    simp only [List.mem_append, List.mem_cons, List.mem_singleton, Event.memcpy_rules.injEq,
      List.not_mem_nil, or_false, false_or, reduceCtorEq] at hk
    rcases hk with hk | hk
    · exact Or.inl hk
    · right; rw [hk]; exact hbound

set_option maxRecDepth 100000 in
/-- C20: the copy is not bounded in `do_load_rules` without `DEFEX_SIGN_ENABLE`. The array
has 160 bytes, the rules file has 200 bytes and is read in full: `do_load_rules` returns `0`
after a `memcpy` of 200 bytes into the array, 40 bytes past its end. -/
theorem c20_unsigned_load_copies_past_array :
    DEFEX_RULES_ARRAY_SIZE sample_build_unsigned sample_header = 160
      ∧ (do_load_rules sample_build_unsigned sample_header
          (sample_load (List.replicate 200 1) reject) (state_of (List.replicate 160 0) 0)).1
        = 0
      ∧ (do_load_rules sample_build_unsigned sample_header
          (sample_load (List.replicate 200 1) reject) (state_of (List.replicate 160 0) 0)).2.log
        = [Event.memset_rules 160, Event.fopen DEFEX_RULES_FILE, Event.fread 0 200,
          Event.memcpy_rules 200]
      ∧ (do_load_rules sample_build_unsigned sample_header
          (sample_load (List.replicate 200 1) reject)
          (state_of (List.replicate 160 0) 0)).2.defex_packed_rules = List.replicate 200 1 := by
  refine ⟨?_, ?_, ?_, ?_⟩ <;> decide


/-! ## C19: the path exempt from integrity checks -/

theorem c_str_unfold (a : List Nat) :
    c_str a = if byte_at a 0 = 0 then [] else byte_at a 0 :: c_str a.tail := by
  cases a with
  | nil => rfl
  | cons x r =>
    unfold c_str byte_at
    by_cases hx : x % 256 = 0
    · simp [List.takeWhile, hx]
    · simp [List.takeWhile, hx]

theorem strncmp_eq_zero_iff :
    ∀ (n : Nat) (a b : List Nat), strncmp a b n = 0 ↔ (c_str a).take n = (c_str b).take n := by
  intro n
  induction n with
  | zero => intro a b; simp [strncmp]
  | succ k ih =>
    intro a b
    rw [strncmp, c_str_unfold a, c_str_unfold b]
    by_cases hab : byte_at a 0 = byte_at b 0
    · rw [if_pos hab]
      by_cases h0 : byte_at a 0 = 0
      · have hb0 : byte_at b 0 = 0 := by rw [← hab]; exact h0
        simp [h0, hb0]
      · have hb0 : ¬ byte_at b 0 = 0 := by rw [← hab]; exact h0
        rw [if_neg h0, if_neg h0, if_neg hb0, ih a.tail b.tail]
        simp [hab]
    · rw [if_neg hab]
      have hne : (byte_at a 0 : Int) - (byte_at b 0 : Int) ≠ 0 := by omega
      simp only [hne, false_iff]
      by_cases h0 : byte_at a 0 = 0
      · have hb0 : ¬ byte_at b 0 = 0 := fun h => hab (by rw [h0, h])
        simp [h0, hb0]
      · by_cases hb0 : byte_at b 0 = 0
        · simp [h0, hb0]
        · simp [h0, hb0, hab]

theorem integrity_default_iff (p : List Nat) :
    defex_integrity_default p = 0 ↔ c_str p = integrity_default := by
  unfold defex_integrity_default
  rw [strncmp_eq_zero_iff]
  have hlit : (c_str (cstr "/system/bin/install-recovery.sh")).take 32 = integrity_default := by
    decide
  rw [hlit]
  constructor
  · intro h
    have hlen : ((c_str p).take 32).length = 31 := by rw [← h]; decide
    have hle : (c_str p).length ≤ 32 := by
      rw [List.length_take] at hlen
      omega
    rw [List.take_of_length_le hle] at h
    exact h.symm
  · intro h
    rw [h]
    decide

theorem lookup_grant_exempt (B : Build) (H : Header) (X : Kernel) (fuel : Nat) (p : List Nat)
    (attr : Int) (f : Option file) (item : Nat) (sep : Bool) (after : Nat) (S : State)
    (hp : defex_integrity_default p = 0) :
    lookup_grant B H X fuel p attr f item sep after S
      = some (lookup_folder_rule H S.defex_packed_rules attr item sep after, S) := by
  unfold lookup_grant
  cases f with
  | none => split_ifs <;> rfl
  | some fl =>
    simp only [hp, ne_eq, not_true_eq_false, if_false]
    split_ifs <;> rfl

theorem lookup_walk_exempt (B : Build) (H : Header) (X : Kernel) (n : Nat) (p : List Nat)
    (attr : Int) (f : Option file) (S : State) (hp : defex_integrity_default p = 0)
    (fuel base : Nat) (ptr : List Nat) :
    lookup_walk B H X n p attr f fuel base ptr S
        = lookup_walk B H X n p attr none fuel base ptr S
      ∧ ∀ v S1, lookup_walk B H X n p attr f fuel base ptr S = some (v, S1) →
          (v = 0 ∨ v = 1) ∧ S1 = S := by
  rw [lookup_walk_eq_reach, lookup_walk_eq_reach]
  cases lookup_reach H S.defex_packed_rules S.is_recovery n attr fuel base ptr with
  | none => exact ⟨rfl, fun v S1 h => by cases h⟩
  | some r =>
    cases r with
    | none =>
      refine ⟨rfl, fun v S1 h => ?_⟩
      simp only [Option.some.injEq, Prod.mk.injEq] at h
      exact ⟨Or.inl h.1.symm, h.2.symm⟩
    | some r =>
      simp only [lookup_grant_exempt B H X n p attr _ r.1 r.2.1 r.2.2 S hp, true_and]
      intro v S1 h
      simp only [Option.some.injEq, Prod.mk.injEq] at h
      refine ⟨?_, h.2.symm⟩
      rw [← h.1]
      exact folder_rule_cases H _ attr r.1 r.2.1 r.2.2

theorem checks_late (B : Build) (H : Header) (e : LoadEnv) (S : State) :
    checks (load_rules_late B H e S).2.log = checks S.log := by
  rcases late_log_cases B H e S with h | h | h | ⟨k, _, h⟩ <;> rw [h] <;> simp [checks]

theorem try_to_load_exempt (B : Build) (H : Header) (X : Kernel) (fuel : Nat) (p : List Nat)
    (attr : Int) (f : Option file) (hp : defex_integrity_default p = 0) :
    ∀ (envs : List LoadEnv) (S : State),
      try_to_load B H X fuel p attr f envs S = try_to_load B H X fuel p attr none envs S
        ∧ ∀ v S1, try_to_load B H X fuel p attr f envs S = some (v, S1) →
            (v = 0 ∨ v = 1) ∧ checks S1.log = checks S.log := by
  intro envs
  induction envs with
  | nil =>
    intro S
    unfold try_to_load
    by_cases hd : data_size H S.defex_packed_rules 0 = 0
    · rw [if_pos hd, if_pos hd]
      refine ⟨rfl, fun v S1 h => ?_⟩
      by_cases hk : B.kernel_only = true
      · simp [hk] at h
      · simp only [hk, Bool.false_eq_true, if_false, Option.some.injEq, Prod.mk.injEq] at h
        exact ⟨Or.inl h.1.symm, by rw [← h.2]⟩
    · rw [if_neg hd, if_neg hd]
      obtain ⟨h1, h2⟩ := lookup_walk_exempt B H X fuel p attr f S hp fuel 0 (p.drop 1)
      refine ⟨h1, fun v S1 h => ?_⟩
      obtain ⟨hv, hS⟩ := h2 v S1 h
      exact ⟨hv, by rw [hS]⟩
  | cons e rest ih =>
    intro S
    unfold try_to_load
    by_cases hd : data_size H S.defex_packed_rules 0 = 0
    · rw [if_pos hd, if_pos hd]
      by_cases hk : B.kernel_only = true
      · simp only [hk, if_true]
        have hc := checks_late B H e S
        generalize load_rules_late B H e S = r at hc
        by_cases h1 : r.1 > 0
        · rw [if_pos h1, if_pos h1]
          obtain ⟨i1, i2⟩ := ih r.2
          refine ⟨i1, fun v S1 h => ?_⟩
          obtain ⟨hv, hS⟩ := i2 v S1 h
          exact ⟨hv, by rw [hS, hc]⟩
        · rw [if_neg h1, if_neg h1]
          refine ⟨rfl, fun v S1 h => ?_⟩
          split_ifs at h <;>
            simp only [Option.some.injEq, Prod.mk.injEq] at h <;>
            refine ⟨?_, by rw [← h.2, hc]⟩
          · exact Or.inr h.1.symm
          · exact Or.inl h.1.symm
          · exact Or.inl h.1.symm
      · rw [if_neg hk, if_neg hk]
        refine ⟨rfl, fun v S1 h => ?_⟩
        simp only [Option.some.injEq, Prod.mk.injEq] at h
        exact ⟨Or.inl h.1.symm, by rw [← h.2]⟩
    · rw [if_neg hd, if_neg hd]
      obtain ⟨h1, h2⟩ := lookup_walk_exempt B H X fuel p attr f S hp fuel 0 (p.drop 1)
      refine ⟨h1, fun v S1 h => ?_⟩
      obtain ⟨hv, hS⟩ := h2 v S1 h
      exact ⟨hv, by rw [hS]⟩

theorem c_str_append (a b : List Nat) (ha : ∀ x ∈ a, x % 256 ≠ 0) :
    c_str (a ++ b) = a.map (fun c => c % 256) ++ c_str b := by
  induction a with
  | nil => rfl
  | cons x r ih =>
    have hx : byte_at (x :: (r ++ b)) 0 = x % 256 := rfl
    have h0 := ha x (by simp)
    rw [List.cons_append, c_str_unfold, hx, if_neg h0, List.tail_cons,
      ih (fun y hy => ha y (by simp [hy]))]
    rfl

theorem c_str_length_le (a : List Nat) : (c_str a).length ≤ a.length := by
  unfold c_str
  rw [List.length_map]
  exact (List.takeWhile_sublist _).length_le

/-- C19: `defex_integrity_default(p)` returns `0` exactly when the C string `p` is
`/system/bin/install-recovery.sh`: a path that goes on after that text, or a proper prefix of
it, is not exempt. For that path `lookup_tree` gives with a file handle what it gives without
one, so `defex_check_integrity` is not called (the log has no new call of it, also through
the inline loads of `load_rules_late`), and whatever it returns is the verdict `0` or `1`,
hence not `DEFEX_INTEGRITY_FAIL` when that constant is neither. -/
theorem c19_integrity_exempt_path (B : Build) (H : Header) (X : Kernel) (fuel : Nat)
    (envs : List LoadEnv) (attr : Int) (f : Option file) (S : State) (p : List Nat) :
    (defex_integrity_default p = 0 ↔ c_str p = integrity_default)
      ∧ (∀ c more, c % 256 ≠ 0 →
          defex_integrity_default (integrity_default ++ c :: more) ≠ 0)
      ∧ (∀ j, j < 31 → defex_integrity_default (integrity_default.take j) ≠ 0)
      ∧ (c_str p = integrity_default →
          lookup_tree B H X fuel envs (some p) attr f S
              = lookup_tree B H X fuel envs (some p) attr none S
            ∧ ∀ v S1, lookup_tree B H X fuel envs (some p) attr f S = some (v, S1) →
                (v = 0 ∨ v = 1) ∧ checks S1.log = checks S.log
                  ∧ (H.DEFEX_INTEGRITY_FAIL ≠ 0 → H.DEFEX_INTEGRITY_FAIL ≠ 1 →
                      v ≠ H.DEFEX_INTEGRITY_FAIL)) := by
  refine ⟨integrity_default_iff p, ?_, ?_, ?_⟩
  · intro c more hc h
    rw [integrity_default_iff, c_str_append _ _ (by decide), c_str_unfold] at h
    have hb : byte_at (c :: more) 0 = c % 256 := rfl
    rw [hb, if_neg hc] at h
    have hl := congrArg List.length h
    simp only [List.length_append, List.length_map, List.length_cons] at hl
    omega
  · intro j hj h
    rw [integrity_default_iff] at h
    have hl := c_str_length_le (integrity_default.take j)
    rw [h, List.length_take] at hl
    have h31 : integrity_default.length = 31 := by decide
    omega
  · intro hp
    have hp0 := (integrity_default_iff p).mpr hp
    have h47 : byte_at p 0 = 47 := by
      have h := c_str_unfold p
      rw [hp] at h
      by_cases h0 : byte_at p 0 = 0
      · rw [if_pos h0] at h
        exact absurd h (by decide)
      · rw [if_neg h0] at h
        have hh := congrArg List.head? h
        have h47 : integrity_default.head? = some 47 := by decide
        rw [h47, List.head?_cons] at hh
        exact (Option.some.inj hh).symm
    unfold lookup_tree
    simp only [h47, ne_eq, not_true_eq_false, if_false]
    obtain ⟨h1, h2⟩ := try_to_load_exempt B H X fuel p attr f hp0 envs S
    refine ⟨h1, fun v S1 h => ?_⟩
    obtain ⟨hv, hc⟩ := h2 v S1 h
    refine ⟨hv, hc, fun n0 n1 => ?_⟩
    rcases hv with hv | hv
    · rw [hv]; exact fun e => n0 e.symm
    · rw [hv]; exact fun e => n1 e.symm

set_option maxRecDepth 100000 in
/-- C19 at the sample rules for `/system/bin/install-recovery.sh`, whose saved digest
`7, 7, ...` is not the digest of the file handed in: the lookup returns `1` and the log stays
empty; the paths `/system/bin/install-recovery.sh/x` and `/system/bin/install-recovery.s` are
not exempt. -/
theorem c19_integrity_exempt_path_witness :
    c_str integrity_default = integrity_default
      ∧ (lookup_tree sample_build sample_header sample_kernel 4 [] (some integrity_default) 32
          (some (sample_file [1, 2, 3])) (state_of store_recovery_script 0)).map
            (fun r => (r.1, r.2.log)) = some (1, [])
      ∧ (lookup_tree sample_build sample_header sample_kernel 4 [] (some integrity_default) 32
            (some (sample_file [1, 2, 3])) (state_of store_recovery_script 0)
          = lookup_tree sample_build sample_header sample_kernel 4 [] (some integrity_default)
            32 none (state_of store_recovery_script 0)
        ∧ ∀ v S1, lookup_tree sample_build sample_header sample_kernel 4 []
            (some integrity_default) 32 (some (sample_file [1, 2, 3]))
            (state_of store_recovery_script 0) = some (v, S1) →
              (v = 0 ∨ v = 1) ∧ checks S1.log = checks (state_of store_recovery_script 0).log
                ∧ (sample_header.DEFEX_INTEGRITY_FAIL ≠ 0 →
                    sample_header.DEFEX_INTEGRITY_FAIL ≠ 1 →
                      v ≠ sample_header.DEFEX_INTEGRITY_FAIL))
      ∧ defex_integrity_default (integrity_default ++ 47 :: [120]) ≠ 0
      ∧ defex_integrity_default (integrity_default.take 30) ≠ 0 :=
  ⟨by decide, by decide,
    (c19_integrity_exempt_path sample_build sample_header sample_kernel 4 [] 32
      (some (sample_file [1, 2, 3])) (state_of store_recovery_script 0)
      integrity_default).2.2.2 (by decide),
    (c19_integrity_exempt_path sample_build sample_header sample_kernel 4 [] 32
      (some (sample_file [1, 2, 3])) (state_of store_recovery_script 0)
      integrity_default).2.1 47 [120] (by decide),
    (c19_integrity_exempt_path sample_build sample_header sample_kernel 4 [] 32
      (some (sample_file [1, 2, 3])) (state_of store_recovery_script 0)
      integrity_default).2.2.1 30 (by decide)⟩


/-! ## C14: the folder rule for the immutable attributes -/

theorem lookup_reach_succ (H : Header) (mem : List Nat) (rec : Int) (n : Nat) (attr : Int)
    (fuel base : Nat) (ptr : List Nat) :
    lookup_reach H mem rec n attr (fuel + 1) base ptr =
      if seg_len ptr = 0 then some none
      else
        match lookup_both H mem n base ptr (seg_len ptr) rec with
        | none => none
        | some none => some none
        | some (some cur_item) =>
          if Int.land (feature_type H mem cur_item) attr ≠ 0 then
            some (some (cur_item, (strchr ptr 47).isSome, byte_at ptr (seg_len ptr + 1)))
          else if byte_at (next_seg ptr) 0 ≠ 0 then
            lookup_reach H mem rec n attr fuel cur_item (next_seg ptr)
          else some none := by
  rfl

theorem lookup_reach_spec (H : Header) (mem : List Nat) (rec : Int) (n : Nat) (attr : Int)
    (item : Nat) (sep : Bool) (after : Nat) :
    ∀ (fuel base : Nat) (ptr : List Nat),
      lookup_reach H mem rec n attr fuel base ptr = some (some (item, sep, after)) →
        ∃ (b j : Nat), seg_len (ptr.drop j) ≠ 0
          ∧ lookup_both H mem n b (ptr.drop j) (seg_len (ptr.drop j)) rec = some (some item)
          ∧ Int.land (feature_type H mem item) attr ≠ 0
          ∧ sep = (strchr (ptr.drop j) 47).isSome
          ∧ after = byte_at (ptr.drop j) (seg_len (ptr.drop j) + 1) := by
  intro fuel
  induction fuel with
  | zero => intro base ptr h; simp [lookup_reach] at h
  | succ k ih =>
    intro base ptr h
    rw [lookup_reach_succ] at h
    by_cases hl : seg_len ptr = 0
    · rw [if_pos hl] at h; cases h
    · rw [if_neg hl] at h
      cases hb : lookup_both H mem n base ptr (seg_len ptr) rec with
      | none => rw [hb] at h; cases h
      | some r =>
        cases r with
        | none => rw [hb] at h; cases h
        | some it =>
          rw [hb] at h
          simp only [] at h
          by_cases hg : Int.land (feature_type H mem it) attr ≠ 0
          · rw [if_pos hg] at h
            simp only [Option.some.injEq, Prod.mk.injEq] at h
            obtain ⟨h1, h2, h3⟩ := h
            subst h1
            exact ⟨base, 0, by simpa using hl, by simpa using hb, hg, by simpa using h2.symm,
              by simpa using h3.symm⟩
          · rw [if_neg hg] at h
            by_cases hn : byte_at (next_seg ptr) 0 ≠ 0
            · rw [if_pos hn] at h
              obtain ⟨b, j, hh⟩ := ih it (next_seg ptr) h
              unfold next_seg at hh
              split_ifs at hh
              · refine ⟨b, seg_len ptr + 1 + j, ?_⟩
                rw [List.drop_drop] at hh
                exact hh
              · refine ⟨b, seg_len ptr + j, ?_⟩
                rw [List.drop_drop] at hh
                exact hh
            · rw [if_neg hn] at h; cases h

/-- C14: on a loaded store, let the walk of `lookup_tree` first reach a granting item `item`,
with `sep` telling whether a `/` follows its segment and `after` the byte after that `/`.
When the attribute includes `feature_immutable_path_open` or `feature_immutable_path_write`
and `item` is a folder, `lookup_tree` returns `1` if a `/` and at least one more character
follow the segment, and `0` otherwise (the path ends at the folder, or with a single `/`
after it); no integrity check is run. When `item` is a file, or the attribute includes
neither, `lookup_tree` returns `1` provided the integrity check, if one is run, passes. The
last part ties `sep` and `after` to the text of the path. -/
theorem c14_folder_rule_immutable (B : Build) (H : Header) (X : Kernel) (fuel : Nat)
    (envs : List LoadEnv) (p : List Nat) (attr : Int) (f : Option file) (S : State)
    (item : Nat) (sep : Bool) (after : Nat)
    (hload : data_size H S.defex_packed_rules 0 ≠ 0) (hp : byte_at p 0 = 47)
    (hreach : lookup_reach H S.defex_packed_rules S.is_recovery fuel attr fuel 0 (p.drop 1)
      = some (some (item, sep, after))) :
    (Int.land attr (Int.lor H.feature_immutable_path_open H.feature_immutable_path_write) ≠ 0 →
      Int.land (feature_type H S.defex_packed_rules item) H.feature_is_file = 0 →
        lookup_tree B H X fuel envs (some p) attr f S
          = some ((if sep = true ∧ after ≠ 0 then 1 else 0), S))
      ∧ ((Int.land (feature_type H S.defex_packed_rules item) H.feature_is_file ≠ 0
            ∨ Int.land attr
                (Int.lor H.feature_immutable_path_open H.feature_immutable_path_write) = 0) →
          (∀ fl, f = some fl → B.integrity_enable = true →
            Int.land (feature_type H S.defex_packed_rules item) H.feature_is_file ≠ 0 →
            defex_integrity_default p ≠ 0 →
            ∃ S1, defex_check_integrity X H fuel fl (integrity H S.defex_packed_rules item) S
              = some (0, S1)) →
          ∃ S1, lookup_tree B H X fuel envs (some p) attr f S = some (1, S1))
      ∧ ∃ j, sep = (strchr (p.drop (j + 1)) 47).isSome
          ∧ after = byte_at (p.drop (j + 1)) (seg_len (p.drop (j + 1)) + 1) := by
  rw [lookup_tree_loaded B H X fuel envs p attr f S hload hp, hreach]
  simp only []
  refine ⟨?_, ?_, ?_⟩
  · intro hattr hfolder
    have hfr : lookup_folder_rule H S.defex_packed_rules attr item sep after
        = if sep = true ∧ after ≠ 0 then 1 else 0 := by
      unfold lookup_folder_rule
      rw [if_pos ⟨hattr, hfolder⟩]
      cases sep <;> by_cases ha : after = 0 <;> simp [ha]
    rw [← hfr]
    unfold lookup_grant
    cases f with
    | none => split_ifs <;> rfl
    | some fl =>
      simp only []
      rw [if_neg (not_not.mpr hfolder)]
      split_ifs <;> rfl
  · intro hcase hpass
    have hfr : lookup_folder_rule H S.defex_packed_rules attr item sep after = 1 := by
      unfold lookup_folder_rule
      rw [if_neg]
      rintro ⟨h1, h2⟩
      rcases hcase with h | h
      · exact h h2
      · exact h1 h
    cases f with
    | none =>
      refine ⟨S, ?_⟩
      unfold lookup_grant
      rw [hfr]
      split_ifs <;> rfl
    | some fl =>
      by_cases hi : B.integrity_enable = true
      · by_cases hfile : Int.land (feature_type H S.defex_packed_rules item) H.feature_is_file ≠ 0
        · by_cases hdef : defex_integrity_default p ≠ 0
          · obtain ⟨S1, hS1⟩ := hpass fl rfl hi hfile hdef
            refine ⟨S1, ?_⟩
            simp only [lookup_grant, hi, if_true, hS1, hfr]
            rw [if_pos hfile, if_pos hdef]
            simp
          · refine ⟨S, ?_⟩
            simp only [lookup_grant, hi, if_true, hfr]
            rw [if_pos hfile, if_neg hdef]
        · refine ⟨S, ?_⟩
          simp only [lookup_grant, hi, if_true, hfr]
          rw [if_neg hfile]
      · refine ⟨S, ?_⟩
        simp only [lookup_grant, hfr]
        rw [if_neg hi]
  · obtain ⟨b, j, _, _, _, h4, h5⟩ :=
      lookup_reach_spec H S.defex_packed_rules S.is_recovery fuel attr item sep after fuel 0
        (p.drop 1) hreach
    rw [List.drop_drop, show 1 + j = j + 1 by omega] at h4 h5
    exact ⟨j, h4, h5⟩

set_option maxRecDepth 100000 in
/-- C14 at the sample rules `/d` (folder) and `/f` (file), both with the attribute
`feature_immutable_path_open`: `/d/x` is granted at the folder `d`; `/d` and `/d/` are not;
`/f` is granted with a file handle whose digest is the saved one. -/
theorem c14_folder_rule_immutable_witness :
    lookup_tree sample_build sample_header sample_kernel 4 [] (some (cstr "/d/x")) 128 none
        (state_of store_immutable 0) = some ((if true = true ∧ 120 ≠ 0 then 1 else 0),
          state_of store_immutable 0)
      ∧ (lookup_tree sample_build sample_header sample_kernel 4 [] (some (cstr "/d")) 128 none
          (state_of store_immutable 0)).map (fun r => r.1) = some 0
      ∧ (lookup_tree sample_build sample_header sample_kernel 4 [] (some (cstr "/d/")) 128 none
          (state_of store_immutable 0)).map (fun r => r.1) = some 0
      ∧ ∃ S1, lookup_tree sample_build sample_header sample_kernel 4 [] (some (cstr "/f")) 128
          (some (sample_file [1, 2, 3])) (state_of store_immutable 0) = some (1, S1) :=
  ⟨(c14_folder_rule_immutable sample_build sample_header sample_kernel 4 [] (cstr "/d/x") 128
      none (state_of store_immutable 0) 39 true 120 (by decide) (by decide) (by decide)).1
      (by decide) (by decide),
    by decide, by decide,
    (c14_folder_rule_immutable sample_build sample_header sample_kernel 4 []
      (cstr "/f") 128 (some (sample_file [1, 2, 3])) (state_of store_immutable 0) 79 false 0
      (by decide) (by decide) (by decide)).2.1 (Or.inl (by decide))
      (fun fl hfl _ _ _ => by
        cases hfl
        exact ⟨_, rfl⟩)⟩


/-! ## C16: which items grant a requested attribute -/

set_option maxRecDepth 100000 in
/-- C16, as stated, fails: the rule `/a` has the feature mask 8, the requested attribute is
40 (the bits 8 and 32), so the mask does not contain every requested bit
(`8 & 40 = 8`, not `40`), and yet `lookup_tree("/a", 40, NULL)` returns `1`. -/
theorem c16_one_common_bit_grants :
    Int.land (feature_type sample_header store_ab 39) 40 ≠ 40
      ∧ (lookup_tree sample_build sample_header sample_kernel 4 [] (some (cstr "/a")) 40 none
          (state_of store_ab 0)).map (fun r => r.1) = some 1 := by
  decide

/-- C16, amended: on a loaded store, `lookup_tree` returns a non-zero verdict only at an item
matched for a segment of the path whose feature mask has at least one bit in common with the
requested attribute (`feature_type & attribute != 0`); the verdict is the one computed at
that item. An item matched on the way with no common bit does not end the walk with a
non-zero verdict. -/
theorem c16_grant_needs_common_bit (B : Build) (H : Header) (X : Kernel) (fuel : Nat)
    (envs : List LoadEnv) (p : List Nat) (attr : Int) (f : Option file) (S S1 : State)
    (v : Int) (hload : data_size H S.defex_packed_rules 0 ≠ 0)
    (hres : lookup_tree B H X fuel envs (some p) attr f S = some (v, S1)) (hv : v ≠ 0) :
    ∃ (item base j : Nat) (sep : Bool) (after : Nat),
      lookup_reach H S.defex_packed_rules S.is_recovery fuel attr fuel 0 (p.drop 1)
          = some (some (item, sep, after))
        ∧ lookup_both H S.defex_packed_rules fuel base (p.drop (j + 1))
            (seg_len (p.drop (j + 1))) S.is_recovery = some (some item)
        ∧ Int.land (feature_type H S.defex_packed_rules item) attr ≠ 0
        ∧ lookup_grant B H X fuel p attr f item sep after S = some (v, S1) := by
  have hp : byte_at p 0 = 47 := by
    by_contra hne
    unfold lookup_tree at hres
    simp only [ne_eq, hne, not_false_eq_true, if_true, Option.some.injEq, Prod.mk.injEq] at hres
    exact hv hres.1.symm
  rw [lookup_tree_loaded B H X fuel envs p attr f S hload hp] at hres
  cases hr : lookup_reach H S.defex_packed_rules S.is_recovery fuel attr fuel 0 (p.drop 1) with
  | none => rw [hr] at hres; cases hres
  | some r =>
    cases r with
    | none =>
      rw [hr] at hres
      simp only [Option.some.injEq, Prod.mk.injEq] at hres
      exact absurd hres.1.symm hv
    | some r =>
      obtain ⟨item, sep, after⟩ := r
      rw [hr] at hres
      obtain ⟨b, j, _, h2, h3, _, _⟩ :=
        lookup_reach_spec H S.defex_packed_rules S.is_recovery fuel attr item sep after fuel 0
          (p.drop 1) hr
      rw [List.drop_drop, show 1 + j = j + 1 by omega] at h2
      exact ⟨item, b, j, sep, after, rfl, h2, h3, hres⟩

set_option maxRecDepth 100000 in
/-- C16, amended, at the sample rule `/a` (mask 8) and the attribute 40. -/
theorem c16_grant_needs_common_bit_witness :
    ∃ (item base j : Nat) (sep : Bool) (after : Nat),
      lookup_reach sample_header (state_of store_ab 0).defex_packed_rules
          (state_of store_ab 0).is_recovery 4 40 4 0 ((cstr "/a").drop 1)
          = some (some (item, sep, after))
        ∧ lookup_both sample_header (state_of store_ab 0).defex_packed_rules 4 base
            ((cstr "/a").drop (j + 1)) (seg_len ((cstr "/a").drop (j + 1)))
            (state_of store_ab 0).is_recovery = some (some item)
        ∧ Int.land (feature_type sample_header (state_of store_ab 0).defex_packed_rules item)
            40 ≠ 0
        ∧ lookup_grant sample_build sample_header sample_kernel 4 (cstr "/a") 40 none item sep
            after (state_of store_ab 0) = some (1, state_of store_ab 0) :=
  c16_grant_needs_common_bit sample_build sample_header sample_kernel 4 [] (cstr "/a") 40 none
    (state_of store_ab 0) (state_of store_ab 0) 1 (by decide) rfl (by decide)


/-! ## C13: paths with an empty segment -/

set_option maxRecDepth 100000 in
/-- C13, as stated, fails: with the rule `/a` (attribute 8), `lookup_tree("/a//b", 8, NULL)`
returns `1`: the walk returns at `a`, whose mask meets the attribute, before it comes to the
empty segment. -/
theorem c13_grant_before_empty_segment :
    (lookup_tree sample_build sample_header sample_kernel 4 [] (some (cstr "/a//b")) 8 none
      (state_of store_ab 0)).map (fun r => r.1) = some 1 := by
  decide

theorem memcmp_append (t : List Nat) :
    ∀ (l : Nat) (a b : List Nat), l ≤ a.length → memcmp (a ++ t) b l = memcmp a b l := by
  intro l
  induction l with
  | zero => intro a b _; rfl
  | succ k ih =>
    intro a b hl
    cases a with
    | nil => simp at hl
    | cons x r =>
      have hl2 : k ≤ r.length := by simpa using hl
      have hb : byte_at ((x :: r) ++ t) 0 = byte_at (x :: r) 0 := rfl
      rw [memcmp, memcmp, hb]
      simp only [List.cons_append, List.tail_cons]
      rw [ih r b.tail hl2]

theorem lookup_dir_loop_append (H : Header) (mem : List Nat) (a t : List Nat) (l : Nat)
    (r : Int) (hl : l ≤ a.length) :
    ∀ (fuel item : Nat),
      lookup_dir_loop H mem (a ++ t) l r fuel item = lookup_dir_loop H mem a l r fuel item := by
  have hm : ∀ item, lookup_dir_match H mem item (a ++ t) l r
      = lookup_dir_match H mem item a l r := by
    intro item
    unfold lookup_dir_match
    rw [memcmp_append t l a _ hl]
  intro fuel
  induction fuel with
  | zero => intro item; rfl
  | succ k ih =>
    intro item
    simp only [lookup_dir_loop, hm, ih]

theorem lookup_both_append (H : Header) (mem : List Nat) (n base : Nat) (a t : List Nat)
    (l : Nat) (r : Int) (hl : l ≤ a.length) :
    lookup_both H mem n base (a ++ t) l r = lookup_both H mem n base a l r := by
  unfold lookup_both lookup_dir
  simp only [lookup_dir_loop_append H mem a t l _ hl]

theorem strchr_sep_within :
    ∀ (q : List Nat), (∀ x ∈ q, x % 256 ≠ 0) →
      ∃ i, i ≤ q.length ∧ ∀ t, strchr (q ++ 47 :: t) 47 = some i := by
  intro q
  induction q with
  | nil => intro _; exact ⟨0, le_refl _, fun t => by simp [strchr]⟩
  | cons x r ih =>
    intro h
    obtain ⟨i, hi, hs⟩ := ih (fun y hy => h y (by simp [hy]))
    by_cases hx : x % 256 = 47
    · exact ⟨0, Nat.zero_le _, fun t => by simp [strchr, hx]⟩
    · refine ⟨i + 1, by simpa using hi, fun t => ?_⟩
      rw [List.cons_append, strchr, if_neg hx, if_neg (h x (by simp)), hs t]
      rfl

theorem seg_len_nul (s : List Nat) (h : byte_at s 0 = 0) : seg_len s = 0 := by
  cases s with
  | nil => rfl
  | cons x r =>
    have hx : x % 256 = 0 := h
    have h47 : ¬ x % 256 = 47 := by omega
    unfold seg_len
    rw [strchr, if_neg h47, if_pos hx]
    simp [strlen, hx]

theorem seg_len_sep (rest : List Nat) : seg_len (47 :: rest) = 0 := by
  simp [seg_len, strchr]

theorem lookup_reach_extend (H : Header) (mem : List Nat) (rec : Int) (n : Nat) (attr : Int)
    (rest : List Nat) :
    ∀ (k base : Nat) (q : List Nat), (∀ x ∈ q, x % 256 ≠ 0) →
      lookup_reach H mem rec n attr k base (q ++ [47]) = some none →
      lookup_reach H mem rec n attr (k + 1) base (q ++ 47 :: 47 :: rest) = some none := by
  intro k
  induction k with
  | zero => intro base q _ h; simp [lookup_reach] at h
  | succ k ih =>
    intro base q hq h
    obtain ⟨i, hi, hs⟩ := strchr_sep_within q hq
    have hsa : strchr (q ++ [47]) 47 = some i := hs []
    have hse : strchr (q ++ 47 :: 47 :: rest) 47 = some i := hs (47 :: rest)
    have hla : seg_len (q ++ [47]) = i := by unfold seg_len; rw [hsa]
    have hle : seg_len (q ++ 47 :: 47 :: rest) = i := by unfold seg_len; rw [hse]
    have hna : next_seg (q ++ [47]) = (q ++ [47]).drop (i + 1) := by
      unfold next_seg; rw [hsa, hla]; rfl
    have hne : next_seg (q ++ 47 :: 47 :: rest) = (q ++ 47 :: 47 :: rest).drop (i + 1) := by
      unfold next_seg; rw [hse, hle]; rfl
    have hboth : lookup_both H mem n base (q ++ 47 :: 47 :: rest) i rec
        = lookup_both H mem n base (q ++ [47]) i rec := by
      have he : q ++ 47 :: 47 :: rest = (q ++ [47]) ++ 47 :: rest := by simp
      rw [he]
      exact lookup_both_append H mem n base (q ++ [47]) (47 :: rest) i rec (by simp; omega)
    rw [lookup_reach_succ, hla, hna] at h
    rw [lookup_reach_succ, hle, hne, hboth]
    by_cases hi0 : i = 0
    · rw [if_pos hi0]
    · rw [if_neg hi0] at h ⊢
      cases hb : lookup_both H mem n base (q ++ [47]) i rec with
      | none => rw [hb] at h; cases h
      | some r =>
        cases r with
        | none => rfl
        | some it =>
          rw [hb] at h
          simp only [] at h ⊢
          by_cases hg : Int.land (feature_type H mem it) attr ≠ 0
          · rw [if_pos hg] at h; cases h
          · rw [if_neg hg] at h ⊢
            by_cases hend : i = q.length
            · have hd : (q ++ 47 :: 47 :: rest).drop (i + 1) = 47 :: rest := by
                rw [hend]; exact drop_after_sep q (47 :: rest)
              have h47 : byte_at (47 :: rest) 0 ≠ 0 := by
                show 47 % 256 ≠ 0
                decide
              rw [hd, if_pos h47, lookup_reach_succ, seg_len_sep, if_pos rfl]
            · have hlt : i + 1 ≤ q.length := by omega
              have hda : (q ++ [47]).drop (i + 1) = q.drop (i + 1) ++ [47] :=
                List.drop_append_of_le_length hlt
              have hde : (q ++ 47 :: 47 :: rest).drop (i + 1)
                  = q.drop (i + 1) ++ 47 :: 47 :: rest :=
                List.drop_append_of_le_length hlt
              have hq2 : ∀ x ∈ q.drop (i + 1), x % 256 ≠ 0 :=
                fun x hx => hq x (List.mem_of_mem_drop hx)
              have hhead : byte_at (q.drop (i + 1) ++ [47]) 0 ≠ 0 := by
                cases hc : q.drop (i + 1) with
                | nil => decide
                | cons y r =>
                  rw [hc] at hq2
                  exact hq2 y (by simp)
              rw [hda, if_pos hhead] at h
              rw [hde]
              by_cases hgo : byte_at (q.drop (i + 1) ++ 47 :: 47 :: rest) 0 ≠ 0
              · rw [if_pos hgo]
                exact ih it _ hq2 h
              · rw [if_neg hgo]

theorem lookup_reach_mono (H : Header) (mem : List Nat) (rec : Int) (n : Nat) (attr : Int) :
    ∀ (k base : Nat) (ptr : List Nat) (x : Option (Nat × Bool × Nat)),
      lookup_reach H mem rec n attr k base ptr = some x →
      lookup_reach H mem rec n attr (k + 1) base ptr = some x := by
  intro k
  induction k with
  | zero => intro base ptr x h; simp [lookup_reach] at h
  | succ k ih =>
    intro base ptr x h
    rw [lookup_reach_succ] at h ⊢
    by_cases hl : seg_len ptr = 0
    · rw [if_pos hl] at h ⊢; exact h
    · rw [if_neg hl] at h ⊢
      cases hb : lookup_both H mem n base ptr (seg_len ptr) rec with
      | none => rw [hb] at h; cases h
      | some r =>
        cases r with
        | none => rw [hb] at h; exact h
        | some it =>
          rw [hb] at h
          simp only [] at h ⊢
          by_cases hg : Int.land (feature_type H mem it) attr ≠ 0
          · rw [if_pos hg] at h ⊢; exact h
          · rw [if_neg hg] at h ⊢
            by_cases hn : byte_at (next_seg ptr) 0 ≠ 0
            · rw [if_pos hn] at h ⊢; exact ih it _ x h
            · rw [if_neg hn] at h ⊢; exact h

theorem lookup_reach_mono_le (H : Header) (mem : List Nat) (rec : Int) (n : Nat) (attr : Int)
    (k base : Nat) (ptr : List Nat) (x : Option (Nat × Bool × Nat))
    (h : lookup_reach H mem rec n attr k base ptr = some x) :
    ∀ (m : Nat), k ≤ m → lookup_reach H mem rec n attr m base ptr = some x := by
  intro m hm
  induction m, hm using Nat.le_induction with
  | base => exact h
  | succ m _ ih => exact lookup_reach_mono H mem rec n attr m base ptr x ih

/-- C13, amended: on a loaded store `lookup_tree` returns `0` for the bare path `/`, for a
path that starts with `//`, and for a path `/q//rest` with two consecutive `/` after the text
`q`, provided the walk over the segments before the empty one (the walk of `/q/`) ends
without reaching an item whose feature mask has a bit in common with the attribute. -/
theorem c13_empty_segment_denied (B : Build) (H : Header) (X : Kernel) (fuel : Nat)
    (envs : List LoadEnv) (attr : Int) (f : Option file) (S : State)
    (hload : data_size H S.defex_packed_rules 0 ≠ 0) (hfuel : 0 < fuel) :
    (∀ p, byte_at p 0 = 47 → byte_at p 1 = 0 →
        lookup_tree B H X fuel envs (some p) attr f S = some (0, S))
      ∧ (∀ rest, lookup_tree B H X fuel envs (some (47 :: 47 :: rest)) attr f S = some (0, S))
      ∧ (∀ (q rest : List Nat) (k : Nat), (∀ x ∈ q, x % 256 ≠ 0) → k < fuel →
          lookup_reach H S.defex_packed_rules S.is_recovery fuel attr k 0 (q ++ [47])
            = some none →
          lookup_tree B H X fuel envs (some (47 :: (q ++ 47 :: 47 :: rest))) attr f S
            = some (0, S)) := by
  obtain ⟨m, rfl⟩ : ∃ m, fuel = m + 1 := ⟨fuel - 1, by omega⟩
  refine ⟨?_, ?_, ?_⟩
  · intro p hp h1
    have hd : byte_at (p.drop 1) 0 = 0 := by
      cases p with
      | nil => rfl
      | cons x r => exact h1
    rw [lookup_tree_loaded B H X (m + 1) envs p attr f S hload hp, lookup_reach_succ,
      if_pos (seg_len_nul _ hd)]
  · intro rest
    rw [lookup_tree_loaded B H X (m + 1) envs (47 :: 47 :: rest) attr f S hload rfl,
      lookup_reach_succ]
    simp only [List.drop_succ_cons, List.drop_zero]
    rw [if_pos (seg_len_sep rest)]
  · intro q rest k hq hk hcut
    have h1 := lookup_reach_extend H S.defex_packed_rules S.is_recovery (m + 1) attr rest k 0 q
      hq hcut
    have h2 := lookup_reach_mono_le H S.defex_packed_rules S.is_recovery (m + 1) attr (k + 1) 0
      _ none h1 (m + 1) (by omega)
    rw [lookup_tree_loaded B H X (m + 1) envs (47 :: (q ++ 47 :: 47 :: rest)) attr f S hload
      rfl]
    simp only [List.drop_succ_cons, List.drop_zero]
    rw [h2]

set_option maxRecDepth 100000 in
/-- C13, amended, at the sample rules `/a` (attribute 8) and `/a/b` (attribute 32): the paths
`/`, `//a` and, for the attribute 32 that `a` does not grant, `/a//b`. -/
theorem c13_empty_segment_denied_witness :
    lookup_tree sample_build sample_header sample_kernel 4 [] (some (cstr "/")) 8 none
        (state_of store_ab 0) = some (0, state_of store_ab 0)
      ∧ lookup_tree sample_build sample_header sample_kernel 4 [] (some (47 :: 47 :: cstr "a"))
          8 none (state_of store_ab 0) = some (0, state_of store_ab 0)
      ∧ lookup_tree sample_build sample_header sample_kernel 4 []
          (some (47 :: (cstr "a" ++ 47 :: 47 :: cstr "b"))) 32 none (state_of store_ab 0)
        = some (0, state_of store_ab 0) :=
  ⟨(c13_empty_segment_denied sample_build sample_header sample_kernel 4 [] 8 none
      (state_of store_ab 0) (by decide) (by decide)).1 (cstr "/") (by decide) (by decide),
    (c13_empty_segment_denied sample_build sample_header sample_kernel 4 [] 8 none
      (state_of store_ab 0) (by decide) (by decide)).2.1 (cstr "a"),
    (c13_empty_segment_denied sample_build sample_header sample_kernel 4 [] 32 none
      (state_of store_ab 0) (by decide) (by decide)).2.2 (cstr "a") (cstr "b") 1 (by decide)
      (by decide) (by decide)⟩


/-! ## C15: a grant needs an exact match at every level -/

theorem lookup_dir_loop_found (H : Header) (mem : List Nat) (nm : List Nat) (l : Nat)
    (r : Int) (item : Nat) :
    ∀ (fuel first : Nat), lookup_dir_loop H mem nm l r fuel first = some (some item) →
      in_list H mem first item ∧ lookup_dir_match H mem item nm l r = true := by
  intro fuel
  induction fuel with
  | zero => intro first h; simp [lookup_dir_loop] at h
  | succ k ih =>
    intro first h
    rw [lookup_dir_loop] at h
    by_cases hm : lookup_dir_match H mem first nm l r = true
    · rw [if_pos hm] at h
      simp only [Option.some.injEq] at h
      subst h
      exact ⟨in_list.head _, hm⟩
    · rw [if_neg hm] at h
      simp only [] at h
      by_cases ho : next_file H mem first % 2 ^ 32 ≠ 0
      · rw [if_pos ho] at h
        obtain ⟨h1, h2⟩ := ih _ h
        exact ⟨in_list.tail first item ho h1, h2⟩
      · rw [if_neg ho] at h
        cases h

theorem lookup_dir_found (H : Header) (mem : List Nat) (fuel base : Nat) (nm : List Nat)
    (l : Nat) (r : Int) (item : Nat)
    (h : lookup_dir H mem fuel base nm l r = some (some item)) :
    child H mem base item ∧ named H mem item nm l := by
  unfold lookup_dir at h
  by_cases hn : next_level H mem base = 0
  · rw [if_pos hn] at h; cases h
  · rw [if_neg hn] at h
    obtain ⟨h1, h2⟩ := lookup_dir_loop_found H mem nm l r item fuel _ h
    exact ⟨⟨hn, h1⟩, lookup_dir_match_named H mem item nm l r h2⟩

theorem lookup_both_found (H : Header) (mem : List Nat) (fuel base : Nat) (nm : List Nat)
    (l : Nat) (r : Int) (item : Nat)
    (h : lookup_both H mem fuel base nm l r = some (some item)) :
    child H mem base item ∧ named H mem item nm l := by
  unfold lookup_both at h
  cases hd : lookup_dir H mem fuel base nm l r with
  | none => rw [hd] at h; cases h
  | some x =>
    cases x with
    | none =>
      rw [hd] at h
      exact lookup_dir_found H mem fuel base nm l _ item h
    | some it =>
      rw [hd] at h
      simp only [Option.some.injEq] at h
      subst h
      exact lookup_dir_found H mem fuel base nm l r it hd

theorem lookup_reach_chain (H : Header) (mem : List Nat) (rec : Int) (n : Nat) (attr : Int)
    (item : Nat) (sep : Bool) (after : Nat) :
    ∀ (fuel base : Nat) (ptr : List Nat),
      lookup_reach H mem rec n attr fuel base ptr = some (some (item, sep, after)) →
        ∃ nodes, exact_chain H mem attr base ptr nodes ∧ nodes.getLast? = some item := by
  intro fuel
  induction fuel with
  | zero => intro base ptr h; simp [lookup_reach] at h
  | succ k ih =>
    intro base ptr h
    rw [lookup_reach_succ] at h
    by_cases hl : seg_len ptr = 0
    · rw [if_pos hl] at h; cases h
    · rw [if_neg hl] at h
      cases hb : lookup_both H mem n base ptr (seg_len ptr) rec with
      | none => rw [hb] at h; cases h
      | some r =>
        cases r with
        | none => rw [hb] at h; cases h
        | some it =>
          rw [hb] at h
          simp only [] at h
          obtain ⟨hc, hn⟩ := lookup_both_found H mem n base ptr _ rec it hb
          by_cases hg : Int.land (feature_type H mem it) attr ≠ 0
          · rw [if_pos hg] at h
            simp only [Option.some.injEq, Prod.mk.injEq] at h
            obtain ⟨h1, _, _⟩ := h
            subst h1
            exact ⟨[it], ⟨hc, hn, hl, hg⟩, rfl⟩
          · rw [if_neg hg] at h
            by_cases hgo : byte_at (next_seg ptr) 0 ≠ 0
            · rw [if_pos hgo] at h
              obtain ⟨nodes, hch, hlast⟩ := ih it (next_seg ptr) h
              cases nodes with
              | nil => exact absurd hch (by simp [exact_chain])
              | cons m rest =>
                refine ⟨it :: m :: rest, ⟨hc, hn, hl, not_not.mp hg, hch⟩, ?_⟩
                rw [List.getLast?_cons_cons]
                exact hlast
            · rw [if_neg hgo] at h; cases h

theorem lookup_both_unmatched (H : Header) (mem : List Nat) (fuel base : Nat) (nm : List Nat)
    (l : Nat) (r : Int)
    (h : next_level H mem base = 0
      ∨ ∃ items, siblings H mem (next_level H mem base) items ∧ items.length ≤ fuel
          ∧ ∀ i ∈ items, ¬ named H mem i nm l) :
    lookup_both H mem fuel base nm l r = some none := by
  have hd : ∀ r2, lookup_dir H mem fuel base nm l r2 = some none := by
    intro r2
    rcases h with h | ⟨items, hs, hlen, hnone⟩
    · unfold lookup_dir
      rw [if_pos h]
    · by_cases hn : next_level H mem base = 0
      · unfold lookup_dir
        rw [if_pos hn]
      · rw [lookup_dir_siblings H mem fuel base nm l r2 items hn hs hlen, find_none]
        intro y hy
        cases hm : lookup_dir_match H mem y nm l r2 with
        | false => rfl
        | true => exact absurd (lookup_dir_match_named H mem y nm l r2 hm) (hnone y hy)
  unfold lookup_both
  rw [hd r]
  exact hd _

theorem lookup_reach_dead_end (H : Header) (mem : List Nat) (rec : Int) (n : Nat) (attr : Int)
    (b : Nat) (q : List Nat)
    (hnone : lookup_both H mem n b q (seg_len q) rec = some none) :
    ∀ (nodes : List Nat) (fuel base : Nat) (ptr : List Nat), nodes.length < fuel →
      walk_passes H mem rec n attr base ptr nodes b q →
      lookup_reach H mem rec n attr fuel base ptr = some none := by
  intro nodes
  induction nodes with
  | nil =>
    intro fuel base ptr hf hw
    obtain ⟨k, rfl⟩ : ∃ k, fuel = k + 1 := ⟨fuel - 1, by simp at hf; omega⟩
    obtain ⟨h1, h2⟩ := hw
    subst h1 h2
    rw [lookup_reach_succ, hnone]
    split_ifs <;> rfl
  | cons m rest ih =>
    intro fuel base ptr hf hw
    obtain ⟨k, rfl⟩ : ∃ k, fuel = k + 1 := ⟨fuel - 1, by simp at hf; omega⟩
    obtain ⟨h1, h2, h3⟩ := hw
    rw [lookup_reach_succ, h1]
    simp only []
    rw [if_neg (not_not.mpr h2)]
    by_cases hl : seg_len ptr = 0
    · rw [if_pos hl]
    · rw [if_neg hl]
      by_cases hgo : byte_at (next_seg ptr) 0 ≠ 0
      · rw [if_pos hgo]
        exact ih k m (next_seg ptr) (by simpa using hf) h3
      · rw [if_neg hgo]

/-- C15: on a loaded store, when `lookup_tree` returns a non-zero value (`1` in particular),
the path starts with `/` and there are `k >= 1` items `n1..nk`, one per level from the child
list of the root, such that each is a child of the one before, its size is the length of its
segment and its name equals the segment byte for byte, `nk` has a bit in common with the
attribute and none of `n1..n(k-1)` has. And when the walk has passed items without a common
bit and the child list of the item it stands at has no item named by the next segment,
`lookup_tree` returns `0`. -/
theorem c15_grant_only_by_exact_match (B : Build) (H : Header) (X : Kernel) (fuel : Nat)
    (envs : List LoadEnv) (p : List Nat) (attr : Int) (f : Option file) (S : State)
    (hload : data_size H S.defex_packed_rules 0 ≠ 0) :
    (∀ v S1, lookup_tree B H X fuel envs (some p) attr f S = some (v, S1) → v ≠ 0 →
        byte_at p 0 = 47
          ∧ ∃ nodes, 1 ≤ nodes.length
              ∧ exact_chain H S.defex_packed_rules attr 0 (p.drop 1) nodes)
      ∧ (∀ (nodes : List Nat) (b : Nat) (q : List Nat), nodes.length < fuel →
          walk_passes H S.defex_packed_rules S.is_recovery fuel attr 0 (p.drop 1) nodes b q →
          (next_level H S.defex_packed_rules b = 0
            ∨ ∃ items, siblings H S.defex_packed_rules (next_level H S.defex_packed_rules b) items
                ∧ items.length ≤ fuel
                ∧ ∀ i ∈ items, ¬ named H S.defex_packed_rules i q (seg_len q)) →
          lookup_tree B H X fuel envs (some p) attr f S = some (0, S)) := by
  constructor
  · intro v S1 hres hv
    have hp : byte_at p 0 = 47 := by
      by_contra hne
      unfold lookup_tree at hres
      simp only [ne_eq, hne, not_false_eq_true, if_true, Option.some.injEq,
        Prod.mk.injEq] at hres
      exact hv hres.1.symm
    refine ⟨hp, ?_⟩
    rw [lookup_tree_loaded B H X fuel envs p attr f S hload hp] at hres
    cases hr : lookup_reach H S.defex_packed_rules S.is_recovery fuel attr fuel 0 (p.drop 1) with
    | none => rw [hr] at hres; cases hres
    | some r =>
      cases r with
      | none =>
        rw [hr] at hres
        simp only [Option.some.injEq, Prod.mk.injEq] at hres
        exact absurd hres.1.symm hv
      | some r =>
        obtain ⟨item, sep, after⟩ := r
        obtain ⟨nodes, hch, _⟩ :=
          lookup_reach_chain H S.defex_packed_rules S.is_recovery fuel attr item sep after fuel
            0 (p.drop 1) hr
        refine ⟨nodes, ?_, hch⟩
        cases nodes with
        | nil => exact absurd hch (by simp [exact_chain])
        | cons m rest => simp
  · intro nodes b q hlen hw hnone
    by_cases hp : byte_at p 0 = 47
    · rw [lookup_tree_loaded B H X fuel envs p attr f S hload hp,
        lookup_reach_dead_end H S.defex_packed_rules S.is_recovery fuel attr b q
          (lookup_both_unmatched H S.defex_packed_rules fuel b q _ S.is_recovery hnone)
          nodes fuel 0 (p.drop 1) hlen hw]
    · unfold lookup_tree
      simp only [ne_eq, hp, not_false_eq_true, if_true]

set_option maxRecDepth 100000 in
/-- C15 at the sample rules `/a` (attribute 8) and `/a/b` (attribute 32): the grant of
`/a/b` for the attribute 32 comes with a chain of exactly matching items, and `/a/c` is
denied, `a` having no child named `c`. -/
theorem c15_grant_only_by_exact_match_witness :
    (byte_at (cstr "/a/b") 0 = 47
        ∧ ∃ nodes, 1 ≤ nodes.length
            ∧ exact_chain sample_header (state_of store_ab 0).defex_packed_rules 32 0
                ((cstr "/a/b").drop 1) nodes)
      ∧ lookup_tree sample_build sample_header sample_kernel 4 [] (some (cstr "/a/c")) 32 none
          (state_of store_ab 0) = some (0, state_of store_ab 0) :=
  ⟨(c15_grant_only_by_exact_match sample_build sample_header sample_kernel 4 []
      (cstr "/a/b") 32 none (state_of store_ab 0) (by decide)).1 1 (state_of store_ab 0) rfl
      (by decide),
    (c15_grant_only_by_exact_match sample_build sample_header sample_kernel 4 []
      (cstr "/a/c") 32 none (state_of store_ab 0) (by decide)).2 [39] 39 (cstr "c") (by decide)
      ⟨by decide, by decide, rfl, rfl⟩
      (Or.inr ⟨[79], by unfold siblings; decide, by decide, by unfold named; decide⟩)⟩

end Defex
